import Mathlib

/-!
# Metronome: look-ahead beat scheduler

A shallow embedding of `src/js/metronome.js` (class `Metronome`) and
`src/js/timeworker.js` (the worker's `onmessage`), followed by theorems about them.

Modelling conventions.

* Times (seconds) and tempi are rationals `ℚ`.  The class is embedded twice where
  it computes with times.  `nextNote`, `scheduleNote`, `scheduler` and
  `onWorkerMessage` compute in exact arithmetic: they are the idealisation the
  statements "in exact arithmetic" are about.  `nextNote64`, `scheduleNote64`,
  `scheduler64` and `onWorkerMessage64` compute as the code does, in IEEE 754
  doubles (every operation rounds, `Float64.round`), and with the `RangeError`
  the tone emitter raises for a negative start time.  For a tempo of `0` Lean's
  `60 / 0 = 0` differs from JavaScript's `Infinity`; the theorems about
  scheduled times assume a non-zero tempo.
* `audioContext.currentTime` is an argument (`now`, `currentTime`) of the
  operation that reads it, one value per operation.
* A JavaScript `TypeError` (a property read on `null`/`undefined`) is the value
  `Except.error Fault.typeError`.  The `while` loop of `#scheduler` is run with
  a fuel bound; `Fault.outOfFuel` is the only result that has no counterpart in
  the source.
* The private field `#current16thNote` has no initialiser: it is `none`
  (`undefined`) until `start()` assigns `0`.
* `postMessage` to the worker is delivered at once: the worker's state is the
  field `timeWorker`.  The worker's answers (`'starting'`, `'tick'`, ...) reach
  the metronome as calls of `onWorkerMessage`.
-/

namespace Metronome

/-- Ways an operation can end without a state. -/
inductive Fault where
  /-- JavaScript `TypeError`: a property access on `null` or `undefined`. -/
  | typeError
  /-- The scheduler would go on with a non-numeric cursor (`undefined`, then `NaN`). -/
  | nonNumericCursor
  /-- The fuel given to the `while` loop of `#scheduler` ran out. -/
  | outOfFuel
  /-- Web Audio `RangeError`: `osc.start(when)` with a negative `when`. -/
  | rangeError
  deriving DecidableEq, Repr

/-- An entry `{note, time}` of `#notesInQueue`. -/
structure NoteEvent where
  note : Nat
  time : ℚ
  deriving DecidableEq, Repr

/-- An oscillator handed to the audio context: `frequency.value`, `start(t)`, `stop(t)`. -/
structure Tone where
  frequency : ℚ
  startTime : ℚ
  stopTime : ℚ
  deriving DecidableEq, Repr

/-- The part of the Web Audio context the class writes to: the oscillators started. -/
structure AudioContext where
  tones : List Tone
  deriving DecidableEq, Repr

/-- The two CSS classes `#draw` puts on a step button. -/
inductive BlinkClass where
  | blink4th
  | blink16th
  deriving DecidableEq, Repr

/-! ## The worker (`timeworker.js`) -/

/-- A message received by the worker: `'start'`, `{interval: ms}`, `'stop'`, or anything else. -/
inductive WorkerMsg where
  | start
  | interval (ms : ℚ)
  | stop
  | other
  deriving DecidableEq, Repr

/-- The globals of `timeworker.js` (`timerId`, `interval`) together with the
interval timers of its runtime: `liveTimers` holds the id and period of every
timer armed by `setInterval` and not yet cleared, `nextTimerId` the id the next
`setInterval` returns (ids are positive). -/
structure TimeWorker where
  timerId : Option Nat
  interval : ℚ
  liveTimers : List (Nat × ℚ)
  nextTimerId : Nat
  deriving DecidableEq, Repr

namespace TimeWorker

/-- A worker just loaded: `timerId = null`, `interval = 100`, no timer armed. -/
def initial : TimeWorker :=
  { timerId := none, interval := 100, liveTimers := [], nextTimerId := 1 }

/-- Runtime `setInterval(f, ms)`: arms a new timer and returns its id. -/
def setInterval (ms : ℚ) (w : TimeWorker) : Nat × TimeWorker :=
  (w.nextTimerId,
    { w with liveTimers := w.liveTimers ++ [(w.nextTimerId, ms)],
             nextTimerId := w.nextTimerId + 1 })

/-- Runtime `clearInterval(id)`: disarms the timer of that id; `null` and unknown ids do nothing. -/
def clearInterval (id : Option Nat) (w : TimeWorker) : TimeWorker :=
  match id with
  | none => w
  | some i => { w with liveTimers := w.liveTimers.filter (fun t => t.1 != i) }

/-- JavaScript truthiness of `timerId`: `null` and `0` are falsy. -/
def timerIdTruthy (w : TimeWorker) : Bool :=
  match w.timerId with
  | none => false
  | some i => i != 0

/-- The handler `onmessage` of `timeworker.js`; the messages it posts back are not part of the
state. -/
def onmessage (msg : WorkerMsg) (w : TimeWorker) : TimeWorker :=
  match msg with
  | .start =>
      let (id, w1) := setInterval w.interval w
      { w1 with timerId := some id }
  | .interval ms =>
      if ms ≠ 0 then
        let w1 := { w with interval := ms }
        if w1.timerIdTruthy then
          let w2 := clearInterval w1.timerId w1
          let (id, w3) := setInterval w2.interval w2
          { w3 with timerId := some id }
        else w1
      else w
  | .stop =>
      let w1 := clearInterval w.timerId w
      { w1 with timerId := none }
  | .other => w

/-- The worker after a sequence of messages, oldest first. -/
def receive (msgs : List WorkerMsg) (w : TimeWorker) : TimeWorker :=
  msgs.foldl (fun w m => onmessage m w) w

end TimeWorker

/-! ## The class `Metronome` -/

/-- The private fields of `class Metronome`, and `stepButtons`: the `blink-` classes present in
the page, as pairs (index `i` of the element `step-i`, class). -/
structure State where
  audioContext : Option AudioContext
  unlocked : Bool
  timeWorker : TimeWorker
  isPlaying : Bool
  tempo : ℚ
  nextNoteTime : ℚ
  current16thNote : Option Nat
  notesInQueue : List NoteEvent
  noteResolution : Nat
  last16thNoteDrawn : Int
  stepButtons : List (Nat × BlinkClass)
  deriving DecidableEq, Repr

/-- Field `#scheduleAheadTime`: how far ahead to schedule audio (seconds). -/
def scheduleAheadTime : ℚ := 1 / 10

/-- Field `#noteLength`: length of a beep (seconds). -/
def noteLength : ℚ := 1 / 20

/-- Field `#lookahead`: how often the scheduling function is called (milliseconds). -/
def lookahead : ℚ := 25

/-- Modelled from the spec: the page (`index.html`, not among the sources) has one step button
per sub-beat slot, `step-0` .. `step-15`. -/
def stepCount : Nat := 16

/-- The field initialisers of the class, with the worker created by `#setupTimeWorker`. -/
def initial (w : TimeWorker) : State :=
  { audioContext := none, unlocked := false, timeWorker := w, isPlaying := false,
    tempo := 120, nextNoteTime := 0, current16thNote := none, notesInQueue := [],
    noteResolution := 0, last16thNoteDrawn := -1, stepButtons := [] }

/-- Method `#setupTimeWorker` (run by the constructor), given whether `window.Worker` exists.
Returns the console lines written and the outcome: without a worker the assignment
`this.#timeWorker.onmessage = ...` dereferences `undefined`. -/
def setupTimeWorker (workerAvailable : Bool) : List String × Except Fault TimeWorker :=
  let (timeWorker, console) : Option TimeWorker × List String :=
    if workerAvailable then (some TimeWorker.initial, [])
    else (none, ["Web Worker not available."])
  match timeWorker with
  | none => (console, .error .typeError)
  | some w => (console, .ok w)

/-- The constructor `new Metronome()`: console output and the object built, if any. -/
def construct (workerAvailable : Bool) : List String × Except Fault State :=
  let (console, r) := setupTimeWorker workerAvailable
  (console, r.map initial)

/-- Method `#nextNote` in exact arithmetic: advance time by a 16th note at the current tempo,
and the cursor by one, wrapping at 16.  An `undefined` cursor stays non-numeric.  The code's
doubles are in `nextNote64`. -/
def nextNote (s : State) : State :=
  let secondsPerBeat : ℚ := 60 / s.tempo
  { s with
    nextNoteTime := s.nextNoteTime + (1 / 4) * secondsPerBeat
    current16thNote := s.current16thNote.map (fun c => if c + 1 = 16 then 0 else c + 1) }

/-- Method `#scheduleNote` in exact arithmetic: push the note on the queue, then, unless the
resolution filters the beat out, start an oscillator at `time` and stop it `noteLength` later.
The tone emitter is taken to accept every start time; Web Audio's `RangeError` for a negative
one is in `scheduleNote64`. -/
def scheduleNote (beatNumber : Nat) (time : ℚ) (s : State) : Except Fault State :=
  let s1 := { s with notesInQueue := s.notesInQueue ++ [{ note := beatNumber, time := time }] }
  if s1.noteResolution = 1 ∧ beatNumber % 2 ≠ 0 then .ok s1
  else if s1.noteResolution = 2 ∧ beatNumber % 4 ≠ 0 then .ok s1
  else
    match s1.audioContext with
    | none => .error .typeError
    | some ctx =>
        let frequency : ℚ :=
          if beatNumber % 16 = 0 then 880 else if beatNumber % 4 = 0 then 440 else 220
        let tone : Tone :=
          { frequency := frequency, startTime := time, stopTime := time + noteLength }
        .ok { s1 with audioContext := some { tones := ctx.tones ++ [tone] } }

/-- Method `#scheduler` in exact arithmetic: the `while` loop, bounded by `fuel` iterations.
The code's doubles are in `scheduler64`. -/
def scheduler : Nat → ℚ → State → Except Fault State
  | 0, _, _ => .error .outOfFuel
  | fuel + 1, now, s =>
      match s.audioContext with
      | none => .error .typeError
      | some _ =>
          if s.nextNoteTime < now + scheduleAheadTime then
            match s.current16thNote with
            | none => .error .nonNumericCursor
            | some c =>
                match scheduleNote c s.nextNoteTime s with
                | .error e => .error e
                | .ok s1 => scheduler fuel now (nextNote s1)
          else .ok s

/-- The handler `#timeWorker.onmessage` installed by `#setupTimeWorker`: every message of the
worker (a tick or an acknowledgement) runs the scheduler when playing. -/
def onWorkerMessage (fuel : Nat) (now : ℚ) (s : State) : Except Fault State :=
  if s.isPlaying then scheduler fuel now s else .ok s

/-- Method `#resetStepButtons`: remove both `blink-` classes from every element that has one. -/
def resetStepButtons (s : State) : State :=
  { s with stepButtons := [] }

/-- The `while` loop of `#draw`: pop the oldest notes whose time is before `currentTime`,
remembering the last one popped. -/
def drainQueue (currentTime : ℚ) : List NoteEvent → Int → Int × List NoteEvent
  | [], currentNote => (currentNote, [])
  | e :: rest, currentNote =>
      if e.time < currentTime then drainQueue currentTime rest (e.note : Int)
      else (currentNote, e :: rest)

/-- The highlight update of `#draw` ("draw only if the note has moved") for the beat
`currentNote`.  The element `step-currentNote` exists for `0 ≤ currentNote < stepCount` only;
otherwise `getElementById` returns `null`. -/
def redraw (currentNote : Int) (s : State) : Except Fault State :=
  if s.last16thNoteDrawn ≠ currentNote then
    let noteValue := if currentNote % 4 ≠ 0 then BlinkClass.blink16th else BlinkClass.blink4th
    let s1 := resetStepButtons s
    if 0 ≤ currentNote ∧ currentNote < stepCount then
      .ok { s1 with
            stepButtons := s1.stepButtons ++ [(currentNote.toNat, noteValue)]
            last16thNoteDrawn := currentNote }
    else .error .typeError
  else .ok s

/-- The end of `#draw`: "the box is not playing and a step button is on". -/
def clearWhenStopped (s : State) : State :=
  if !s.isPlaying && s.stepButtons.length != 0 then resetStepButtons s else s

/-- Method `#draw`, one animation frame. -/
def draw (currentTime : ℚ) (s : State) : Except Fault State :=
  match s.audioContext with
  | none => .ok (clearWhenStopped s)
  | some _ =>
      let drained := drainQueue currentTime s.notesInQueue s.last16thNoteDrawn
      match redraw drained.1 { s with notesInQueue := drained.2 } with
      | .error e => .error e
      | .ok s1 => .ok (clearWhenStopped s1)

/-- Method `start()` at clock time `now`. -/
def start (now : ℚ) (s : State) : State :=
  let ctx : AudioContext :=
    match s.audioContext with
    | none => { tones := [] }
    | some c => c
  { s with
    audioContext := some ctx
    unlocked := true
    isPlaying := true
    current16thNote := some 0
    nextNoteTime := now
    timeWorker := s.timeWorker.onmessage .start }

/-- Method `stop()`. -/
def stop (s : State) : State :=
  { s with isPlaying := false, timeWorker := s.timeWorker.onmessage .stop }

/-- Method `getTempo()`. -/
def getTempo (s : State) : ℚ := s.tempo

/-- Method `setTempo(tempo)`. -/
def setTempo (tempo : ℚ) (s : State) : State :=
  { s with tempo := tempo }

/-- Method `tempoChange(tempo)`. -/
def tempoChange (tempo : ℚ) (s : State) : State :=
  { s with tempo := tempo, timeWorker := s.timeWorker.onmessage (.interval lookahead) }

/-- Method `setResolution(resolution)`. -/
def setResolution (resolution : Nat) (s : State) : State :=
  { s with noteResolution := resolution }

/-! ## The page script (`main.js`) -/

/-- The `click` listener of the start/stop button, at clock time `now`. -/
def startStopClick (now : ℚ) (s : State) : State :=
  if s.isPlaying then stop s else start now s

/-- The `input` listener of the tempo control: the value goes to `tempoChange` when playing and
to `setTempo` otherwise, unchecked. -/
def tempoInput (value : ℚ) (s : State) : State :=
  if s.isPlaying then tempoChange value s else setTempo value s

/-- The `change` listener of the resolution control. -/
def resolutionChange (value : Nat) (s : State) : State :=
  setResolution value s

/-! ## Runs: sequences of calls on one object -/

/-- A call from outside on a constructed object: a transport control, a message of the worker
(`tick`), or an animation frame (`draw`); the clock-reading ones carry the clock time read. -/
inductive Action where
  | start (now : ℚ)
  | stop
  | tick (now : ℚ)
  | draw (now : ℚ)
  | setTempo (tempo : ℚ)
  | tempoChange (tempo : ℚ)
  | setResolution (resolution : Nat)
  deriving DecidableEq, Repr

/-- The effect of one call. -/
def step (fuel : Nat) (a : Action) (s : State) : Except Fault State :=
  match a with
  | .start now => .ok (start now s)
  | .stop => .ok (stop s)
  | .tick now => onWorkerMessage fuel now s
  | .draw now => draw now s
  | .setTempo tempo => .ok (setTempo tempo s)
  | .tempoChange tempo => .ok (tempoChange tempo s)
  | .setResolution resolution => .ok (setResolution resolution s)

/-- The effect of a sequence of calls, oldest first; it stops at the first fault. -/
def run (fuel : Nat) : List Action → State → Except Fault State
  | [], s => .ok s
  | a :: rest, s =>
      match step fuel a s with
      | .error e => .error e
      | .ok s' => run fuel rest s'

/-- The clock time a call reads, if it reads the clock. -/
def Action.clock : Action → Option ℚ
  | .start now => some now
  | .tick now => some now
  | .draw now => some now
  | _ => none

/-- The clock never goes back along the calls. -/
def ClockMonotone (acts : List Action) : Prop :=
  (acts.filterMap Action.clock).Pairwise (fun a b => a ≤ b)

/-- Every tempo set along the calls is positive. -/
def TempoPositive (acts : List Action) : Prop :=
  ∀ a ∈ acts, ∀ tempo, a = .setTempo tempo ∨ a = .tempoChange tempo → 0 < tempo

/-- Each queued event's time is at most the time of the event queued after it. -/
def QueueOrdered (q : List NoteEvent) : Prop :=
  q.Chain' (fun a b => a.time ≤ b.time)

/-- Along the run of `acts` from `s`, every `start()` happens at a clock time that is not
before the time of any event then in the queue. -/
def StartsAfterQueue (fuel : Nat) : List Action → State → Prop
  | [], _ => True
  | a :: rest, s =>
      (match a with
        | .start now => ∀ e ∈ s.notesInQueue, e.time ≤ now
        | _ => True) ∧
      match step fuel a s with
      | .error _ => True
      | .ok s' => StartsAfterQueue fuel rest s'

/-- A quick stop and restart: started at 0, ticks at 0 and 0.1 (the default worker period),
stopped, started again at 0.12 and ticked. -/
def quickRestart : List Action :=
  [.start 0, .tick 0, .tick (1 / 10), .stop, .start (3 / 25), .tick (3 / 25)]

/-! ## Observations and invariants used in the statements -/

/-- The events the claims expect of `n` scheduler iterations from cursor `c` and time `t` with
step `d`: event `k` has beat `(c + k) % 16` and time `t + k * d`. -/
def gridEvents (c : Nat) (t d : ℚ) (n : Nat) : List NoteEvent :=
  (List.range n).map (fun k => { note := (c + k) % 16, time := t + k * d })

/-- What `#scheduleNote`, `#nextNote` and `#scheduler` leave alone. -/
structure SchedFrame (s s' : State) : Prop where
  unlocked : s'.unlocked = s.unlocked
  timeWorker : s'.timeWorker = s.timeWorker
  isPlaying : s'.isPlaying = s.isPlaying
  tempo : s'.tempo = s.tempo
  noteResolution : s'.noteResolution = s.noteResolution
  last16thNoteDrawn : s'.last16thNoteDrawn = s.last16thNoteDrawn
  stepButtons : s'.stepButtons = s.stepButtons
  audioContext : s'.audioContext.isSome = s.audioContext.isSome

/-- What `#draw` leaves alone. -/
structure DrawFrame (s s' : State) : Prop where
  audioContext : s'.audioContext = s.audioContext
  unlocked : s'.unlocked = s.unlocked
  timeWorker : s'.timeWorker = s.timeWorker
  isPlaying : s'.isPlaying = s.isPlaying
  tempo : s'.tempo = s.tempo
  nextNoteTime : s'.nextNoteTime = s.nextNoteTime
  current16thNote : s'.current16thNote = s.current16thNote
  noteResolution : s'.noteResolution = s.noteResolution

/-- A state just started at clock time 0 with the default tempo (120 bpm), used as a sample. -/
def sampleStarted : State := start 0 (initial TimeWorker.initial)

/-- The invariant behind the ordering of the queue: the queue is sorted by time, no queued
time exceeds the next-note time, the tempo is positive, and a playing object has a cursor in
`[0, 16)`. -/
structure QueueInv (s : State) : Prop where
  sorted : s.notesInQueue.Pairwise (fun a b => a.time ≤ b.time)
  bounded : ∀ e ∈ s.notesInQueue, e.time ≤ s.nextNoteTime
  tempo : 0 < s.tempo
  cursor : s.isPlaying = true → ∃ c, s.current16thNote = some c ∧ c < 16

/-- One start followed by two ticks, a frame, a stop and a later frame. -/
def singleRun : List Action :=
  [.start 0, .tick 0, .tick (1 / 10), .draw (3 / 20), .stop, .draw (1 / 5)]

/-- Whether the call is a `start()`. -/
def Action.isStart : Action → Bool
  | .start _ => true
  | _ => false

/-- Whether the call assigns the tempo (`setTempo` or `tempoChange`). -/
def Action.setsTempo : Action → Bool
  | .setTempo _ => true
  | .tempoChange _ => true
  | _ => false

/-- The events a call appends to the queue: what a tick handling that ends has pushed behind the
events already there.  No other call pushes (`step_queue`). -/
def queuedBy (fuel : Nat) (a : Action) (s : State) : List NoteEvent :=
  match a with
  | .tick now =>
      match onWorkerMessage fuel now s with
      | .error _ => []
      | .ok s' => s'.notesInQueue.drop s.notesInQueue.length
  | _ => []

/-- The events queued along a run, oldest first. -/
def queuedDuring (fuel : Nat) : List Action → State → List NoteEvent
  | [], _ => []
  | a :: rest, s =>
      match step fuel a s with
      | .error _ => []
      | .ok s' => queuedBy fuel a s ++ queuedDuring fuel rest s'

/-- Two tick handlings: at clock time 0 and at 0.1. -/
def twoTicks : List Action := [.tick 0, .tick (1 / 10)]

/-- The oscillators started so far (none without an audio context). -/
def tonesOf (s : State) : List Tone :=
  match s.audioContext with
  | none => []
  | some ctx => ctx.tones

/-- The tones a call `#scheduleNote(beatNumber, time)` hands to the audio context: the
oscillators it has started behind those already there. -/
def emitted (s : State) (beatNumber : Nat) (time : ℚ) : List Tone :=
  match scheduleNote beatNumber time s with
  | .error _ => []
  | .ok s' => (tonesOf s').drop (tonesOf s).length

/-- A playing state whose cursor is on the last slot, 15. -/
def sampleAtLastSlot : State := { sampleStarted with current16thNote := some 15 }

/-- A playing state whose queue holds one event, due exactly at clock time 0. -/
def dueNow : State := { sampleStarted with notesInQueue := [⟨0, 0⟩] }

/-- A playing state with three queued events, timed 0, 1/8 and 1/4. -/
def threeQueued : State :=
  { sampleStarted with notesInQueue := [⟨0, 0⟩, ⟨1, 1 / 8⟩, ⟨2, 1 / 4⟩] }

/-- A run with tempo changes: 90 bpm set while stopped, 60 bpm while playing. -/
def tempoRun : List Action :=
  [.setTempo 90, .start 0, .tick 0, .tempoChange 60, .tick (1 / 10)]

/-- What every state of a constructed object satisfies (`run_ready`): a numeric cursor is in
`[0, 16)`, and a playing object has an audio context and a numeric cursor. -/
structure Ready (s : State) : Prop where
  cursor : ∀ c, s.current16thNote = some c → c < 16
  playing : s.isPlaying = true →
    s.audioContext.isSome = true ∧ ∃ c, s.current16thNote = some c

/-- A state playing at 60 bpm, just started at clock time 0. -/
def slowPlaying : State := start 0 (setTempo 60 (initial TimeWorker.initial))

/-- A stopped state with a residual queued event (beat 1 at 1/8 s) and step 0 highlighted. -/
def stoppedWithResidue : State :=
  { stop sampleStarted with
    notesInQueue := [⟨1, 1 / 8⟩], last16thNoteDrawn := 0, stepButtons := [(0, .blink4th)] }

/-- A playing state that displays beat 3 and has beat 4 queued at 1/2 s. -/
def showingBeatThree : State :=
  { sampleStarted with
    notesInQueue := [⟨4, 1 / 2⟩], last16thNoteDrawn := 3, stepButtons := [(3, .blink16th)] }

/-- A first beat drawn, a stop, a frame, and a restart one second later with its first tick. -/
def restartOnBeatZero : List Action :=
  [.start 0, .tick 0, .draw (1 / 100), .stop, .draw (1 / 50), .start 1, .tick 1]

/-- Two states agree on everything the scheduler reads or writes apart from the resolution and
the oscillators started. -/
structure SchedAgree (s t : State) : Prop where
  audioContext : s.audioContext.isSome = t.audioContext.isSome
  isPlaying : s.isPlaying = t.isPlaying
  tempo : s.tempo = t.tempo
  nextNoteTime : s.nextNoteTime = t.nextNoteTime
  current16thNote : s.current16thNote = t.current16thNote
  notesInQueue : s.notesInQueue = t.notesInQueue

/-- Two outcomes of a tick handling agree: the same fault, or states that agree. -/
def OutcomeAgree : Except Fault State → Except Fault State → Prop
  | .ok a, .ok b => SchedAgree a b
  | .error e₁, .error e₂ => e₁ = e₂
  | _, _ => False

/-- A state playing at -120 bpm, just started at clock time 0. -/
def negativeTempoPlaying : State := start 0 (setTempo (-120) (initial TimeWorker.initial))

/-- A just constructed object with the resolution set to Quarter (120 bpm). -/
def quarterIdle : State := setResolution 2 (initial TimeWorker.initial)

/-- Whether the call assigns the resolution. -/
def Action.setsResolution : Action → Bool
  | .setResolution _ => true
  | _ => false

/-- The closed form of `emitted` in a state with an audio context (`emitted_eq`): the tones
`#scheduleNote` starts for a beat at a time under a resolution. -/
def tonesFor (resolution beatNumber : Nat) (time : ℚ) : List Tone :=
  if (resolution = 1 ∧ beatNumber % 2 ≠ 0) ∨ (resolution = 2 ∧ beatNumber % 4 ≠ 0) then []
  else [{ frequency := if beatNumber % 16 = 0 then 880 else if beatNumber % 4 = 0 then 440
                       else 220,
          startTime := time, stopTime := time + noteLength }]

/-- The tones a call hands to the audio context: the oscillators started behind those already
there. -/
def emittedBy (fuel : Nat) (a : Action) (s : State) : List Tone :=
  match step fuel a s with
  | .error _ => []
  | .ok s' => (tonesOf s').drop (tonesOf s).length

/-- The tones started along a run, oldest first. -/
def emittedDuring (fuel : Nat) : List Action → State → List Tone
  | [], _ => []
  | a :: rest, s =>
      match step fuel a s with
      | .error _ => []
      | .ok s' => emittedBy fuel a s ++ emittedDuring fuel rest s'

/-- Ticks at 0, 0.5 and 1 s: at 120 bpm they queue the beats 0 .. 8. -/
def threeTicks : List Action := [.tick 0, .tick (1 / 2), .tick 1]

/-! ## The scheduler in the code's double arithmetic

JavaScript numbers are IEEE 754 binary64.  A finite double is represented by the rational it
denotes, and an arithmetic operation by the exact operation followed by `Float64.round`, the
rounding to nearest with ties to even at 53 significant bits.  The exponent is not bounded: the
model is that of results in the normal range (no overflow to `Infinity`, no subnormals, no
`NaN`, no division by zero). -/

namespace Float64

/-- Rounding of a rational to an integer: to nearest, a tie to the even integer. -/
def roundHalfEven (y : ℚ) : ℤ :=
  if y - ⌊y⌋ < 1 / 2 then ⌊y⌋
  else if 1 / 2 < y - ⌊y⌋ then ⌊y⌋ + 1
  else if ⌊y⌋ % 2 = 0 then ⌊y⌋ else ⌊y⌋ + 1

/-- Rounding of a positive rational `x` to 53 significant bits: with `e = ⌊log₂ x⌋`, the
significand `x / 2 ^ (e - 52)` lies in `[2 ^ 52, 2 ^ 53)` and is rounded to an integer. -/
def roundPos (x : ℚ) : ℚ :=
  roundHalfEven (x / 2 ^ (Int.log 2 x - 52)) * 2 ^ (Int.log 2 x - 52)

/-- The double nearest to a rational (ties to even). -/
def round (x : ℚ) : ℚ :=
  if x = 0 then 0 else if 0 < x then roundPos x else -roundPos (-x)

/-- Double addition `a + b`. -/
def add (a b : ℚ) : ℚ := round (a + b)

/-- Double multiplication `a * b`. -/
def mul (a b : ℚ) : ℚ := round (a * b)

/-- Double division `a / b`. -/
def div (a b : ℚ) : ℚ := round (a / b)

end Float64

/-- Field `#scheduleAheadTime` as the code holds it: the double of the literal `0.1`. -/
def scheduleAheadTime64 : ℚ := Float64.round (1 / 10)

/-- Field `#noteLength` as the code holds it: the double of the literal `0.05`. -/
def noteLength64 : ℚ := Float64.round (1 / 20)

/-- Method `#nextNote` in double arithmetic: `60.0 / tempo`, `0.25 * secondsPerBeat` and the
`+=` each round. -/
def nextNote64 (s : State) : State :=
  let secondsPerBeat : ℚ := Float64.div 60 s.tempo
  { s with
    nextNoteTime := Float64.add s.nextNoteTime (Float64.mul (1 / 4) secondsPerBeat)
    current16thNote := s.current16thNote.map (fun c => if c + 1 = 16 then 0 else c + 1) }

/-- Method `#scheduleNote` in double arithmetic and with the tone emitter of Web Audio:
`osc.start(time)` throws a `RangeError` for a negative `time`. -/
def scheduleNote64 (beatNumber : Nat) (time : ℚ) (s : State) : Except Fault State :=
  let s1 := { s with notesInQueue := s.notesInQueue ++ [{ note := beatNumber, time := time }] }
  if s1.noteResolution = 1 ∧ beatNumber % 2 ≠ 0 then .ok s1
  else if s1.noteResolution = 2 ∧ beatNumber % 4 ≠ 0 then .ok s1
  else
    match s1.audioContext with
    | none => .error .typeError
    | some ctx =>
        let frequency : ℚ :=
          if beatNumber % 16 = 0 then 880 else if beatNumber % 4 = 0 then 440 else 220
        if time < 0 then .error .rangeError
        else
          let tone : Tone :=
            { frequency := frequency, startTime := time,
              stopTime := Float64.add time noteLength64 }
          .ok { s1 with audioContext := some { tones := ctx.tones ++ [tone] } }

/-- Method `#scheduler` in double arithmetic, bounded by `fuel` iterations. -/
def scheduler64 : Nat → ℚ → State → Except Fault State
  | 0, _, _ => .error .outOfFuel
  | fuel + 1, now, s =>
      match s.audioContext with
      | none => .error .typeError
      | some _ =>
          if s.nextNoteTime < Float64.add now scheduleAheadTime64 then
            match s.current16thNote with
            | none => .error .nonNumericCursor
            | some c =>
                match scheduleNote64 c s.nextNoteTime s with
                | .error e => .error e
                | .ok s1 => scheduler64 fuel now (nextNote64 s1)
          else .ok s

/-- The handler `#timeWorker.onmessage` in double arithmetic. -/
def onWorkerMessage64 (fuel : Nat) (now : ℚ) (s : State) : Except Fault State :=
  if s.isPlaying then scheduler64 fuel now s else .ok s

/-- The double 1.8750113378684807, the clock time `646 * 128 / 44100` after 646 render quanta
of 128 frames at 44.1 kHz. -/
def clock646 : ℚ := 8444300362539945 / 4503599627370496

/-- The double 1.5005895691609978, the clock time `517 * 128 / 44100`. -/
def clock517 : ℚ := 6758054624509523 / 4503599627370496

/-- Playing at the default 120 bpm, just started at clock time `clock646`. -/
def startedAt646 : State := start clock646 (initial TimeWorker.initial)

/-- Playing at 60 bpm, just started at clock time `clock646`. -/
def slowAt646 : State := start clock646 (setTempo 60 (initial TimeWorker.initial))

/-- Playing at 120 bpm with resolution Quarter, just started at clock time `clock517`. -/
def quarterAt517 : State := start clock517 (setResolution 2 (initial TimeWorker.initial))

/-- Playing at 10^18 bpm, just started at clock time 1. -/
def hugeTempoPlaying : State := start 1 (setTempo (10 ^ 18) (initial TimeWorker.initial))

/-- The advance of `#nextNote` in doubles: `0.25 * (60.0 / tempo)`. -/
def step64 (tempo : ℚ) : ℚ := Float64.mul (1 / 4) (Float64.div 60 tempo)

/-- The next-note time after `k` advances in doubles, from `t` with advance `d`. -/
def grid64 (t d : ℚ) : Nat → ℚ
  | 0 => t
  | k + 1 => Float64.add (grid64 t d k) d

/-- The events of `n` scheduler iterations in doubles from cursor `c` and time `t`. -/
def gridEvents64 (c : Nat) (t d : ℚ) (n : Nat) : List NoteEvent :=
  (List.range n).map (fun k => { note := (c + k) % 16, time := grid64 t d k })

/-- The tones `#scheduleNote` starts in doubles for a beat at a non-negative time. -/
def tonesFor64 (resolution beatNumber : Nat) (time : ℚ) : List Tone :=
  if (resolution = 1 ∧ beatNumber % 2 ≠ 0) ∨ (resolution = 2 ∧ beatNumber % 4 ≠ 0) then []
  else [{ frequency := if beatNumber % 16 = 0 then 880 else if beatNumber % 4 = 0 then 440
                       else 220,
          startTime := time, stopTime := Float64.add time noteLength64 }]

/-- The double 2.0027210884353743, the clock time `690 * 128 / 44100`. -/
def clock690 : ℚ := 4509726973802293 / 2251799813685248

/-- Playing at 150 bpm, just started at clock time 0. -/
def fastStarted : State := start 0 (setTempo 150 (initial TimeWorker.initial))

/-! ## Lemmas on the scheduler -/

theorem schedFrame_refl (s : State) : SchedFrame s s :=
  ⟨rfl, rfl, rfl, rfl, rfl, rfl, rfl, rfl⟩

theorem schedFrame_trans {a b c : State} (h₁ : SchedFrame a b) (h₂ : SchedFrame b c) :
    SchedFrame a c :=
  ⟨h₂.unlocked.trans h₁.unlocked, h₂.timeWorker.trans h₁.timeWorker,
    h₂.isPlaying.trans h₁.isPlaying, h₂.tempo.trans h₁.tempo,
    h₂.noteResolution.trans h₁.noteResolution,
    h₂.last16thNoteDrawn.trans h₁.last16thNoteDrawn, h₂.stepButtons.trans h₁.stepButtons,
    h₂.audioContext.trans h₁.audioContext⟩

theorem gridEvents_zero (c : Nat) (t d : ℚ) : gridEvents c t d 0 = [] := rfl

theorem gridEvents_length (c : Nat) (t d : ℚ) (n : Nat) : (gridEvents c t d n).length = n := by
  simp [gridEvents]

/-- Peeling the first event off the grid. -/
theorem gridEvents_succ_left (c : Nat) (t d : ℚ) (n : Nat) :
    gridEvents c t d (n + 1)
      = { note := c % 16, time := t } :: gridEvents (c + 1) (t + d) d n := by
  simp only [gridEvents, List.range_succ_eq_map, List.map_cons, List.map_map]
  refine congrArg₂ _ (by simp) (List.map_congr_left fun k _ => ?_)
  simp only [Function.comp, Nat.succ_eq_add_one, Nat.cast_add, Nat.cast_one]
  have h1 : c + (k + 1) = c + 1 + k := by omega
  have h2 : t + ((k : ℚ) + 1) * d = t + d + k * d := by ring
  rw [h1, h2]

/-- The cursor step of `#nextNote` is the successor modulo 16 on `[0, 16)`. -/
theorem cursor_step (c : Nat) (hc : c < 16) : (if c + 1 = 16 then 0 else c + 1) = (c + 1) % 16 := by
  split <;> omega

/-- One pass of the loop body: `#scheduleNote` then `#nextNote`. -/
theorem loop_body (s : State) (c : Nat) (hctx : s.audioContext.isSome = true) :
    ∃ s1, scheduleNote c s.nextNoteTime s = .ok s1 ∧
      (nextNote s1).notesInQueue = s.notesInQueue ++ [{ note := c, time := s.nextNoteTime }] ∧
      (nextNote s1).nextNoteTime = s.nextNoteTime + 15 / s.tempo ∧
      (nextNote s1).current16thNote
        = s.current16thNote.map (fun c => if c + 1 = 16 then 0 else c + 1) ∧
      SchedFrame s (nextNote s1) := by
  obtain ⟨ctx, hctx'⟩ := Option.isSome_iff_exists.mp hctx
  unfold scheduleNote
  simp only [hctx']
  split_ifs
  all_goals
    refine ⟨_, rfl, ?_, ?_, ?_, ?_⟩
    · simp [nextNote]
    · simp only [nextNote]; ring
    · simp [nextNote]
    · constructor <;> simp [nextNote, hctx']

/-- Unfolding one iteration of the loop when the loop condition holds. -/
theorem scheduler_succ_of_lt (fuel : Nat) (now : ℚ) (s s1 : State) (c : Nat)
    (hctx : s.audioContext.isSome = true) (hc : s.current16thNote = some c)
    (hlt : s.nextNoteTime < now + scheduleAheadTime)
    (h1 : scheduleNote c s.nextNoteTime s = .ok s1) :
    scheduler (fuel + 1) now s = scheduler fuel now (nextNote s1) := by
  obtain ⟨ctx, hctx'⟩ := Option.isSome_iff_exists.mp hctx
  simp only [scheduler, hctx', hlt, if_true, hc, h1]

/-- Leaving the loop when the loop condition fails. -/
theorem scheduler_succ_of_not_lt (fuel : Nat) (now : ℚ) (s : State)
    (hctx : s.audioContext.isSome = true)
    (hge : ¬ s.nextNoteTime < now + scheduleAheadTime) :
    scheduler (fuel + 1) now s = .ok s := by
  obtain ⟨ctx, hctx'⟩ := Option.isSome_iff_exists.mp hctx
  simp only [scheduler, hctx', hge, if_false]

/-- Running the loop: if exactly the first `n` grid times lie before the horizon, then with
more than `n` units of fuel the loop ends, having queued the first `n` grid events. -/
theorem scheduler_grid (n : Nat) : ∀ (fuel : Nat) (now : ℚ) (s : State) (c : Nat),
    s.audioContext.isSome = true → s.current16thNote = some c → c < 16 →
    (∀ k < n, s.nextNoteTime + k * (15 / s.tempo) < now + scheduleAheadTime) →
    ¬ s.nextNoteTime + n * (15 / s.tempo) < now + scheduleAheadTime →
    n < fuel →
    ∃ s', scheduler fuel now s = .ok s' ∧
      s'.notesInQueue = s.notesInQueue ++ gridEvents c s.nextNoteTime (15 / s.tempo) n ∧
      s'.nextNoteTime = s.nextNoteTime + n * (15 / s.tempo) ∧
      s'.current16thNote = some ((c + n) % 16) ∧ SchedFrame s s' := by
  induction n with
  | zero =>
      intro fuel now s c hctx hc hc16 _ hge hfuel
      obtain ⟨f, rfl⟩ : ∃ f, fuel = f + 1 := ⟨fuel - 1, by omega⟩
      have hge' : ¬ s.nextNoteTime < now + scheduleAheadTime := by simpa using hge
      refine ⟨s, scheduler_succ_of_not_lt f now s hctx hge', ?_, ?_, ?_, schedFrame_refl s⟩
      · simp [gridEvents_zero]
      · simp
      · rw [hc, Nat.add_zero, Nat.mod_eq_of_lt hc16]
  | succ n ih =>
      intro fuel now s c hctx hc hc16 hlt hge hfuel
      obtain ⟨f, rfl⟩ : ∃ f, fuel = f + 1 := ⟨fuel - 1, by omega⟩
      have hlt0 : s.nextNoteTime < now + scheduleAheadTime := by
        simpa using hlt 0 (Nat.succ_pos n)
      obtain ⟨s1, h1, hq, ht, hcur, hfr⟩ := loop_body s c hctx
      have hrun := scheduler_succ_of_lt f now s s1 c hctx hc hlt0 h1
      have hcur' : (nextNote s1).current16thNote = some ((c + 1) % 16) := by
        rw [hcur, hc, Option.map_some', cursor_step c hc16]
      have hctx1 : (nextNote s1).audioContext.isSome = true := hfr.audioContext.trans hctx
      have hlt1 : ∀ k < n, (nextNote s1).nextNoteTime + k * (15 / (nextNote s1).tempo)
          < now + scheduleAheadTime := by
        intro k hk
        have := hlt (k + 1) (by omega)
        rw [ht, hfr.tempo]
        push_cast at this
        linarith
      have hge1 : ¬ (nextNote s1).nextNoteTime + n * (15 / (nextNote s1).tempo)
          < now + scheduleAheadTime := by
        intro h
        apply hge
        rw [ht, hfr.tempo] at h
        push_cast
        linarith
      obtain ⟨s', hs', hq', ht', hc', hfr'⟩ :=
        ih f now (nextNote s1) ((c + 1) % 16) hctx1 hcur' (Nat.mod_lt _ (by norm_num)) hlt1 hge1
          (by omega)
      refine ⟨s', hrun.trans hs', ?_, ?_, ?_, schedFrame_trans hfr hfr'⟩
      · rw [hq', hq, ht, hfr.tempo, gridEvents_succ_left, List.append_assoc,
          Nat.mod_eq_of_lt hc16]
        simp only [List.singleton_append, List.cons.injEq, true_and, List.append_cancel_left_eq]
        simp [gridEvents, Nat.add_mod]
      · rw [ht', ht, hfr.tempo]; push_cast; ring
      · rw [hc']; congr 1; omega

/-- Whatever the tempo: if the loop ends at all, it has queued the first `n` grid events, `n`
being the first grid index whose time is not before the horizon. -/
theorem scheduler_ok_grid (fuel : Nat) : ∀ (now : ℚ) (s s' : State) (c : Nat),
    s.current16thNote = some c → c < 16 → scheduler fuel now s = .ok s' →
    ∃ n, n < fuel ∧
      (∀ k < n, s.nextNoteTime + k * (15 / s.tempo) < now + scheduleAheadTime) ∧
      ¬ s.nextNoteTime + n * (15 / s.tempo) < now + scheduleAheadTime ∧
      s'.notesInQueue = s.notesInQueue ++ gridEvents c s.nextNoteTime (15 / s.tempo) n ∧
      s'.nextNoteTime = s.nextNoteTime + n * (15 / s.tempo) ∧
      s'.current16thNote = some ((c + n) % 16) ∧ SchedFrame s s' ∧
      s.audioContext.isSome = true := by
  induction fuel with
  | zero => intro now s s' c _ _ h; simp [scheduler] at h
  | succ f ih =>
      intro now s s' c hc hc16 hrun
      have hctx : s.audioContext.isSome = true := by
        cases hctx : s.audioContext with
        | none => simp [scheduler, hctx] at hrun
        | some ctx => rfl
      by_cases hlt0 : s.nextNoteTime < now + scheduleAheadTime
      · obtain ⟨s1, h1, hq, ht, hcur, hfr⟩ := loop_body s c hctx
        have hrun1 := scheduler_succ_of_lt f now s s1 c hctx hc hlt0 h1
        have hcur' : (nextNote s1).current16thNote = some ((c + 1) % 16) := by
          rw [hcur, hc, Option.map_some', cursor_step c hc16]
        obtain ⟨n, hn, hlt, hge, hq', ht', hc', hfr', -⟩ :=
          ih now (nextNote s1) s' ((c + 1) % 16) hcur' (Nat.mod_lt _ (by norm_num))
            (hrun1.symm.trans hrun)
        rw [ht, hfr.tempo] at hlt hge hq' ht'
        refine ⟨n + 1, by omega, ?_, ?_, ?_, ?_, ?_, schedFrame_trans hfr hfr', hctx⟩
        · intro k hk
          cases k with
          | zero => simpa using hlt0
          | succ k =>
              have := hlt k (by omega)
              push_cast
              linarith
        · intro h
          apply hge
          push_cast at h
          linarith
        · rw [hq', hq, gridEvents_succ_left, List.append_assoc, Nat.mod_eq_of_lt hc16]
          simp only [List.singleton_append, List.cons.injEq, true_and,
            List.append_cancel_left_eq]
          simp [gridEvents, Nat.add_mod]
        · rw [ht']; push_cast; ring
        · rw [hc']; congr 1; omega
      · rw [scheduler_succ_of_not_lt f now s hctx hlt0] at hrun
        obtain rfl : s = s' := Except.ok.inj hrun
        refine ⟨0, by omega, by simp, by simpa using hlt0, by simp [gridEvents_zero], by simp,
          ?_, schedFrame_refl s, hctx⟩
        rw [hc, Nat.add_zero, Nat.mod_eq_of_lt hc16]

/-! ## Lemmas on the draw pass -/

/-- The loop of `#draw` pops the longest prefix of notes timed before `currentTime` and keeps
the beat of the last one popped. -/
theorem drainQueue_eq (currentTime : ℚ) (q : List NoteEvent) (currentNote : Int) :
    drainQueue currentTime q currentNote
      = ((((q.takeWhile (fun e => decide (e.time < currentTime))).getLast?).map
            (fun e => (e.note : Int))).getD currentNote,
          q.dropWhile (fun e => decide (e.time < currentTime))) := by
  induction q generalizing currentNote with
  | nil => simp [drainQueue]
  | cons e rest ih =>
      by_cases h : e.time < currentTime
      · rw [drainQueue, if_pos h, ih, List.takeWhile_cons_of_pos (by simpa using h),
          List.dropWhile_cons_of_pos (by simpa using h)]
        cases hX : (rest.takeWhile (fun e => decide (e.time < currentTime))).getLast? <;>
          simp [List.getLast?_cons, hX]
      · rw [drainQueue, if_neg h, List.takeWhile_cons_of_neg (by simpa using h),
          List.dropWhile_cons_of_neg (by simpa using h)]
        simp

theorem drawFrame_refl (s : State) : DrawFrame s s :=
  ⟨rfl, rfl, rfl, rfl, rfl, rfl, rfl, rfl⟩

theorem drawFrame_trans {a b c : State} (h₁ : DrawFrame a b) (h₂ : DrawFrame b c) :
    DrawFrame a c :=
  ⟨h₂.audioContext.trans h₁.audioContext, h₂.unlocked.trans h₁.unlocked,
    h₂.timeWorker.trans h₁.timeWorker, h₂.isPlaying.trans h₁.isPlaying,
    h₂.tempo.trans h₁.tempo, h₂.nextNoteTime.trans h₁.nextNoteTime,
    h₂.current16thNote.trans h₁.current16thNote, h₂.noteResolution.trans h₁.noteResolution⟩

theorem clearWhenStopped_frame (s : State) :
    DrawFrame s (clearWhenStopped s) ∧ (clearWhenStopped s).notesInQueue = s.notesInQueue ∧
      (clearWhenStopped s).last16thNoteDrawn = s.last16thNoteDrawn := by
  unfold clearWhenStopped
  split
  · exact ⟨⟨rfl, rfl, rfl, rfl, rfl, rfl, rfl, rfl⟩, rfl, rfl⟩
  · exact ⟨drawFrame_refl s, rfl, rfl⟩

theorem redraw_ok {currentNote : Int} {s s' : State} (h : redraw currentNote s = .ok s') :
    DrawFrame s s' ∧ s'.notesInQueue = s.notesInQueue ∧ s'.last16thNoteDrawn = currentNote := by
  unfold redraw at h
  by_cases hne : s.last16thNoteDrawn ≠ currentNote
  · rw [if_pos hne] at h
    by_cases hel : 0 ≤ currentNote ∧ currentNote < stepCount
    · simp only [if_pos hel] at h
      obtain rfl := Except.ok.inj h
      exact ⟨⟨rfl, rfl, rfl, rfl, rfl, rfl, rfl, rfl⟩, rfl, rfl⟩
    · simp only [if_neg hel] at h
      cases h
  · rw [if_neg hne] at h
    obtain rfl := Except.ok.inj h
    exact ⟨drawFrame_refl _, rfl, not_not.mp hne⟩

/-- A draw pass that ends touches the queue only by the loop, and nothing of the scheduler. -/
theorem draw_ok {currentTime : ℚ} {s s' : State} (h : draw currentTime s = .ok s') :
    DrawFrame s s' ∧
      s'.notesInQueue = (if s.audioContext.isSome
        then (drainQueue currentTime s.notesInQueue s.last16thNoteDrawn).2
        else s.notesInQueue) := by
  unfold draw at h
  cases hctx : s.audioContext with
  | none =>
      simp only [hctx] at h
      obtain rfl := Except.ok.inj h
      obtain ⟨hf, hq, -⟩ := clearWhenStopped_frame s
      exact ⟨hf, by simpa using hq⟩
  | some ctx =>
      simp only [hctx] at h
      cases hr : redraw (drainQueue currentTime s.notesInQueue s.last16thNoteDrawn).1
          { s with notesInQueue := (drainQueue currentTime s.notesInQueue s.last16thNoteDrawn).2 }
        with
      | error e => simp only [hctx] at hr; rw [hr] at h; cases h
      | ok s1 =>
          have hr' := hr
          simp only [hctx] at hr'
          rw [hr'] at h
          obtain rfl := Except.ok.inj h
          obtain ⟨hf1, hq1, -⟩ := redraw_ok hr
          obtain ⟨hf2, hq2, -⟩ := clearWhenStopped_frame s1
          refine ⟨?_, by simp [hq2, hq1]⟩
          have hf := drawFrame_trans hf1 hf2
          exact ⟨hf.audioContext, hf.unlocked, hf.timeWorker, hf.isPlaying,
            hf.tempo, hf.nextNoteTime, hf.current16thNote, hf.noteResolution⟩

/-- For a positive tempo some grid time reaches any horizon. -/
theorem exists_grid_index (t h T : ℚ) (hT : 0 < T) : ∃ m : Nat, h ≤ t + m * (15 / T) := by
  have hd : (0 : ℚ) < 15 / T := by positivity
  obtain ⟨m, hm⟩ := exists_nat_ge ((h - t) / (15 / T))
  refine ⟨m, ?_⟩
  have := (div_le_iff₀ hd).mp hm
  linarith

/-- Grid times ascend strictly when the step is positive. -/
theorem gridEvents_pairwise (c : Nat) (t d : ℚ) (hd : 0 < d) (n : Nat) :
    (gridEvents c t d n).Pairwise (fun a b => a.time < b.time) := by
  unfold gridEvents
  rw [List.pairwise_map]
  refine (List.pairwise_lt_range n).imp ?_
  intro a b hab
  have : (a : ℚ) < b := by exact_mod_cast hab
  simp only
  nlinarith

/-- An event of the grid is one of its indexed entries. -/
theorem mem_gridEvents {c : Nat} {t d : ℚ} {n : Nat} {e : NoteEvent}
    (he : e ∈ gridEvents c t d n) :
    ∃ k < n, e = { note := (c + k) % 16, time := t + k * d } := by
  simp only [gridEvents, List.mem_map, List.mem_range] at he
  obtain ⟨k, hk, rfl⟩ := he
  exact ⟨k, hk, rfl⟩

theorem queueOrdered_iff_pairwise (q : List NoteEvent) :
    QueueOrdered q ↔ q.Pairwise (fun a b => a.time ≤ b.time) := by
  haveI : IsTrans NoteEvent (fun a b => a.time ≤ b.time) :=
    ⟨fun _ _ _ h₁ h₂ => le_trans h₁ h₂⟩
  exact List.chain'_iff_pairwise

/-- On a queue sorted by time, the prefix the loop pops is the set of events timed before
`now`, and what it leaves is the set of the others. -/
theorem sorted_takeWhile_dropWhile (now : ℚ) (q : List NoteEvent)
    (h : q.Pairwise (fun a b => a.time ≤ b.time)) :
    q.takeWhile (fun e => decide (e.time < now)) = q.filter (fun e => decide (e.time < now)) ∧
      q.dropWhile (fun e => decide (e.time < now)) = q.filter (fun e => decide (now ≤ e.time)) := by
  induction q with
  | nil => exact ⟨rfl, rfl⟩
  | cons e rest ih =>
      obtain ⟨hhead, htail⟩ := List.pairwise_cons.mp h
      obtain ⟨ih1, ih2⟩ := ih htail
      by_cases hp : e.time < now
      · have hn : ¬ now ≤ e.time := not_le.mpr hp
        constructor
        · rw [List.takeWhile_cons_of_pos (by simpa using hp),
            List.filter_cons_of_pos (by simpa using hp), ih1]
        · rw [List.dropWhile_cons_of_pos (by simpa using hp),
            List.filter_cons_of_neg (by simpa using hn), ih2]
      · have hn : now ≤ e.time := not_lt.mp hp
        have hall : ∀ a ∈ rest, now ≤ a.time := fun a ha => hn.trans (hhead a ha)
        constructor
        · rw [List.takeWhile_cons_of_neg (by simpa using hp),
            List.filter_cons_of_neg (by simpa using hp)]
          symm
          rw [List.filter_eq_nil_iff]
          intro a ha
          simpa using hall a ha
        · rw [List.dropWhile_cons_of_neg (by simpa using hp),
            List.filter_cons_of_pos (by simpa using hn)]
          congr 1
          symm
          rw [List.filter_eq_self]
          intro a ha
          simpa using hall a ha

/-- The highlight update ends when the beat is the displayed one or has a step button. -/
theorem redraw_total (currentNote : Int) (s : State)
    (h : currentNote = s.last16thNoteDrawn ∨ (0 ≤ currentNote ∧ currentNote < stepCount)) :
    ∃ s', redraw currentNote s = .ok s' := by
  unfold redraw
  by_cases hne : s.last16thNoteDrawn ≠ currentNote
  · rcases h with h | h
    · exact absurd h.symm hne
    · rw [if_pos hne]
      simp only [if_pos h]
      exact ⟨_, rfl⟩
  · rw [if_neg hne]
    exact ⟨_, rfl⟩

/-- With an audio context, `#draw` is the loop, the highlight update and the final clearing. -/
theorem draw_of_redraw {currentTime : ℚ} {s s1 : State} (hctx : s.audioContext.isSome = true)
    (hr : redraw (drainQueue currentTime s.notesInQueue s.last16thNoteDrawn).1
      { s with notesInQueue := (drainQueue currentTime s.notesInQueue s.last16thNoteDrawn).2 }
        = .ok s1) :
    draw currentTime s = .ok (clearWhenStopped s1) := by
  obtain ⟨ctx, hctx'⟩ := Option.isSome_iff_exists.mp hctx
  unfold draw
  simp only [hctx'] at hr ⊢
  rw [hr]

/-! ## Lemmas on runs -/

theorem run_nil (fuel : Nat) (s : State) : run fuel [] s = .ok s := rfl

theorem run_cons_ok {fuel : Nat} {a : Action} {rest : List Action} {s s' : State}
    (h : run fuel (a :: rest) s = .ok s') :
    ∃ s1, step fuel a s = .ok s1 ∧ run fuel rest s1 = .ok s' := by
  rw [run] at h
  cases hs : step fuel a s with
  | error e => rw [hs] at h; cases h
  | ok s1 => rw [hs] at h; exact ⟨s1, rfl, h⟩

/-- A tick handling that ends either found the object stopped and did nothing, or ran the
scheduler. -/
theorem tick_ok {fuel : Nat} {now : ℚ} {s s' : State}
    (h : onWorkerMessage fuel now s = .ok s') :
    (s.isPlaying = false ∧ s' = s) ∨ (s.isPlaying = true ∧ scheduler fuel now s = .ok s') := by
  unfold onWorkerMessage at h
  cases hp : s.isPlaying with
  | false =>
      rw [hp] at h
      exact Or.inl ⟨rfl, (Except.ok.inj h).symm⟩
  | true =>
      rw [hp] at h
      exact Or.inr ⟨rfl, h⟩

theorem gridEvents_time_ge {c : Nat} {t d : ℚ} {n : Nat} (hd : 0 ≤ d) {e : NoteEvent}
    (he : e ∈ gridEvents c t d n) : t ≤ e.time ∧ e.time ≤ t + n * d := by
  obtain ⟨k, hk, rfl⟩ := mem_gridEvents he
  have hk0 : (0 : ℚ) ≤ k := Nat.cast_nonneg k
  have hkn : (k : ℚ) ≤ n := by exact_mod_cast hk.le
  constructor
  · simp only; nlinarith
  · simp only; nlinarith

theorem gridEvents_sorted (c : Nat) (t d : ℚ) (hd : 0 ≤ d) (n : Nat) :
    (gridEvents c t d n).Pairwise (fun a b => a.time ≤ b.time) := by
  unfold gridEvents
  rw [List.pairwise_map]
  refine (List.pairwise_lt_range n).imp ?_
  intro a b hab
  have : (a : ℚ) ≤ b := by exact_mod_cast hab.le
  simp only
  nlinarith

/-- Every call keeps the queue invariant, provided a `start()` comes no earlier than the
queued times and a tempo set is positive. -/
theorem step_queueInv {fuel : Nat} {a : Action} {s s' : State} (hinv : QueueInv s)
    (hstart : ∀ now, a = .start now → ∀ e ∈ s.notesInQueue, e.time ≤ now)
    (htempo : ∀ tempo, a = .setTempo tempo ∨ a = .tempoChange tempo → 0 < tempo)
    (h : step fuel a s = .ok s') : QueueInv s' := by
  cases a with
  | start now =>
      obtain rfl := Except.ok.inj h
      exact ⟨hinv.sorted, hstart now rfl, hinv.tempo, fun _ => ⟨0, rfl, by norm_num⟩⟩
  | stop =>
      obtain rfl := Except.ok.inj h
      exact ⟨hinv.sorted, hinv.bounded, hinv.tempo, fun hp => by simp [stop] at hp⟩
  | tick now =>
      rcases tick_ok h with ⟨-, rfl⟩ | ⟨hp, hrun⟩
      · exact hinv
      · obtain ⟨c, hc, hc16⟩ := hinv.cursor hp
        obtain ⟨n, -, -, -, hq, ht, hcur, hfr, -⟩ := scheduler_ok_grid fuel now s s' c hc hc16 hrun
        have hd : (0 : ℚ) ≤ 15 / s.tempo := le_of_lt (div_pos (by norm_num) hinv.tempo)
        refine ⟨?_, ?_, hfr.tempo ▸ hinv.tempo, fun _ => ⟨_, hcur, Nat.mod_lt _ (by norm_num)⟩⟩
        · rw [hq, List.pairwise_append]
          refine ⟨hinv.sorted, gridEvents_sorted _ _ _ hd _, fun a ha b hb => ?_⟩
          exact (hinv.bounded a ha).trans (gridEvents_time_ge hd hb).1
        · intro e he
          rw [hq, List.mem_append] at he
          rw [ht]
          rcases he with he | he
          · have := hinv.bounded e he
            have hn : (0 : ℚ) ≤ n * (15 / s.tempo) := mul_nonneg (Nat.cast_nonneg n) hd
            linarith
          · exact (gridEvents_time_ge hd he).2
  | draw now =>
      obtain ⟨hfr, hq⟩ := draw_ok h
      have hsub : List.Sublist s'.notesInQueue s.notesInQueue := by
        rw [hq]
        split
        · rw [drainQueue_eq]
          exact (List.dropWhile_suffix _).sublist
        · exact List.Sublist.refl _
      refine ⟨hinv.sorted.sublist hsub, fun e he => ?_, hfr.tempo ▸ hinv.tempo, fun hp => ?_⟩
      · rw [hfr.nextNoteTime]
        exact hinv.bounded e (hsub.subset he)
      · rw [hfr.current16thNote]
        exact hinv.cursor (hfr.isPlaying ▸ hp)
  | setTempo tempo =>
      obtain rfl := Except.ok.inj h
      exact ⟨hinv.sorted, hinv.bounded, htempo tempo (Or.inl rfl), hinv.cursor⟩
  | tempoChange tempo =>
      obtain rfl := Except.ok.inj h
      exact ⟨hinv.sorted, hinv.bounded, htempo tempo (Or.inr rfl), hinv.cursor⟩
  | setResolution r =>
      obtain rfl := Except.ok.inj h
      exact ⟨hinv.sorted, hinv.bounded, hinv.tempo, hinv.cursor⟩

/-- The queue invariant along a run. -/
theorem run_queueInv (fuel : Nat) : ∀ (acts : List Action) (s s' : State), QueueInv s →
    TempoPositive acts → StartsAfterQueue fuel acts s → run fuel acts s = .ok s' →
    QueueInv s' := by
  intro acts
  induction acts with
  | nil =>
      intro s s' hinv _ _ h
      obtain rfl := Except.ok.inj h
      exact hinv
  | cons a rest ih =>
      intro s s' hinv htempo hstarts h
      obtain ⟨s1, h1, hrest⟩ := run_cons_ok h
      have hinv1 : QueueInv s1 :=
        step_queueInv hinv (fun now ha => by have := hstarts.1; rw [ha] at this; exact this)
          (fun T hT => htempo a (List.mem_cons_self _ _) T hT) h1
      have hstarts1 : StartsAfterQueue fuel rest s1 := by
        have := hstarts.2
        rw [h1] at this
        exact this
      exact ih s1 s' hinv1 (fun b hb => htempo b (List.mem_cons_of_mem _ hb)) hstarts1 hrest

theorem initial_queueInv (w : TimeWorker) : QueueInv (initial w) :=
  ⟨List.Pairwise.nil, fun e he => by simp [initial] at he, by norm_num [initial],
    fun hp => by simp [initial] at hp⟩

/-! ## Lemmas on the events queued along a run -/

/-- Splitting the grid after `m` events. -/
theorem gridEvents_add (c : Nat) (t d : ℚ) (m n : Nat) :
    gridEvents c t d (m + n)
      = gridEvents c t d m ++ gridEvents ((c + m) % 16) (t + m * d) d n := by
  simp only [gridEvents, List.range_add, List.map_append, List.map_map]
  congr 1
  refine List.map_congr_left fun k _ => ?_
  simp only [Function.comp, Nat.cast_add, NoteEvent.mk.injEq]
  constructor
  · rw [Nat.mod_add_mod, Nat.add_assoc]
  · ring

theorem gridEvents_getElem? {c : Nat} {t d : ℚ} {n i : Nat} {e : NoteEvent}
    (h : (gridEvents c t d n)[i]? = some e) :
    e = { note := (c + i) % 16, time := t + i * d } := by
  simp only [gridEvents, List.getElem?_map, Option.map_eq_some'] at h
  obtain ⟨k, hk, rfl⟩ := h
  obtain ⟨hlt, hk'⟩ := List.getElem?_eq_some_iff.mp hk
  rw [List.getElem_range] at hk'
  subst hk'
  rfl

/-- What a call other than `start()` does to the scheduling state, from a cursor in `[0, 16)`:
it queues some `m` grid events and moves cursor and next-note time `m` places on. -/
theorem step_queued {fuel : Nat} {a : Action} {s s1 : State} {c : Nat}
    (hc : s.current16thNote = some c) (hc16 : c < 16) (ha : a.isStart = false)
    (h : step fuel a s = .ok s1) :
    ∃ m, queuedBy fuel a s = gridEvents c s.nextNoteTime (15 / s.tempo) m ∧
      s1.current16thNote = some ((c + m) % 16) ∧
      s1.nextNoteTime = s.nextNoteTime + m * (15 / s.tempo) ∧
      (a.setsTempo = false → s1.tempo = s.tempo) := by
  have hzero : s.current16thNote = some ((c + 0) % 16) := by
    rw [hc, Nat.add_zero, Nat.mod_eq_of_lt hc16]
  cases a with
  | start now => simp [Action.isStart] at ha
  | stop =>
      obtain rfl := Except.ok.inj h
      exact ⟨0, rfl, hzero, by simp [stop], fun _ => rfl⟩
  | tick now =>
      have h' : onWorkerMessage fuel now s = .ok s1 := h
      rcases tick_ok h' with ⟨-, rfl⟩ | ⟨-, hrun⟩
      · refine ⟨0, ?_, hzero, by simp, fun _ => rfl⟩
        simp [queuedBy, h', gridEvents_zero]
      · obtain ⟨n, -, -, -, hq, ht, hcur, hfr, -⟩ :=
          scheduler_ok_grid fuel now s s1 c hc hc16 hrun
        refine ⟨n, ?_, hcur, ht, fun _ => hfr.tempo⟩
        simp [queuedBy, h', hq]
  | draw now =>
      obtain ⟨hfr, -⟩ := draw_ok (show draw now s = .ok s1 from h)
      exact ⟨0, rfl, hfr.current16thNote.trans hzero, by simp [hfr.nextNoteTime],
        fun _ => hfr.tempo⟩
  | setTempo tempo =>
      obtain rfl := Except.ok.inj h
      exact ⟨0, rfl, hzero, by simp [setTempo], fun hs => by simp [Action.setsTempo] at hs⟩
  | tempoChange tempo =>
      obtain rfl := Except.ok.inj h
      exact ⟨0, rfl, hzero, by simp [tempoChange], fun hs => by simp [Action.setsTempo] at hs⟩
  | setResolution r =>
      obtain rfl := Except.ok.inj h
      exact ⟨0, rfl, hzero, by simp [setResolution], fun _ => rfl⟩

/-- Along calls other than `start()`, from a cursor `c` in `[0, 16)`: the beats queued are
`c, c + 1, ...` modulo 16, and while no call assigns the tempo the events queued are the grid
events. -/
theorem queuedDuring_grid (fuel : Nat) : ∀ (acts : List Action) (s : State) (c : Nat),
    s.current16thNote = some c → c < 16 → (∀ a ∈ acts, a.isStart = false) →
    ∃ n, (queuedDuring fuel acts s).map (fun e => e.note)
        = (List.range n).map (fun k => (c + k) % 16) ∧
      ((∀ a ∈ acts, a.setsTempo = false) →
        queuedDuring fuel acts s = gridEvents c s.nextNoteTime (15 / s.tempo) n) := by
  intro acts
  induction acts with
  | nil => intro s c _ _ _; exact ⟨0, rfl, fun _ => rfl⟩
  | cons a rest ih =>
      intro s c hc hc16 hstart
      cases h : step fuel a s with
      | error e => exact ⟨0, by simp [queuedDuring, h], fun _ => by simp [queuedDuring, h, gridEvents_zero]⟩
      | ok s1 =>
          obtain ⟨m, hq, hcur, ht, htempo⟩ :=
            step_queued hc hc16 (hstart a (List.mem_cons_self _ _)) h
          obtain ⟨n, hnotes, hgrid⟩ := ih s1 ((c + m) % 16) hcur (Nat.mod_lt _ (by norm_num))
            (fun b hb => hstart b (List.mem_cons_of_mem _ hb))
          refine ⟨m + n, ?_, fun hno => ?_⟩
          · simp only [queuedDuring, h, List.map_append, hnotes, hq, List.range_add,
              List.map_map]
            congr 1
            · simp [gridEvents]
            · refine List.map_congr_left fun k _ => ?_
              simp only [Function.comp]
              rw [Nat.mod_add_mod, Nat.add_assoc]
          · have hrest := hgrid (fun b hb => hno b (List.mem_cons_of_mem _ hb))
            rw [ht, htempo (hno a (List.mem_cons_self _ _))] at hrest
            simp only [queuedDuring, h, hq, hrest, gridEvents_add]

/-- Every call keeps a cursor that is in `[0, 16)` there. -/
theorem step_cursor {fuel : Nat} {a : Action} {s s1 : State}
    (hc : ∃ c, s.current16thNote = some c ∧ c < 16) (h : step fuel a s = .ok s1) :
    ∃ c, s1.current16thNote = some c ∧ c < 16 := by
  obtain ⟨c, hc, hc16⟩ := hc
  cases ha : a.isStart with
  | true =>
      cases a with
      | start now =>
          obtain rfl := Except.ok.inj h
          exact ⟨0, rfl, by norm_num⟩
      | _ => simp [Action.isStart] at ha
  | false =>
      obtain ⟨m, -, hcur, -, -⟩ := step_queued hc hc16 ha h
      exact ⟨_, hcur, Nat.mod_lt _ (by norm_num)⟩

theorem run_cursor (fuel : Nat) : ∀ (acts : List Action) (s s' : State),
    (∃ c, s.current16thNote = some c ∧ c < 16) → run fuel acts s = .ok s' →
    ∃ c, s'.current16thNote = some c ∧ c < 16 := by
  intro acts
  induction acts with
  | nil =>
      intro s s' hc h
      obtain rfl := Except.ok.inj h
      exact hc
  | cons a rest ih =>
      intro s s' hc h
      obtain ⟨s1, h1, hrest⟩ := run_cons_ok h
      exact ih s1 s' (step_cursor hc h1) hrest

/-- The scheduler only appends to the queue. -/
theorem scheduler_appends (fuel : Nat) : ∀ (now : ℚ) (s s' : State),
    scheduler fuel now s = .ok s' → ∃ l, s'.notesInQueue = s.notesInQueue ++ l := by
  induction fuel with
  | zero => intro now s s' h; simp [scheduler] at h
  | succ f ih =>
      intro now s s' h
      cases hctx : s.audioContext with
      | none => simp [scheduler, hctx] at h
      | some ctx =>
          have hctx' : s.audioContext.isSome = true := by simp [hctx]
          by_cases hlt : s.nextNoteTime < now + scheduleAheadTime
          · cases hc : s.current16thNote with
            | none => simp [scheduler, hctx, hlt, hc] at h
            | some c =>
                obtain ⟨s1, h1, hq, -⟩ := loop_body s c hctx'
                rw [scheduler_succ_of_lt f now s s1 c hctx' hc hlt h1] at h
                obtain ⟨l, hl⟩ := ih now (nextNote s1) s' h
                exact ⟨_ :: l, by rw [hl, hq, List.append_assoc, List.singleton_append]⟩
          · rw [scheduler_succ_of_not_lt f now s hctx' hlt] at h
            obtain rfl := Except.ok.inj h
            exact ⟨[], by simp⟩

/-- The queue after a call: the old queue without some oldest events, then the events the call
queued. -/
theorem step_queue {fuel : Nat} {a : Action} {s s' : State} (h : step fuel a s = .ok s') :
    ∃ k, s'.notesInQueue = s.notesInQueue.drop k ++ queuedBy fuel a s := by
  cases a with
  | tick now =>
      have h' : onWorkerMessage fuel now s = .ok s' := h
      refine ⟨0, ?_⟩
      rcases tick_ok h' with ⟨-, rfl⟩ | ⟨-, hrun⟩
      · simp [queuedBy, h']
      · obtain ⟨l, hl⟩ := scheduler_appends fuel now s s' hrun
        simp [queuedBy, h', hl]
  | draw now =>
      obtain ⟨-, hq⟩ := draw_ok (show draw now s = .ok s' from h)
      by_cases hctx : s.audioContext.isSome = true
      · rw [if_pos hctx, drainQueue_eq] at hq
        obtain ⟨k, hk⟩ : ∃ k, s.notesInQueue.dropWhile
            (fun e => decide (e.time < now)) = s.notesInQueue.drop k := by
          generalize s.notesInQueue = q
          induction q with
          | nil => exact ⟨0, rfl⟩
          | cons e rest ih =>
              by_cases hp : e.time < now
              · obtain ⟨k, hk⟩ := ih
                exact ⟨k + 1, by rw [List.dropWhile_cons_of_pos (by simpa using hp), hk,
                  List.drop_succ_cons]⟩
              · exact ⟨0, by rw [List.dropWhile_cons_of_neg (by simpa using hp), List.drop_zero]⟩
        exact ⟨k, by simp [hq, hk, queuedBy]⟩
      · rw [if_neg hctx] at hq
        exact ⟨0, by simp [hq, queuedBy]⟩
  | start now => obtain rfl := Except.ok.inj h; exact ⟨0, by simp [queuedBy, start]⟩
  | stop => obtain rfl := Except.ok.inj h; exact ⟨0, by simp [queuedBy, stop]⟩
  | setTempo tempo => obtain rfl := Except.ok.inj h; exact ⟨0, by simp [queuedBy, setTempo]⟩
  | tempoChange tempo =>
      obtain rfl := Except.ok.inj h; exact ⟨0, by simp [queuedBy, tempoChange]⟩
  | setResolution r =>
      obtain rfl := Except.ok.inj h; exact ⟨0, by simp [queuedBy, setResolution]⟩

theorem twoTicks_queued :
    queuedDuring 5 twoTicks (start 0 (initial TimeWorker.initial))
      = [⟨0, 0⟩, ⟨1, 1 / 8⟩] := by
  norm_num [queuedDuring, queuedBy, twoTicks, step, onWorkerMessage, scheduler, start, initial,
    scheduleNote, nextNote, scheduleAheadTime]

/-- Every call keeps `Ready`. -/
theorem step_ready {fuel : Nat} {a : Action} {s s' : State} (hr : Ready s)
    (h : step fuel a s = .ok s') : Ready s' := by
  cases a with
  | start now =>
      obtain rfl := Except.ok.inj h
      refine ⟨fun c hc => ?_, fun _ => ⟨rfl, 0, rfl⟩⟩
      obtain rfl : 0 = c := Option.some.inj hc
      norm_num
  | stop =>
      obtain rfl := Except.ok.inj h
      exact ⟨hr.cursor, fun hp => by simp [stop] at hp⟩
  | tick now =>
      rcases tick_ok (show onWorkerMessage fuel now s = .ok s' from h) with ⟨-, rfl⟩ | ⟨hp, hrun⟩
      · exact hr
      · obtain ⟨hctx, c, hc⟩ := hr.playing hp
        obtain ⟨n, -, -, -, -, -, hcur, hfr, -⟩ :=
          scheduler_ok_grid fuel now s s' c hc (hr.cursor c hc) hrun
        refine ⟨fun c' hc' => ?_, fun _ => ⟨hfr.audioContext.trans hctx, _, hcur⟩⟩
        obtain rfl : (c + n) % 16 = c' := Option.some.inj (hcur.symm.trans hc')
        exact Nat.mod_lt _ (by norm_num)
  | draw now =>
      obtain ⟨hfr, -⟩ := draw_ok (show draw now s = .ok s' from h)
      refine ⟨fun c hc => hr.cursor c (hfr.current16thNote ▸ hc), fun hp => ?_⟩
      rw [hfr.audioContext, hfr.current16thNote]
      exact hr.playing (hfr.isPlaying ▸ hp)
  | setTempo tempo => obtain rfl := Except.ok.inj h; exact ⟨hr.cursor, hr.playing⟩
  | tempoChange tempo => obtain rfl := Except.ok.inj h; exact ⟨hr.cursor, hr.playing⟩
  | setResolution r => obtain rfl := Except.ok.inj h; exact ⟨hr.cursor, hr.playing⟩

/-- Every state reached from a just constructed object is `Ready`: a playing state has an audio
context and a cursor in `[0, 16)`. -/
theorem run_ready (fuel : Nat) : ∀ (acts : List Action) (s s' : State),
    Ready s → run fuel acts s = .ok s' → Ready s' := by
  intro acts
  induction acts with
  | nil =>
      intro s s' hr h
      obtain rfl := Except.ok.inj h
      exact hr
  | cons a rest ih =>
      intro s s' hr h
      obtain ⟨s1, h1, hrest⟩ := run_cons_ok h
      exact ih s1 s' (step_ready hr h1) hrest

theorem initial_ready (w : TimeWorker) : Ready (initial w) :=
  ⟨fun c hc => by simp [initial] at hc, fun hp => by simp [initial] at hp⟩

/-! ## Lemmas on audible emission -/

/-- With an audio context, `#scheduleNote` starts no oscillator when the resolution filters the
beat out, and otherwise exactly one, of the pitch of the beat, from `time` to
`time + noteLength`. -/
theorem emitted_eq (s : State) (ctx : AudioContext) (hctx : s.audioContext = some ctx)
    (b : Nat) (time : ℚ) :
    emitted s b time =
      if (s.noteResolution = 1 ∧ b % 2 ≠ 0) ∨ (s.noteResolution = 2 ∧ b % 4 ≠ 0) then []
      else [{ frequency := if b % 16 = 0 then 880 else if b % 4 = 0 then 440 else 220,
              startTime := time, stopTime := time + noteLength }] := by
  unfold emitted scheduleNote
  dsimp only
  by_cases h1 : s.noteResolution = 1 ∧ b % 2 ≠ 0
  · rw [if_pos h1, if_pos (Or.inl h1)]
    simp only [tonesOf, hctx, List.drop_length]
  · by_cases h2 : s.noteResolution = 2 ∧ b % 4 ≠ 0
    · rw [if_neg h1, if_pos h2, if_pos (Or.inr h2)]
      simp only [tonesOf, hctx, List.drop_length]
    · rw [if_neg h1, if_neg h2, if_neg (not_or.mpr ⟨h1, h2⟩)]
      simp only [tonesOf, hctx, List.drop_left]

/-- Without an audio context `#scheduleNote` starts no oscillator. -/
theorem emitted_of_no_context (s : State) (hctx : s.audioContext = none) (b : Nat) (time : ℚ) :
    emitted s b time = [] := by
  unfold emitted scheduleNote
  simp only [hctx]
  split_ifs <;> simp [tonesOf, hctx]

/-! ## Lemmas on the tempo along a run -/

/-- The scheduler, whenever it ends, has left alone what `SchedFrame` lists. -/
theorem scheduler_frame (fuel : Nat) : ∀ (now : ℚ) (s s' : State),
    scheduler fuel now s = .ok s' → SchedFrame s s' := by
  induction fuel with
  | zero => intro now s s' h; simp [scheduler] at h
  | succ f ih =>
      intro now s s' h
      cases hctx : s.audioContext with
      | none => simp [scheduler, hctx] at h
      | some ctx =>
          have hctx' : s.audioContext.isSome = true := by simp [hctx]
          by_cases hlt : s.nextNoteTime < now + scheduleAheadTime
          · cases hc : s.current16thNote with
            | none => simp [scheduler, hctx, hlt, hc] at h
            | some c =>
                obtain ⟨s1, h1, -, -, -, hfr⟩ := loop_body s c hctx'
                rw [scheduler_succ_of_lt f now s s1 c hctx' hc hlt h1] at h
                exact schedFrame_trans hfr (ih now (nextNote s1) s' h)
          · rw [scheduler_succ_of_not_lt f now s hctx' hlt] at h
            obtain rfl := Except.ok.inj h
            exact schedFrame_refl s

/-- A call either keeps the tempo or is a tempo assignment. -/
theorem step_tempo {fuel : Nat} {a : Action} {s s' : State} (h : step fuel a s = .ok s') :
    s'.tempo = s.tempo ∨ ∃ tempo, (a = .setTempo tempo ∨ a = .tempoChange tempo) ∧
      s'.tempo = tempo := by
  cases a with
  | tick now =>
      rcases tick_ok (show onWorkerMessage fuel now s = .ok s' from h) with ⟨-, rfl⟩ | ⟨-, hrun⟩
      · exact Or.inl rfl
      · exact Or.inl (scheduler_frame fuel now s s' hrun).tempo
  | draw now => exact Or.inl (draw_ok (show draw now s = .ok s' from h)).1.tempo
  | start now => obtain rfl := Except.ok.inj h; exact Or.inl rfl
  | stop => obtain rfl := Except.ok.inj h; exact Or.inl rfl
  | setTempo tempo => obtain rfl := Except.ok.inj h; exact Or.inr ⟨tempo, Or.inl rfl, rfl⟩
  | tempoChange tempo => obtain rfl := Except.ok.inj h; exact Or.inr ⟨tempo, Or.inr rfl, rfl⟩
  | setResolution r => obtain rfl := Except.ok.inj h; exact Or.inl rfl

/-- A positive tempo stays positive along calls that set positive tempos only. -/
theorem run_tempo_pos (fuel : Nat) : ∀ (acts : List Action) (s s' : State), 0 < s.tempo →
    TempoPositive acts → run fuel acts s = .ok s' → 0 < s'.tempo := by
  intro acts
  induction acts with
  | nil =>
      intro s s' hpos _ h
      obtain rfl := Except.ok.inj h
      exact hpos
  | cons a rest ih =>
      intro s s' hpos htempo h
      obtain ⟨s1, h1, hrest⟩ := run_cons_ok h
      have hpos1 : 0 < s1.tempo := by
        rcases step_tempo h1 with heq | ⟨T, hT, heq⟩
        · rw [heq]; exact hpos
        · rw [heq]; exact htempo a (List.mem_cons_self _ _) T hT
      exact ih s1 s' hpos1 (fun b hb => htempo b (List.mem_cons_of_mem _ hb)) hrest

/-! ## Lemmas on the highlights -/

/-- The beat the loop of `#draw` ends with is the displayed one or the beat of a queued event. -/
theorem drainQueue_fst_cases (now : ℚ) (q : List NoteEvent) (last : Int)
    (hnotes : ∀ e ∈ q, e.note < stepCount) :
    (drainQueue now q last).1 = last ∨
      (0 ≤ (drainQueue now q last).1 ∧ (drainQueue now q last).1 < stepCount) := by
  rw [drainQueue_eq]
  cases hl : (q.takeWhile (fun e => decide (e.time < now))).getLast? with
  | none => exact Or.inl rfl
  | some e =>
      have he : e ∈ q := (List.takeWhile_sublist _).subset (List.mem_of_getLast?_eq_some hl)
      have := hnotes e he
      exact Or.inr ⟨by simp, by simpa using this⟩

/-- A draw pass ends when every queued beat has a step button. -/
theorem draw_total (now : ℚ) (s : State) (hnotes : ∀ e ∈ s.notesInQueue, e.note < stepCount) :
    ∃ s', draw now s = .ok s' := by
  cases hctx : s.audioContext with
  | none => exact ⟨clearWhenStopped s, by simp [draw, hctx]⟩
  | some ctx =>
      obtain ⟨s1, hr⟩ := redraw_total _
        { s with notesInQueue := (drainQueue now s.notesInQueue s.last16thNoteDrawn).2 }
        (drainQueue_fst_cases now s.notesInQueue s.last16thNoteDrawn hnotes)
      exact ⟨_, draw_of_redraw (by simp [hctx]) hr⟩

theorem clearWhenStopped_of_stopped (s : State) (h : s.isPlaying = false) :
    (clearWhenStopped s).stepButtons = [] := by
  unfold clearWhenStopped
  by_cases hb : s.stepButtons = []
  · simp [h, hb]
  · have : s.stepButtons.length ≠ 0 := fun h0 => hb (List.length_eq_zero.mp h0)
    simp [h, this, resetStepButtons]

theorem clearWhenStopped_of_playing (s : State) (h : s.isPlaying = true) :
    clearWhenStopped s = s := by
  simp [clearWhenStopped, h]

/-- The highlight update for a beat other than the displayed one, with a step button. -/
theorem redraw_of_ne (b : Int) (s : State) (hne : s.last16thNoteDrawn ≠ b)
    (hb : 0 ≤ b ∧ b < stepCount) :
    redraw b s = .ok { s with
      stepButtons := [(b.toNat, if b % 4 ≠ 0 then BlinkClass.blink16th else BlinkClass.blink4th)]
      last16thNoteDrawn := b } := by
  unfold redraw
  rw [if_pos hne]
  simp only [if_pos hb, resetStepButtons, List.nil_append]

/-- The highlight update for the displayed beat does nothing. -/
theorem redraw_of_eq (b : Int) (s : State) (heq : s.last16thNoteDrawn = b) :
    redraw b s = .ok s := by
  unfold redraw
  rw [if_neg (not_not.mpr heq)]

/-! ## Lemmas on the resolution and on the loop unrolled -/

/-- The scheduler treats states that agree alike. -/
theorem scheduler_agree (fuel : Nat) : ∀ (now : ℚ) (s t : State), SchedAgree s t →
    OutcomeAgree (scheduler fuel now s) (scheduler fuel now t) := by
  induction fuel with
  | zero => intro now s t _; simp [scheduler, OutcomeAgree]
  | succ f ih =>
      intro now s t hag
      cases hs : s.audioContext with
      | none =>
          have ht : t.audioContext = none := by
            have := hag.audioContext
            rw [hs] at this
            cases h : t.audioContext with
            | none => rfl
            | some _ => rw [h] at this; simp at this
          simp [scheduler, hs, ht, OutcomeAgree]
      | some ctx =>
          have hs' : s.audioContext.isSome = true := by simp [hs]
          have ht' : t.audioContext.isSome = true := hag.audioContext ▸ hs'
          by_cases hlt : s.nextNoteTime < now + scheduleAheadTime
          · have hlt' : t.nextNoteTime < now + scheduleAheadTime := hag.nextNoteTime ▸ hlt
            obtain ⟨tctx, htc⟩ := Option.isSome_iff_exists.mp ht'
            cases hc : s.current16thNote with
            | none =>
                have hc' : t.current16thNote = none := hag.current16thNote ▸ hc
                simp [scheduler, hs, htc, hlt, hlt', hc, hc', OutcomeAgree]
            | some c =>
                have hc' : t.current16thNote = some c := hag.current16thNote ▸ hc
                obtain ⟨s1, h1, hq, hn, hcur, hfr⟩ := loop_body s c hs'
                obtain ⟨t1, h1', hq', hn', hcur', hfr'⟩ := loop_body t c ht'
                rw [scheduler_succ_of_lt f now s s1 c hs' hc hlt h1,
                  scheduler_succ_of_lt f now t t1 c ht' hc' hlt' h1']
                refine ih now (nextNote s1) (nextNote t1) ⟨?_, ?_, ?_, ?_, ?_, ?_⟩
                · rw [hfr.audioContext, hfr'.audioContext, hag.audioContext]
                · rw [hfr.isPlaying, hfr'.isPlaying, hag.isPlaying]
                · rw [hfr.tempo, hfr'.tempo, hag.tempo]
                · rw [hn, hn', hag.nextNoteTime, hag.tempo]
                · rw [hcur, hcur', hag.current16thNote]
                · rw [hq, hq', hag.notesInQueue, hag.nextNoteTime]
          · have hlt' : ¬ t.nextNoteTime < now + scheduleAheadTime := hag.nextNoteTime ▸ hlt
            rw [scheduler_succ_of_not_lt f now s hs' hlt, scheduler_succ_of_not_lt f now t ht' hlt']
            exact hag

/-- A tick handling treats states that agree alike. -/
theorem onWorkerMessage_agree (fuel : Nat) (now : ℚ) (s t : State) (hag : SchedAgree s t) :
    OutcomeAgree (onWorkerMessage fuel now s) (onWorkerMessage fuel now t) := by
  unfold onWorkerMessage
  rw [← hag.isPlaying]
  cases s.isPlaying with
  | false => exact hag
  | true => exact scheduler_agree fuel now s t hag

/-- The loop unrolled: while the first `n` grid times lie before the horizon, `n` iterations
queue the first `n` grid events, whatever the tempo. -/
theorem scheduler_unroll (n : Nat) : ∀ (now : ℚ) (s : State) (c : Nat),
    s.audioContext.isSome = true → s.current16thNote = some c → c < 16 →
    (∀ k < n, s.nextNoteTime + k * (15 / s.tempo) < now + scheduleAheadTime) →
    ∃ sn, (∀ fuel, scheduler (fuel + n) now s = scheduler fuel now sn) ∧
      sn.notesInQueue = s.notesInQueue ++ gridEvents c s.nextNoteTime (15 / s.tempo) n ∧
      sn.nextNoteTime = s.nextNoteTime + n * (15 / s.tempo) ∧
      sn.current16thNote = some ((c + n) % 16) ∧ SchedFrame s sn := by
  induction n with
  | zero =>
      intro now s c _ hc hc16 _
      refine ⟨s, fun _ => rfl, by simp [gridEvents_zero], by simp, ?_, schedFrame_refl s⟩
      rw [hc, Nat.add_zero, Nat.mod_eq_of_lt hc16]
  | succ n ih =>
      intro now s c hctx hc hc16 hlt
      have hlt0 : s.nextNoteTime < now + scheduleAheadTime := by
        simpa using hlt 0 (Nat.succ_pos n)
      obtain ⟨s1, h1, hq, ht, hcur, hfr⟩ := loop_body s c hctx
      have hcur' : (nextNote s1).current16thNote = some ((c + 1) % 16) := by
        rw [hcur, hc, Option.map_some', cursor_step c hc16]
      have hlt1 : ∀ k < n, (nextNote s1).nextNoteTime + k * (15 / (nextNote s1).tempo)
          < now + scheduleAheadTime := by
        intro k hk
        have := hlt (k + 1) (by omega)
        rw [ht, hfr.tempo]
        push_cast at this
        linarith
      obtain ⟨sn, hrun, hq', ht', hc', hfr'⟩ :=
        ih now (nextNote s1) ((c + 1) % 16) (hfr.audioContext.trans hctx) hcur'
          (Nat.mod_lt _ (by norm_num)) hlt1
      refine ⟨sn, fun fuel => ?_, ?_, ?_, ?_, schedFrame_trans hfr hfr'⟩
      · rw [show fuel + (n + 1) = (fuel + n) + 1 by omega,
          scheduler_succ_of_lt (fuel + n) now s s1 c hctx hc hlt0 h1]
        exact hrun fuel
      · rw [hq', hq, ht, hfr.tempo, gridEvents_succ_left, List.append_assoc,
          Nat.mod_eq_of_lt hc16]
        simp only [List.singleton_append, List.cons.injEq, true_and, List.append_cancel_left_eq]
        simp [gridEvents, Nat.add_mod]
      · rw [ht', ht, hfr.tempo]; push_cast; ring
      · rw [hc']; congr 1; omega

/-! ## Lemmas on the tones started along a run -/

theorem emitted_eq_tonesFor (s : State) (hctx : s.audioContext.isSome = true) (b : Nat)
    (time : ℚ) : emitted s b time = tonesFor s.noteResolution b time := by
  obtain ⟨ctx, hctx'⟩ := Option.isSome_iff_exists.mp hctx
  rw [emitted_eq s ctx hctx' b time, tonesFor]

/-- One pass of the loop body starts the tones of the beat. -/
theorem loop_body_tones (s s1 : State) (c : Nat) (hctx : s.audioContext.isSome = true)
    (h1 : scheduleNote c s.nextNoteTime s = .ok s1) :
    tonesOf (nextNote s1) = tonesOf s ++ tonesFor s.noteResolution c s.nextNoteTime := by
  obtain ⟨ctx, hctx'⟩ := Option.isSome_iff_exists.mp hctx
  have hne : tonesOf (nextNote s1) = tonesOf s1 := rfl
  rw [hne, tonesFor]
  unfold scheduleNote at h1
  dsimp only at h1
  by_cases g1 : s.noteResolution = 1 ∧ c % 2 ≠ 0
  · rw [if_pos g1] at h1
    obtain rfl := Except.ok.inj h1
    rw [if_pos (Or.inl g1)]
    simp [tonesOf]
  · by_cases g2 : s.noteResolution = 2 ∧ c % 4 ≠ 0
    · rw [if_neg g1, if_pos g2] at h1
      obtain rfl := Except.ok.inj h1
      rw [if_pos (Or.inr g2)]
      simp [tonesOf]
    · rw [if_neg g1, if_neg g2] at h1
      simp only [hctx'] at h1
      obtain rfl := Except.ok.inj h1
      rw [if_neg (not_or.mpr ⟨g1, g2⟩)]
      simp [tonesOf, hctx']

/-- The tones the scheduler starts are those of the events it queues. -/
theorem scheduler_tones (fuel : Nat) : ∀ (now : ℚ) (s s' : State),
    scheduler fuel now s = .ok s' →
    tonesOf s' = tonesOf s ++ (s'.notesInQueue.drop s.notesInQueue.length).flatMap
      (fun e => tonesFor s.noteResolution e.note e.time) := by
  induction fuel with
  | zero => intro now s s' h; simp [scheduler] at h
  | succ f ih =>
      intro now s s' h
      cases hctx : s.audioContext with
      | none => simp [scheduler, hctx] at h
      | some ctx =>
          have hctx' : s.audioContext.isSome = true := by simp [hctx]
          by_cases hlt : s.nextNoteTime < now + scheduleAheadTime
          · cases hc : s.current16thNote with
            | none => simp [scheduler, hctx, hlt, hc] at h
            | some c =>
                obtain ⟨s1, h1, hq, -, -, hfr⟩ := loop_body s c hctx'
                rw [scheduler_succ_of_lt f now s s1 c hctx' hc hlt h1] at h
                obtain ⟨l, hl⟩ := scheduler_appends f now (nextNote s1) s' h
                have hih := ih now (nextNote s1) s' h
                rw [loop_body_tones s s1 c hctx' h1, hfr.noteResolution] at hih
                rw [hih, hl, hq]
                simp [List.append_assoc]
          · rw [scheduler_succ_of_not_lt f now s hctx' hlt] at h
            obtain rfl := Except.ok.inj h
            simp

/-- A call keeps the resolution unless it assigns it, and the tones it starts are those of the
events it queues. -/
theorem step_tones {fuel : Nat} {a : Action} {s s' : State} (h : step fuel a s = .ok s') :
    (a.setsResolution = false → s'.noteResolution = s.noteResolution) ∧
    emittedBy fuel a s
      = (queuedBy fuel a s).flatMap (fun e => tonesFor s.noteResolution e.note e.time) := by
  have hnone : ∀ {a : Action}, step fuel a s = .ok s' → queuedBy fuel a s = [] →
      tonesOf s' = tonesOf s →
      emittedBy fuel a s
        = (queuedBy fuel a s).flatMap (fun e => tonesFor s.noteResolution e.note e.time) := by
    intro a h hq ht
    simp [emittedBy, h, hq, ht]
  cases a with
  | tick now =>
      have h' : onWorkerMessage fuel now s = .ok s' := h
      rcases tick_ok h' with ⟨-, rfl⟩ | ⟨-, hrun⟩
      · exact ⟨fun _ => rfl, by simp [emittedBy, queuedBy, step, h']⟩
      · refine ⟨fun _ => (scheduler_frame fuel now s s' hrun).noteResolution, ?_⟩
        simp [emittedBy, queuedBy, step, h', scheduler_tones fuel now s s' hrun]
  | draw now =>
      obtain ⟨hfr, -⟩ := draw_ok (show draw now s = .ok s' from h)
      exact ⟨fun _ => hfr.noteResolution, hnone h rfl (by simp [tonesOf, hfr.audioContext])⟩
  | start now =>
      obtain rfl := Except.ok.inj h
      refine ⟨fun _ => rfl, hnone h rfl ?_⟩
      cases hctx : s.audioContext <;> simp [tonesOf, start, hctx]
  | stop => obtain rfl := Except.ok.inj h; exact ⟨fun _ => rfl, hnone h rfl rfl⟩
  | setTempo tempo => obtain rfl := Except.ok.inj h; exact ⟨fun _ => rfl, hnone h rfl rfl⟩
  | tempoChange tempo => obtain rfl := Except.ok.inj h; exact ⟨fun _ => rfl, hnone h rfl rfl⟩
  | setResolution r =>
      obtain rfl := Except.ok.inj h
      exact ⟨fun hr => by simp [Action.setsResolution] at hr, hnone h rfl rfl⟩

/-- While no call assigns the resolution, the tones started along a run are those of the events
queued along it. -/
theorem emittedDuring_eq (fuel : Nat) : ∀ (acts : List Action) (s : State),
    (∀ a ∈ acts, a.setsResolution = false) →
    emittedDuring fuel acts s
      = (queuedDuring fuel acts s).flatMap
          (fun e => tonesFor s.noteResolution e.note e.time) := by
  intro acts
  induction acts with
  | nil => intro s _; rfl
  | cons a rest ih =>
      intro s hacts
      cases h : step fuel a s with
      | error e => simp [emittedDuring, queuedDuring, h]
      | ok s1 =>
          obtain ⟨hres, hem⟩ := step_tones h
          have hrest := ih s1 (fun b hb => hacts b (List.mem_cons_of_mem _ hb))
          rw [hres (hacts a (List.mem_cons_self _ _))] at hrest
          simp only [emittedDuring, queuedDuring, h, hem, hrest, List.flatMap_append]

/-- Under resolution Quarter the tones of a list of events are those of the events on a
multiple of 4, accent for beat 0 modulo 16 and strong otherwise. -/
theorem flatMap_tonesFor_quarter (q : List NoteEvent) :
    q.flatMap (fun e => tonesFor 2 e.note e.time)
      = (q.filter (fun e => decide (e.note % 4 = 0))).map (fun e =>
          ({ frequency := if e.note % 16 = 0 then 880 else 440, startTime := e.time,
             stopTime := e.time + noteLength } : Tone)) := by
  induction q with
  | nil => rfl
  | cons e rest ih =>
      rw [List.flatMap_cons, ih]
      by_cases h4 : e.note % 4 = 0
      · rw [List.filter_cons_of_pos (by simpa using h4)]
        simp [tonesFor, h4]
      · rw [List.filter_cons_of_neg (by simpa using h4)]
        simp [tonesFor, h4]

/-- Peeling the last event off the grid. -/
theorem gridEvents_succ_right (c : Nat) (t d : ℚ) (n : Nat) :
    gridEvents c t d (n + 1)
      = gridEvents c t d n ++ [{ note := (c + n) % 16, time := t + n * d }] := by
  simp [gridEvents, List.range_succ]

/-- The events of the grid from cursor 0 that fall on a multiple of 4 are every fourth one:
the `j`-th of them has beat `4 * j` modulo 16 and time `t + j * (4 * d)`. -/
theorem gridEvents_filter_quarter (t d : ℚ) (n : Nat) :
    (gridEvents 0 t d n).filter (fun e => decide (e.note % 4 = 0))
      = (List.range ((n + 3) / 4)).map (fun j =>
          ({ note := (4 * j) % 16, time := t + j * (4 * d) } : NoteEvent)) := by
  induction n with
  | zero => rfl
  | succ n ih =>
      rw [gridEvents_succ_right, List.filter_append, ih]
      by_cases h4 : n % 4 = 0
      · have hdiv : (n + 1 + 3) / 4 = (n + 3) / 4 + 1 := by omega
        have hn : 4 * ((n + 3) / 4) = n := by omega
        have hmod : (0 + n) % 16 % 4 = 0 := by omega
        rw [hdiv, List.range_succ, List.map_append,
          List.filter_cons_of_pos (by simpa using hmod)]
        simp only [List.filter_nil, List.map_cons, List.map_nil, List.append_cancel_left_eq,
          List.cons.injEq, NoteEvent.mk.injEq, and_true]
        constructor
        · rw [hn, Nat.zero_add]
        · have hq : (((n + 3) / 4 : Nat) : ℚ) * 4 = n := by
            have := congrArg (fun x : Nat => (x : ℚ)) hn
            simp only [Nat.cast_mul, Nat.cast_ofNat] at this
            linarith
          linear_combination (-d) * hq
      · have hdiv : (n + 1 + 3) / 4 = (n + 3) / 4 := by omega
        have hmod : ¬ (0 + n) % 16 % 4 = 0 := by omega
        rw [hdiv, List.filter_cons_of_neg (by simpa using hmod)]
        simp

/-! ## Lemmas on the rounding to doubles -/

theorem roundHalfEven_intCast (n : ℤ) : Float64.roundHalfEven (n : ℚ) = n := by
  simp [Float64.roundHalfEven]

theorem floor_le_roundHalfEven (y : ℚ) : ⌊y⌋ ≤ Float64.roundHalfEven y := by
  unfold Float64.roundHalfEven
  split_ifs <;> omega

theorem roundHalfEven_le_floor_succ (y : ℚ) : Float64.roundHalfEven y ≤ ⌊y⌋ + 1 := by
  unfold Float64.roundHalfEven
  split_ifs <;> omega

theorem roundHalfEven_mono {y z : ℚ} (h : y ≤ z) : Float64.roundHalfEven y ≤ Float64.roundHalfEven z := by
  have hf : ⌊y⌋ ≤ ⌊z⌋ := Int.floor_mono h
  rcases lt_or_eq_of_le hf with hlt | heq
  · calc Float64.roundHalfEven y ≤ ⌊y⌋ + 1 := roundHalfEven_le_floor_succ y
      _ ≤ ⌊z⌋ := hlt
      _ ≤ Float64.roundHalfEven z := floor_le_roundHalfEven z
  · unfold Float64.roundHalfEven
    rw [heq]
    have hfrac : y - ⌊z⌋ ≤ z - ⌊z⌋ := by linarith
    split_ifs <;> first | omega | (exfalso; linarith)

theorem le_roundHalfEven {n : ℤ} {y : ℚ} (h : (n : ℚ) ≤ y) : n ≤ Float64.roundHalfEven y := by
  have := roundHalfEven_mono h
  rwa [roundHalfEven_intCast] at this

theorem roundHalfEven_le {n : ℤ} {y : ℚ} (h : y ≤ (n : ℚ)) : Float64.roundHalfEven y ≤ n := by
  have := roundHalfEven_mono h
  rwa [roundHalfEven_intCast] at this

theorem float64_two_zpow_pos (k : ℤ) : (0 : ℚ) < 2 ^ k := zpow_pos (by norm_num) k

/-- The scaled value of a positive rational lies in `[2^52, 2^53)`. -/
theorem float64_scaled_bounds {x : ℚ} (hx : 0 < x) :
    (2 : ℚ) ^ (52 : ℤ) ≤ x / 2 ^ (Int.log 2 x - 52) ∧ x / 2 ^ (Int.log 2 x - 52) < 2 ^ (53 : ℤ) := by
  have hlo : ((2 : ℕ) : ℚ) ^ Int.log 2 x ≤ x := Int.zpow_log_le_self (by norm_num) hx
  have hhi : x < ((2 : ℕ) : ℚ) ^ (Int.log 2 x + 1) := Int.lt_zpow_succ_log_self (by norm_num) x
  push_cast at hlo hhi
  have hu := float64_two_zpow_pos (Int.log 2 x - 52)
  constructor
  · rw [le_div_iff₀ hu, ← zpow_add₀ (by norm_num : (2 : ℚ) ≠ 0)]
    simpa using hlo
  · rw [div_lt_iff₀ hu, ← zpow_add₀ (by norm_num : (2 : ℚ) ≠ 0)]
    have : (53 : ℤ) + (Int.log 2 x - 52) = Int.log 2 x + 1 := by ring
    rw [this]
    exact hhi

/-- The rounded value of a positive rational stays in its binade, closed above. -/
theorem roundPos_bounds {x : ℚ} (hx : 0 < x) :
    (2 : ℚ) ^ Int.log 2 x ≤ Float64.roundPos x ∧ Float64.roundPos x ≤ 2 ^ (Int.log 2 x + 1) := by
  obtain ⟨h1, h2⟩ := float64_scaled_bounds hx
  have hu := float64_two_zpow_pos (Int.log 2 x - 52)
  have hm1 : ((2 : ℤ) ^ (52 : ℕ) : ℤ) ≤ Float64.roundHalfEven (x / 2 ^ (Int.log 2 x - 52)) := by
    apply le_roundHalfEven
    push_cast
    exact_mod_cast h1
  have hm2 : Float64.roundHalfEven (x / 2 ^ (Int.log 2 x - 52)) ≤ ((2 : ℤ) ^ (53 : ℕ) : ℤ) := by
    apply roundHalfEven_le
    push_cast
    exact_mod_cast h2.le
  have hm1' : (2 : ℚ) ^ (52 : ℤ) ≤ (Float64.roundHalfEven (x / 2 ^ (Int.log 2 x - 52)) : ℚ) := by
    exact_mod_cast hm1
  have hm2' : (Float64.roundHalfEven (x / 2 ^ (Int.log 2 x - 52)) : ℚ) ≤ (2 : ℚ) ^ (53 : ℤ) := by
    exact_mod_cast hm2
  unfold Float64.roundPos
  constructor
  · calc (2 : ℚ) ^ Int.log 2 x = 2 ^ (52 : ℤ) * 2 ^ (Int.log 2 x - 52) := by
          rw [← zpow_add₀ (by norm_num : (2 : ℚ) ≠ 0)]; congr 1; ring
      _ ≤ _ := mul_le_mul_of_nonneg_right hm1' hu.le
  · calc _ ≤ (2 : ℚ) ^ (53 : ℤ) * 2 ^ (Int.log 2 x - 52) :=
          mul_le_mul_of_nonneg_right hm2' hu.le
      _ = 2 ^ (Int.log 2 x + 1) := by
          rw [← zpow_add₀ (by norm_num : (2 : ℚ) ≠ 0)]; congr 1; ring

theorem roundPos_pos {x : ℚ} (hx : 0 < x) : 0 < Float64.roundPos x :=
  lt_of_lt_of_le (float64_two_zpow_pos _) (roundPos_bounds hx).1

theorem roundPos_mono {x y : ℚ} (hx : 0 < x) (h : x ≤ y) : Float64.roundPos x ≤ Float64.roundPos y := by
  have hy : 0 < y := lt_of_lt_of_le hx h
  have hlog : Int.log 2 x ≤ Int.log 2 y := Int.log_mono_right hx h
  rcases lt_or_eq_of_le hlog with hlt | heq
  · calc Float64.roundPos x ≤ 2 ^ (Int.log 2 x + 1) := (roundPos_bounds hx).2
      _ ≤ 2 ^ Int.log 2 y := zpow_le_zpow_right₀ (by norm_num) (by omega)
      _ ≤ Float64.roundPos y := (roundPos_bounds hy).1
  · unfold Float64.roundPos
    rw [heq]
    have hu := float64_two_zpow_pos (Int.log 2 y - 52)
    apply mul_le_mul_of_nonneg_right _ hu.le
    exact_mod_cast roundHalfEven_mono (div_le_div_of_nonneg_right h hu.le)

/-- A value with an integer significand in `[2^52, 2^53)` is its own rounding. -/
theorem roundPos_of_significand (m e : ℤ) (h1 : 2 ^ 52 ≤ m) (h2 : m < 2 ^ 53) :
    Float64.roundPos ((m : ℚ) * 2 ^ (e - 52)) = (m : ℚ) * 2 ^ (e - 52) := by
  have hu := float64_two_zpow_pos (e - 52)
  have hm1 : (2 : ℚ) ^ (52 : ℤ) ≤ (m : ℚ) := by exact_mod_cast h1
  have hm2 : (m : ℚ) < (2 : ℚ) ^ (53 : ℤ) := by exact_mod_cast h2
  have hx : (0 : ℚ) < (m : ℚ) * 2 ^ (e - 52) :=
    mul_pos (lt_of_lt_of_le (float64_two_zpow_pos 52) hm1) hu
  have hlog : Int.log 2 ((m : ℚ) * 2 ^ (e - 52)) = e := by
    apply le_antisymm
    · have : (m : ℚ) * 2 ^ (e - 52) < ((2 : ℕ) : ℚ) ^ (e + 1) := by
        push_cast
        calc (m : ℚ) * 2 ^ (e - 52) < 2 ^ (53 : ℤ) * 2 ^ (e - 52) :=
              mul_lt_mul_of_pos_right hm2 hu
          _ = 2 ^ (e + 1) := by
              rw [← zpow_add₀ (by norm_num : (2 : ℚ) ≠ 0)]; congr 1; ring
      have := (Int.lt_zpow_iff_log_lt (by norm_num : 1 < 2) hx).mp this
      omega
    · apply (Int.zpow_le_iff_le_log (by norm_num : 1 < 2) hx).mp
      push_cast
      calc (2 : ℚ) ^ e = 2 ^ (52 : ℤ) * 2 ^ (e - 52) := by
            rw [← zpow_add₀ (by norm_num : (2 : ℚ) ≠ 0)]; congr 1; ring
        _ ≤ _ := mul_le_mul_of_nonneg_right hm1 hu.le
  unfold Float64.roundPos
  rw [hlog, mul_div_assoc, div_self hu.ne', mul_one, roundHalfEven_intCast]

theorem roundPos_idem {x : ℚ} (hx : 0 < x) : Float64.roundPos (Float64.roundPos x) = Float64.roundPos x := by
  obtain ⟨h1, h2⟩ := float64_scaled_bounds hx
  have hm1 : ((2 : ℤ) ^ (52 : ℕ) : ℤ) ≤ Float64.roundHalfEven (x / 2 ^ (Int.log 2 x - 52)) := by
    apply le_roundHalfEven
    push_cast
    exact_mod_cast h1
  have hm2 : Float64.roundHalfEven (x / 2 ^ (Int.log 2 x - 52)) ≤ ((2 : ℤ) ^ (53 : ℕ) : ℤ) := by
    apply roundHalfEven_le
    push_cast
    exact_mod_cast h2.le
  rcases lt_or_eq_of_le hm2 with hlt | heq
  · exact roundPos_of_significand _ (Int.log 2 x) hm1 hlt
  · have hval : Float64.roundPos x = ((2 ^ 52 : ℤ) : ℚ) * 2 ^ ((Int.log 2 x + 1) - 52) := by
      unfold Float64.roundPos
      rw [heq]
      push_cast
      rw [show Int.log 2 x + 1 - 52 = (Int.log 2 x - 52) + 1 by ring,
        zpow_add_one₀ (by norm_num : (2 : ℚ) ≠ 0)]
      ring
    rw [hval]
    exact roundPos_of_significand _ _ (by norm_num) (by norm_num)

theorem float64_round_zero : Float64.round 0 = 0 := by simp [Float64.round]

theorem float64_round_of_pos {x : ℚ} (hx : 0 < x) : Float64.round x = Float64.roundPos x := by
  simp [Float64.round, hx.ne', hx]

theorem float64_round_of_neg {x : ℚ} (hx : x < 0) : Float64.round x = -Float64.roundPos (-x) := by
  simp [Float64.round, hx.ne, not_lt.mpr hx.le]

/-- Rounding to the nearest double is monotone. -/
theorem float64_round_mono {x y : ℚ} (h : x ≤ y) : Float64.round x ≤ Float64.round y := by
  rcases lt_trichotomy x 0 with hx | hx | hx
  · rcases lt_trichotomy y 0 with hy | hy | hy
    · rw [float64_round_of_neg hx, float64_round_of_neg hy]
      exact neg_le_neg (roundPos_mono (by linarith) (by linarith))
    · rw [float64_round_of_neg hx, hy, float64_round_zero]
      exact neg_nonpos.mpr (roundPos_pos (by linarith)).le
    · rw [float64_round_of_neg hx, float64_round_of_pos hy]
      exact le_trans (neg_nonpos.mpr (roundPos_pos (by linarith)).le) (roundPos_pos hy).le
  · have hy : 0 ≤ y := hx ▸ h
    rcases eq_or_lt_of_le hy with hy | hy
    · rw [hx, ← hy]
    · rw [hx, float64_round_zero, float64_round_of_pos hy]
      exact (roundPos_pos hy).le
  · have hy : 0 < y := lt_of_lt_of_le hx h
    rw [float64_round_of_pos hx, float64_round_of_pos hy]
    exact roundPos_mono hx h

/-- A double rounds to itself. -/
theorem float64_round_idem (x : ℚ) : Float64.round (Float64.round x) = Float64.round x := by
  rcases lt_trichotomy x 0 with hx | hx | hx
  · have hp := roundPos_pos (show 0 < -x by linarith)
    rw [float64_round_of_neg hx, float64_round_of_neg (by linarith), neg_neg, roundPos_idem (by linarith)]
  · rw [hx, float64_round_zero, float64_round_zero]
  · rw [float64_round_of_pos hx, float64_round_of_pos (roundPos_pos hx), roundPos_idem hx]

/-- Evaluating a rounding from its significand: `x` is positive, `m` is `x / 2^(e-52)` rounded
half to even and lies in `[2^52, 2^53)` before rounding. -/
theorem float64_round_eq (x : ℚ) (e m : ℤ) (hx : 0 < x) (hlo : (2 : ℚ) ^ e ≤ x)
    (hhi : x < 2 ^ (e + 1)) (hm : Float64.roundHalfEven (x / 2 ^ (e - 52)) = m) :
    Float64.round x = (m : ℚ) * 2 ^ (e - 52) := by
  have hlog : Int.log 2 x = e := by
    apply le_antisymm
    · have : x < ((2 : ℕ) : ℚ) ^ (e + 1) := by push_cast; exact hhi
      have := (Int.lt_zpow_iff_log_lt (by norm_num : 1 < 2) hx).mp this
      omega
    · apply (Int.zpow_le_iff_le_log (by norm_num : 1 < 2) hx).mp
      push_cast
      exact hlo
  rw [float64_round_of_pos hx, Float64.roundPos, hlog, hm]

theorem roundHalfEven_of_lt (y : ℚ) (f : ℤ) (h1 : (f : ℚ) ≤ y) (h2 : y - f < 1 / 2) :
    Float64.roundHalfEven y = f := by
  have hf : ⌊y⌋ = f := Int.floor_eq_iff.mpr ⟨h1, by linarith⟩
  simp only [Float64.roundHalfEven, hf, h2, if_true]

theorem roundHalfEven_of_gt (y : ℚ) (f : ℤ) (h1 : y < (f : ℚ) + 1) (h2 : 1 / 2 < y - f) :
    Float64.roundHalfEven y = f + 1 := by
  have hf : ⌊y⌋ = f := Int.floor_eq_iff.mpr ⟨by linarith, h1⟩
  have h3 : ¬ y - f < 1 / 2 := not_lt.mpr h2.le
  simp only [Float64.roundHalfEven, hf, h3, h2, if_true, if_false]

theorem roundHalfEven_of_tie (y : ℚ) (f : ℤ) (h : y - f = 1 / 2) :
    Float64.roundHalfEven y = if f % 2 = 0 then f else f + 1 := by
  have hf : ⌊y⌋ = f := Int.floor_eq_iff.mpr ⟨by linarith, by linarith⟩
  have h3 : ¬ y - f < 1 / 2 := by rw [h]; exact lt_irrefl _
  have h4 : ¬ 1 / 2 < y - f := by rw [h]; exact lt_irrefl _
  simp only [Float64.roundHalfEven, hf, h3, h4, if_false]

example : Float64.round (1 / 10) = 3602879701896397 / 36028797018963968 := by
  rw [float64_round_eq (1 / 10) (-4) 7205759403792794 (by norm_num) (by norm_num) (by norm_num)
    (roundHalfEven_of_gt _ 7205759403792793 (by norm_num) (by norm_num))]
  norm_num

theorem float64_round_neg (x : ℚ) : Float64.round (-x) = -Float64.round x := by
  rcases lt_trichotomy x 0 with hx | hx | hx
  · rw [float64_round_of_neg hx, float64_round_of_pos (by linarith), neg_neg]
  · rw [hx, neg_zero, float64_round_zero, neg_zero]
  · rw [float64_round_of_pos hx, float64_round_of_neg (by linarith), neg_neg]

theorem float64_round_nonpos {x : ℚ} (h : x ≤ 0) : Float64.round x ≤ 0 := by
  have := float64_round_mono h
  rwa [float64_round_zero] at this

/-- Evaluating a rounding to a given value `r`, from the exponent `e` and the significand `m`. -/
theorem float64_round_value (x r : ℚ) (e m : ℤ) (hx : 0 < x) (hlo : (2 : ℚ) ^ e ≤ x)
    (hhi : x < 2 ^ (e + 1)) (hm : Float64.roundHalfEven (x / 2 ^ (e - 52)) = m)
    (hr : r = (m : ℚ) * 2 ^ (e - 52)) : Float64.round x = r := by
  rw [hr]
  exact float64_round_eq x e m hx hlo hhi hm

/-! ## Lemmas on the scheduler in doubles -/

theorem grid64_shift (t d : ℚ) (k : Nat) :
    grid64 (Float64.add t d) d k = grid64 t d (k + 1) := by
  induction k with
  | zero => rfl
  | succ k ih => rw [grid64, ih]; rfl

theorem gridEvents64_succ_left (c : Nat) (t d : ℚ) (n : Nat) :
    gridEvents64 c t d (n + 1)
      = { note := c % 16, time := t } :: gridEvents64 (c + 1) (Float64.add t d) d n := by
  simp only [gridEvents64, List.range_succ_eq_map, List.map_cons, List.map_map]
  refine congrArg₂ _ (by simp [grid64]) (List.map_congr_left fun k _ => ?_)
  simp only [Function.comp, Nat.succ_eq_add_one, grid64_shift]
  have h1 : c + (k + 1) = c + 1 + k := by omega
  rw [h1]

theorem mem_gridEvents64 {c : Nat} {t d : ℚ} {n : Nat} {e : NoteEvent}
    (he : e ∈ gridEvents64 c t d n) :
    ∃ k < n, e = { note := (c + k) % 16, time := grid64 t d k } := by
  simp only [gridEvents64, List.mem_map, List.mem_range] at he
  obtain ⟨k, hk, rfl⟩ := he
  exact ⟨k, hk, rfl⟩

/-- One pass of the loop body in doubles: `#scheduleNote` then `#nextNote`, unless the tone
emitter refuses a negative start time. -/
theorem loop_body64 (s : State) (c : Nat) (hctx : s.audioContext.isSome = true) :
    (∃ s1, scheduleNote64 c s.nextNoteTime s = .ok s1 ∧
      (nextNote64 s1).notesInQueue = s.notesInQueue ++ [{ note := c, time := s.nextNoteTime }] ∧
      (nextNote64 s1).nextNoteTime = Float64.add s.nextNoteTime (step64 s.tempo) ∧
      (nextNote64 s1).current16thNote
        = s.current16thNote.map (fun c => if c + 1 = 16 then 0 else c + 1) ∧
      SchedFrame s (nextNote64 s1) ∧
      tonesOf (nextNote64 s1) = tonesOf s ++ tonesFor64 s.noteResolution c s.nextNoteTime) ∨
    (scheduleNote64 c s.nextNoteTime s = .error .rangeError ∧ s.nextNoteTime < 0) := by
  obtain ⟨ctx, hctx'⟩ := Option.isSome_iff_exists.mp hctx
  unfold scheduleNote64
  dsimp only
  by_cases g1 : s.noteResolution = 1 ∧ c % 2 ≠ 0
  · left
    rw [if_pos g1]
    refine ⟨_, rfl, rfl, rfl, rfl, ⟨rfl, rfl, rfl, rfl, rfl, rfl, rfl, rfl⟩, ?_⟩
    simp [tonesFor64, g1, tonesOf, nextNote64]
  · by_cases g2 : s.noteResolution = 2 ∧ c % 4 ≠ 0
    · left
      rw [if_neg g1, if_pos g2]
      refine ⟨_, rfl, rfl, rfl, rfl, ⟨rfl, rfl, rfl, rfl, rfl, rfl, rfl, rfl⟩, ?_⟩
      simp [tonesFor64, g2, tonesOf, nextNote64]
    · rw [if_neg g1, if_neg g2]
      simp only [hctx']
      by_cases hneg : s.nextNoteTime < 0
      · right
        rw [if_pos hneg]
        exact ⟨rfl, hneg⟩
      · left
        rw [if_neg hneg]
        refine ⟨_, rfl, rfl, rfl, rfl,
          ⟨rfl, rfl, rfl, rfl, rfl, rfl, rfl, by simp [nextNote64, hctx']⟩, ?_⟩
        unfold tonesFor64
        rw [if_neg (not_or.mpr ⟨g1, g2⟩)]
        simp [tonesOf, nextNote64, hctx']

theorem scheduler64_succ_of_lt (fuel : Nat) (now : ℚ) (s s1 : State) (c : Nat)
    (hctx : s.audioContext.isSome = true) (hc : s.current16thNote = some c)
    (hlt : s.nextNoteTime < Float64.add now scheduleAheadTime64)
    (h1 : scheduleNote64 c s.nextNoteTime s = .ok s1) :
    scheduler64 (fuel + 1) now s = scheduler64 fuel now (nextNote64 s1) := by
  obtain ⟨ctx, hctx'⟩ := Option.isSome_iff_exists.mp hctx
  simp only [scheduler64, hctx', hlt, if_true, hc, h1]

theorem scheduler64_succ_of_error (fuel : Nat) (now : ℚ) (s : State) (c : Nat) (e : Fault)
    (hctx : s.audioContext.isSome = true) (hc : s.current16thNote = some c)
    (hlt : s.nextNoteTime < Float64.add now scheduleAheadTime64)
    (h1 : scheduleNote64 c s.nextNoteTime s = .error e) :
    scheduler64 (fuel + 1) now s = .error e := by
  obtain ⟨ctx, hctx'⟩ := Option.isSome_iff_exists.mp hctx
  simp only [scheduler64, hctx', hlt, if_true, hc, h1]

theorem scheduler64_succ_of_not_lt (fuel : Nat) (now : ℚ) (s : State)
    (hctx : s.audioContext.isSome = true)
    (hge : ¬ s.nextNoteTime < Float64.add now scheduleAheadTime64) :
    scheduler64 (fuel + 1) now s = .ok s := by
  obtain ⟨ctx, hctx'⟩ := Option.isSome_iff_exists.mp hctx
  simp only [scheduler64, hctx', hge, if_false]

/-- Running the loop in doubles: if exactly the first `n` double grid times lie before the
horizon `now + 0.1` (in doubles) and none of them is negative, then with more than `n` units of
fuel the loop ends, having queued the first `n` double grid events and started their tones. -/
theorem scheduler64_grid (n : Nat) : ∀ (fuel : Nat) (now : ℚ) (s : State) (c : Nat),
    s.audioContext.isSome = true → s.current16thNote = some c → c < 16 →
    (∀ k < n, grid64 s.nextNoteTime (step64 s.tempo) k
      < Float64.add now scheduleAheadTime64) →
    ¬ grid64 s.nextNoteTime (step64 s.tempo) n < Float64.add now scheduleAheadTime64 →
    (∀ k < n, 0 ≤ grid64 s.nextNoteTime (step64 s.tempo) k) →
    n < fuel →
    ∃ s', scheduler64 fuel now s = .ok s' ∧
      s'.notesInQueue = s.notesInQueue ++ gridEvents64 c s.nextNoteTime (step64 s.tempo) n ∧
      s'.nextNoteTime = grid64 s.nextNoteTime (step64 s.tempo) n ∧
      s'.current16thNote = some ((c + n) % 16) ∧ SchedFrame s s' ∧
      tonesOf s' = tonesOf s ++ (gridEvents64 c s.nextNoteTime (step64 s.tempo) n).flatMap
        (fun e => tonesFor64 s.noteResolution e.note e.time) := by
  induction n with
  | zero =>
      intro fuel now s c hctx hc hc16 _ hge _ hfuel
      obtain ⟨f, rfl⟩ : ∃ f, fuel = f + 1 := ⟨fuel - 1, by omega⟩
      refine ⟨s, scheduler64_succ_of_not_lt f now s hctx hge, ?_, rfl, ?_, schedFrame_refl s, ?_⟩
      · simp [gridEvents64]
      · rw [hc, Nat.add_zero, Nat.mod_eq_of_lt hc16]
      · simp [gridEvents64]
  | succ n ih =>
      intro fuel now s c hctx hc hc16 hlt hge hpos hfuel
      obtain ⟨f, rfl⟩ : ∃ f, fuel = f + 1 := ⟨fuel - 1, by omega⟩
      have hlt0 : s.nextNoteTime < Float64.add now scheduleAheadTime64 :=
        hlt 0 (Nat.succ_pos n)
      have hpos0 : 0 ≤ s.nextNoteTime := hpos 0 (Nat.succ_pos n)
      rcases loop_body64 s c hctx with ⟨s1, h1, hq, ht, hcur, hfr, htones⟩ | ⟨-, hneg⟩
      · have hrun := scheduler64_succ_of_lt f now s s1 c hctx hc hlt0 h1
        have hcur' : (nextNote64 s1).current16thNote = some ((c + 1) % 16) := by
          rw [hcur, hc, Option.map_some', cursor_step c hc16]
        have hctx1 : (nextNote64 s1).audioContext.isSome = true := hfr.audioContext.trans hctx
        obtain ⟨s', hs', hq', ht', hc', hfr', htones'⟩ :=
          ih f now (nextNote64 s1) ((c + 1) % 16) hctx1 hcur' (Nat.mod_lt _ (by norm_num))
            (fun k hk => by
              rw [ht, hfr.tempo, grid64_shift]
              exact hlt (k + 1) (by omega))
            (by rw [ht, hfr.tempo, grid64_shift]; exact hge)
            (fun k hk => by
              rw [ht, hfr.tempo, grid64_shift]
              exact hpos (k + 1) (by omega))
            (by omega)
        rw [ht, hfr.tempo] at hq' ht' htones'
        rw [hfr.noteResolution] at htones'
        have hev : gridEvents64 c s.nextNoteTime (step64 s.tempo) (n + 1)
            = { note := c, time := s.nextNoteTime } ::
              gridEvents64 ((c + 1) % 16) (Float64.add s.nextNoteTime (step64 s.tempo))
                (step64 s.tempo) n := by
          rw [gridEvents64_succ_left, Nat.mod_eq_of_lt hc16]
          congr 1
          simp [gridEvents64, Nat.add_mod]
        refine ⟨s', hrun.trans hs', ?_, ?_, ?_, schedFrame_trans hfr hfr', ?_⟩
        · rw [hq', hq, hev, List.append_assoc, List.singleton_append]
        · rw [ht', grid64_shift]
        · rw [hc']; congr 1; omega
        · rw [htones', htones, hev, List.flatMap_cons, List.append_assoc]
      · exact absurd hpos0 (not_le.mpr hneg)

/-- With a negative tempo, a next-note time that is a double below the horizon stays one:
whatever the fuel, the loop in doubles is left by no state, only by the fuel running out or by
the `RangeError` of the tone emitter. -/
theorem scheduler64_negative_tempo (fuel : Nat) : ∀ (now : ℚ) (s : State),
    s.audioContext.isSome = true → s.current16thNote.isSome = true → s.tempo < 0 →
    Float64.round s.nextNoteTime = s.nextNoteTime →
    s.nextNoteTime < Float64.add now scheduleAheadTime64 →
    scheduler64 fuel now s = .error .outOfFuel ∨ scheduler64 fuel now s = .error .rangeError := by
  induction fuel with
  | zero => intro now s _ _ _ _ _; exact Or.inl rfl
  | succ f ih =>
      intro now s hctx hcur hT hrep hlt
      obtain ⟨c, hc⟩ := Option.isSome_iff_exists.mp hcur
      rcases loop_body64 s c hctx with ⟨s1, h1, -, ht, hcur', hfr, -⟩ | ⟨herr, -⟩
      · rw [scheduler64_succ_of_lt f now s s1 c hctx hc hlt h1]
        have hstep : step64 s.tempo ≤ 0 := by
          unfold step64 Float64.mul Float64.div
          apply float64_round_nonpos
          have h60 : (60 : ℚ) / s.tempo ≤ 0 := (div_neg_of_pos_of_neg (by norm_num) hT).le
          have := float64_round_nonpos h60
          linarith
        have hle : (nextNote64 s1).nextNoteTime ≤ s.nextNoteTime := by
          rw [ht]
          unfold Float64.add
          calc Float64.round (s.nextNoteTime + step64 s.tempo)
              ≤ Float64.round s.nextNoteTime := float64_round_mono (by linarith)
            _ = s.nextNoteTime := hrep
        refine ih now (nextNote64 s1) (hfr.audioContext.trans hctx) ?_ (hfr.tempo ▸ hT) ?_
          (lt_of_le_of_lt hle hlt)
        · rw [hcur', hc]; rfl
        · rw [ht]; exact float64_round_idem _
      · exact Or.inr (scheduler64_succ_of_error f now s c _ hctx hc hlt herr)

theorem float64_round_nonneg {x : ℚ} (h : 0 ≤ x) : 0 ≤ Float64.round x := by
  have := float64_round_mono h
  rwa [float64_round_zero] at this

theorem step64_nonneg {T : ℚ} (hT : 0 < T) : 0 ≤ step64 T := by
  unfold step64 Float64.mul Float64.div
  apply float64_round_nonneg
  have h60 : (0 : ℚ) ≤ 60 / T := (div_pos (by norm_num) hT).le
  have := float64_round_nonneg h60
  linarith

theorem grid64_nonneg {t d : ℚ} (ht : 0 ≤ t) (hd : 0 ≤ d) (k : Nat) : 0 ≤ grid64 t d k := by
  induction k with
  | zero => exact ht
  | succ k ih => exact float64_round_nonneg (add_nonneg ih hd)

theorem grid64_round {t d : ℚ} (ht : Float64.round t = t) (k : Nat) :
    Float64.round (grid64 t d k) = grid64 t d k := by
  cases k with
  | zero => exact ht
  | succ k => exact float64_round_idem _

theorem grid64_mono {t d : ℚ} (ht : Float64.round t = t) (hd : 0 ≤ d) {i j : Nat}
    (h : i ≤ j) : grid64 t d i ≤ grid64 t d j := by
  refine monotone_nat_of_le_succ (fun k => ?_) h
  calc grid64 t d k = Float64.round (grid64 t d k) := (grid64_round ht k).symm
    _ ≤ Float64.round (grid64 t d k + d) := float64_round_mono (by linarith)

/-- The double grid events do not descend in time when the advance is not negative. -/
theorem gridEvents64_sorted (c : Nat) {t d : ℚ} (ht : Float64.round t = t) (hd : 0 ≤ d)
    (n : Nat) : (gridEvents64 c t d n).Pairwise (fun a b => a.time ≤ b.time) := by
  unfold gridEvents64
  rw [List.pairwise_map]
  exact (List.pairwise_lt_range n).imp (fun hab => grid64_mono ht hd hab.le)

/-- An audible beat at a negative time: `osc.start` throws. -/
theorem scheduleNote64_of_negative (s : State) (c : Nat) (time : ℚ)
    (hctx : s.audioContext.isSome = true) (hres : s.noteResolution = 0) (hneg : time < 0) :
    scheduleNote64 c time s = .error .rangeError := by
  obtain ⟨ctx, hctx'⟩ := Option.isSome_iff_exists.mp hctx
  simp [scheduleNote64, hres, hctx', hneg]

/-- An advance that the next-note time absorbs leaves the loop condition as it was: the loop
in doubles exhausts every fuel. -/
theorem scheduler64_absorbed (fuel : Nat) : ∀ (now : ℚ) (s : State),
    s.audioContext.isSome = true → s.current16thNote.isSome = true → 0 ≤ s.nextNoteTime →
    s.nextNoteTime < Float64.add now scheduleAheadTime64 →
    Float64.add s.nextNoteTime (step64 s.tempo) = s.nextNoteTime →
    scheduler64 fuel now s = .error .outOfFuel := by
  induction fuel with
  | zero => intro now s _ _ _ _ _; rfl
  | succ f ih =>
      intro now s hctx hcur h0 hlt habs
      obtain ⟨c, hc⟩ := Option.isSome_iff_exists.mp hcur
      rcases loop_body64 s c hctx with ⟨s1, h1, -, ht, hcur', hfr, -⟩ | ⟨-, hneg⟩
      · rw [scheduler64_succ_of_lt f now s s1 c hctx hc hlt h1]
        have ht' : (nextNote64 s1).nextNoteTime = s.nextNoteTime := ht.trans habs
        refine ih now _ (hfr.audioContext.trans hctx) ?_ (ht' ▸ h0) (ht' ▸ hlt) ?_
        · rw [hcur', hc]; rfl
        · rw [ht', hfr.tempo]; exact habs
      · exact absurd h0 (not_le.mpr hneg)

/-- The next-note time after `n` advances in exact arithmetic. -/
theorem nextNote_iterate_time (n : Nat) (s : State) :
    (nextNote^[n] s).nextNoteTime = s.nextNoteTime + n * (15 / s.tempo) ∧
    (nextNote^[n] s).tempo = s.tempo := by
  induction n generalizing s with
  | zero => simp
  | succ n ih =>
      rw [Function.iterate_succ_apply]
      obtain ⟨h1, h2⟩ := ih (nextNote s)
      rw [h1, h2]
      simp only [nextNote]
      refine ⟨?_, trivial⟩
      push_cast
      ring

/-! ## Roundings evaluated

Each value is checked from its exponent and its significand. -/

theorem scheduleAheadTime64_eq : scheduleAheadTime64 = 3602879701896397 / 36028797018963968 := by
  simp only [scheduleAheadTime64]
  exact float64_round_value _ _ (-4) 7205759403792794 (by norm_num) (by norm_num) (by norm_num)
    ((roundHalfEven_of_gt _ 7205759403792793 (by norm_num) (by norm_num)).trans (by norm_num)) (by norm_num)

theorem float64_div_60_120 : Float64.div 60 120 = 1 / 2 := by
  simp only [Float64.div]
  exact float64_round_value _ _ (-1) 4503599627370496 (by norm_num) (by norm_num) (by norm_num)
    (roundHalfEven_of_lt _ 4503599627370496 (by norm_num) (by norm_num)) (by norm_num)

theorem float64_mul_quarter_half : Float64.mul (1 / 4) (1 / 2) = 1 / 8 := by
  simp only [Float64.mul]
  exact float64_round_value _ _ (-3) 4503599627370496 (by norm_num) (by norm_num) (by norm_num)
    (roundHalfEven_of_lt _ 4503599627370496 (by norm_num) (by norm_num)) (by norm_num)

theorem step64_120 : step64 120 = 1 / 8 := by
  rw [step64, float64_div_60_120, float64_mul_quarter_half]

theorem step64_neg_120 : step64 (-120) = -(1 / 8) := by
  have h1 : Float64.div 60 (-120) = -(1 / 2) := by
    have h := float64_div_60_120
    simp only [Float64.div] at h ⊢
    rw [show (60 : ℚ) / (-120) = -(60 / 120) by norm_num, float64_round_neg, h]
  have h2 : Float64.mul (1 / 4) (-(1 / 2)) = -(1 / 8) := by
    have h := float64_mul_quarter_half
    simp only [Float64.mul] at h ⊢
    rw [show (1 / 4 : ℚ) * (-(1 / 2)) = -(1 / 4 * (1 / 2)) by norm_num, float64_round_neg, h]
  rw [step64, h1, h2]

theorem add_clock646_eighth : Float64.add clock646 (1 / 8) = 8444300362539945 / 4503599627370496 + 1 / 8 - 1 / 2 ^ 52 := by
  simp only [Float64.add, clock646]
  exact float64_round_value _ _ (1) 4503625157980628 (by norm_num) (by norm_num) (by norm_num)
    ((roundHalfEven_of_tie _ 4503625157980628 (by norm_num)).trans (by norm_num)) (by norm_num)

theorem horizon_clock646 : Float64.add clock646 scheduleAheadTime64 = 8894660325276995 / 4503599627370496 := by
  simp only [Float64.add, clock646, scheduleAheadTime64_eq]
  exact float64_round_value _ _ (0) 8894660325276995 (by norm_num) (by norm_num) (by norm_num)
    ((roundHalfEven_of_gt _ 8894660325276994 (by norm_num) (by norm_num)).trans (by norm_num)) (by norm_num)

theorem grid_clock517_1 : Float64.add (6758054624509523 / 4503599627370496) (1 / 8) = 7321004577930835 / 4503599627370496 := by
  simp only [Float64.add]
  exact float64_round_value _ _ (0) 7321004577930835 (by norm_num) (by norm_num) (by norm_num)
    (roundHalfEven_of_lt _ 7321004577930835 (by norm_num) (by norm_num)) (by norm_num)

theorem grid_clock517_2 : Float64.add (7321004577930835 / 4503599627370496) (1 / 8) = 7883954531352147 / 4503599627370496 := by
  simp only [Float64.add]
  exact float64_round_value _ _ (0) 7883954531352147 (by norm_num) (by norm_num) (by norm_num)
    (roundHalfEven_of_lt _ 7883954531352147 (by norm_num) (by norm_num)) (by norm_num)

theorem grid_clock517_3 : Float64.add (7883954531352147 / 4503599627370496) (1 / 8) = 8446904484773459 / 4503599627370496 := by
  simp only [Float64.add]
  exact float64_round_value _ _ (0) 8446904484773459 (by norm_num) (by norm_num) (by norm_num)
    (roundHalfEven_of_lt _ 8446904484773459 (by norm_num) (by norm_num)) (by norm_num)

theorem grid_clock517_4 : Float64.add (8446904484773459 / 4503599627370496) (1 / 8) = 2252463609548693 / 1125899906842624 := by
  simp only [Float64.add]
  exact float64_round_value _ _ (1) 4504927219097386 (by norm_num) (by norm_num) (by norm_num)
    ((roundHalfEven_of_tie _ 4504927219097385 (by norm_num)).trans (by norm_num)) (by norm_num)

theorem grid_clock517_5 : Float64.add (2252463609548693 / 1125899906842624) (1 / 8) = 2393201097904021 / 1125899906842624 := by
  simp only [Float64.add]
  exact float64_round_value _ _ (1) 4786402195808042 (by norm_num) (by norm_num) (by norm_num)
    (roundHalfEven_of_lt _ 4786402195808042 (by norm_num) (by norm_num)) (by norm_num)

theorem horizon_clock690 : Float64.add clock690 scheduleAheadTime64 = 2367453477585409 / 1125899906842624 := by
  simp only [Float64.add, clock690, scheduleAheadTime64_eq]
  exact float64_round_value _ _ (1) 4734906955170818 (by norm_num) (by norm_num) (by norm_num)
    ((roundHalfEven_of_gt _ 4734906955170817 (by norm_num) (by norm_num)).trans (by norm_num)) (by norm_num)

theorem float64_div_60_huge : Float64.div 60 (10 ^ 18) = 4867778304876401 / 81129638414606681695789005144064 := by
  simp only [Float64.div]
  exact float64_round_value _ _ (-54) 4867778304876401 (by norm_num) (by norm_num) (by norm_num)
    ((roundHalfEven_of_gt _ 4867778304876400 (by norm_num) (by norm_num)).trans (by norm_num)) (by norm_num)

theorem float64_mul_quarter_huge : Float64.mul (1 / 4) (4867778304876401 / 81129638414606681695789005144064) = 4867778304876401 / 324518553658426726783156020576256 := by
  simp only [Float64.mul]
  exact float64_round_value _ _ (-56) 4867778304876401 (by norm_num) (by norm_num) (by norm_num)
    (roundHalfEven_of_lt _ 4867778304876401 (by norm_num) (by norm_num)) (by norm_num)

theorem float64_add_one_huge : Float64.add 1 (4867778304876401 / 324518553658426726783156020576256) = 1 := by
  simp only [Float64.add]
  exact float64_round_value _ _ (0) 4503599627370496 (by norm_num) (by norm_num) (by norm_num)
    (roundHalfEven_of_lt _ 4503599627370496 (by norm_num) (by norm_num)) (by norm_num)

theorem step64_huge : step64 (10 ^ 18) = 4867778304876401 / 324518553658426726783156020576256 := by
  rw [step64, float64_div_60_huge, float64_mul_quarter_huge]

theorem horizon_one : Float64.add 1 scheduleAheadTime64 = 2476979795053773 / 2251799813685248 := by
  simp only [Float64.add, scheduleAheadTime64_eq]
  exact float64_round_value _ _ (0) 4953959590107546 (by norm_num) (by norm_num) (by norm_num)
    ((roundHalfEven_of_gt _ 4953959590107545 (by norm_num) (by norm_num)).trans (by norm_num)) (by norm_num)

theorem float64_div_60_150 : Float64.div 60 150 = 3602879701896397 / 9007199254740992 := by
  simp only [Float64.div]
  exact float64_round_value _ _ (-2) 7205759403792794 (by norm_num) (by norm_num) (by norm_num)
    ((roundHalfEven_of_gt _ 7205759403792793 (by norm_num) (by norm_num)).trans (by norm_num)) (by norm_num)

theorem float64_mul_quarter_150 : Float64.mul (1 / 4) (3602879701896397 / 9007199254740992) = 3602879701896397 / 36028797018963968 := by
  simp only [Float64.mul]
  exact float64_round_value _ _ (-4) 7205759403792794 (by norm_num) (by norm_num) (by norm_num)
    (roundHalfEven_of_lt _ 7205759403792794 (by norm_num) (by norm_num)) (by norm_num)

theorem step64_150 : step64 150 = 3602879701896397 / 36028797018963968 := by
  rw [step64, float64_div_60_150, float64_mul_quarter_150]

theorem grid_tenth_1 : Float64.add (0) (3602879701896397 / 36028797018963968) = 3602879701896397 / 36028797018963968 := by
  simp only [Float64.add]
  exact float64_round_value _ _ (-4) 7205759403792794 (by norm_num) (by norm_num) (by norm_num)
    (roundHalfEven_of_lt _ 7205759403792794 (by norm_num) (by norm_num)) (by norm_num)

theorem grid_tenth_2 : Float64.add (3602879701896397 / 36028797018963968) (3602879701896397 / 36028797018963968) = 3602879701896397 / 18014398509481984 := by
  simp only [Float64.add]
  exact float64_round_value _ _ (-3) 7205759403792794 (by norm_num) (by norm_num) (by norm_num)
    (roundHalfEven_of_lt _ 7205759403792794 (by norm_num) (by norm_num)) (by norm_num)

theorem grid_tenth_3 : Float64.add (3602879701896397 / 18014398509481984) (3602879701896397 / 36028797018963968) = 1351079888211149 / 4503599627370496 := by
  simp only [Float64.add]
  exact float64_round_value _ _ (-2) 5404319552844596 (by norm_num) (by norm_num) (by norm_num)
    ((roundHalfEven_of_tie _ 5404319552844595 (by norm_num)).trans (by norm_num)) (by norm_num)

theorem grid_tenth_4 : Float64.add (1351079888211149 / 4503599627370496) (3602879701896397 / 36028797018963968) = 3602879701896397 / 9007199254740992 := by
  simp only [Float64.add]
  exact float64_round_value _ _ (-2) 7205759403792794 (by norm_num) (by norm_num) (by norm_num)
    ((roundHalfEven_of_tie _ 7205759403792794 (by norm_num)).trans (by norm_num)) (by norm_num)

theorem grid_tenth_5 : Float64.add (3602879701896397 / 9007199254740992) (3602879701896397 / 36028797018963968) = 1 / 2 := by
  simp only [Float64.add]
  exact float64_round_value _ _ (-1) 4503599627370496 (by norm_num) (by norm_num) (by norm_num)
    (roundHalfEven_of_lt _ 4503599627370496 (by norm_num) (by norm_num)) (by norm_num)

theorem grid_tenth_6 : Float64.add (1 / 2) (3602879701896397 / 36028797018963968) = 5404319552844595 / 9007199254740992 := by
  simp only [Float64.add]
  exact float64_round_value _ _ (-1) 5404319552844595 (by norm_num) (by norm_num) (by norm_num)
    (roundHalfEven_of_lt _ 5404319552844595 (by norm_num) (by norm_num)) (by norm_num)

theorem grid_tenth_7 : Float64.add (5404319552844595 / 9007199254740992) (3602879701896397 / 36028797018963968) = 3152519739159347 / 4503599627370496 := by
  simp only [Float64.add]
  exact float64_round_value _ _ (-1) 6305039478318694 (by norm_num) (by norm_num) (by norm_num)
    (roundHalfEven_of_lt _ 6305039478318694 (by norm_num) (by norm_num)) (by norm_num)

theorem grid_tenth_8 : Float64.add (3152519739159347 / 4503599627370496) (3602879701896397 / 36028797018963968) = 7205759403792793 / 9007199254740992 := by
  simp only [Float64.add]
  exact float64_round_value _ _ (-1) 7205759403792793 (by norm_num) (by norm_num) (by norm_num)
    (roundHalfEven_of_lt _ 7205759403792793 (by norm_num) (by norm_num)) (by norm_num)

theorem grid_tenth_9 : Float64.add (7205759403792793 / 9007199254740992) (3602879701896397 / 36028797018963968) = 2026619832316723 / 2251799813685248 := by
  simp only [Float64.add]
  exact float64_round_value _ _ (-1) 8106479329266892 (by norm_num) (by norm_num) (by norm_num)
    (roundHalfEven_of_lt _ 8106479329266892 (by norm_num) (by norm_num)) (by norm_num)

theorem grid_tenth_10 : Float64.add (2026619832316723 / 2251799813685248) (3602879701896397 / 36028797018963968) = 9007199254740991 / 9007199254740992 := by
  simp only [Float64.add]
  exact float64_round_value _ _ (-1) 9007199254740991 (by norm_num) (by norm_num) (by norm_num)
    (roundHalfEven_of_lt _ 9007199254740991 (by norm_num) (by norm_num)) (by norm_num)

theorem grid_tenth_11 : Float64.add (9007199254740991 / 9007199254740992) (3602879701896397 / 36028797018963968) = 4953959590107545 / 4503599627370496 := by
  simp only [Float64.add]
  exact float64_round_value _ _ (0) 4953959590107545 (by norm_num) (by norm_num) (by norm_num)
    (roundHalfEven_of_lt _ 4953959590107545 (by norm_num) (by norm_num)) (by norm_num)

theorem grid_tenth_12 : Float64.add (4953959590107545 / 4503599627370496) (3602879701896397 / 36028797018963968) = 5404319552844595 / 4503599627370496 := by
  simp only [Float64.add]
  exact float64_round_value _ _ (0) 5404319552844595 (by norm_num) (by norm_num) (by norm_num)
    ((roundHalfEven_of_gt _ 5404319552844594 (by norm_num) (by norm_num)).trans (by norm_num)) (by norm_num)

/-- The first thirteen next-note times in doubles at 150 bpm from 0: 0, 0.1, 0.2,
0.30000000000000004, 0.4, 0.5, 0.6, 0.7, 0.7999999999999999, 0.8999999999999999,
0.9999999999999999, 1.0999999999999999, 1.2. -/
theorem grid64_tenths :
    (List.range 13).map (grid64 0 (3602879701896397 / 36028797018963968))
      = [0, 3602879701896397 / 36028797018963968, 3602879701896397 / 18014398509481984, 1351079888211149 / 4503599627370496, 3602879701896397 / 9007199254740992, 1 / 2, 5404319552844595 / 9007199254740992, 3152519739159347 / 4503599627370496, 7205759403792793 / 9007199254740992, 2026619832316723 / 2251799813685248, 9007199254740991 / 9007199254740992, 4953959590107545 / 4503599627370496, 5404319552844595 / 4503599627370496] := by
  simp only [List.range_succ, List.range_zero, List.nil_append, List.cons_append, List.map_cons,
    List.map_nil, grid64, grid_tenth_1, grid_tenth_2, grid_tenth_3, grid_tenth_4, grid_tenth_5, grid_tenth_6, grid_tenth_7, grid_tenth_8, grid_tenth_9, grid_tenth_10, grid_tenth_11, grid_tenth_12]

/-- The clock time `clock646` is a double. -/
theorem round_clock646 : Float64.round clock646 = 8444300362539945 / 4503599627370496 := by
  simp only [clock646]
  exact float64_round_value _ _ (0) 8444300362539945 (by norm_num) (by norm_num) (by norm_num)
    (roundHalfEven_of_lt _ 8444300362539945 (by norm_num) (by norm_num)) (by norm_num)

theorem horizon_zero :
    Float64.add 0 scheduleAheadTime64 = 3602879701896397 / 36028797018963968 := by
  rw [Float64.add, zero_add, scheduleAheadTime64, float64_round_idem,
    ← scheduleAheadTime64, scheduleAheadTime64_eq]

/-! ## Ticks evaluated in doubles -/

/-- At 120 bpm, started at clock time 1.8750113378684807 and ticked at once: one event is
queued and the next-note time becomes 2.0000113378684805, one unit in the last place below
`clock646 + 1/8`. -/
theorem tick_startedAt646 (fuel : Nat) (hfuel : 1 < fuel) :
    ∃ s', onWorkerMessage64 fuel clock646 startedAt646 = .ok s' ∧
      s'.notesInQueue = [⟨0, clock646⟩] ∧
      s'.nextNoteTime = clock646 + 1 / 8 - 1 / 2 ^ 52 ∧
      s'.current16thNote = some 1 := by
  have ht : startedAt646.nextNoteTime = clock646 := rfl
  have hT : startedAt646.tempo = 120 := rfl
  have hg1 : grid64 clock646 (1 / 8) 1 = clock646 + 1 / 8 - 1 / 2 ^ 52 := by
    simp only [grid64, add_clock646_eighth]
    rw [clock646]
  obtain ⟨s', hs', hq, hn, hc, -⟩ :=
    scheduler64_grid 1 fuel clock646 startedAt646 0 rfl rfl (by norm_num)
      (fun k hk => by
        obtain rfl : k = 0 := by omega
        rw [ht, horizon_clock646]
        norm_num [grid64, clock646])
      (by
        rw [ht, hT, step64_120, hg1, horizon_clock646]
        norm_num [clock646])
      (fun k hk => by
        obtain rfl : k = 0 := by omega
        rw [ht]
        norm_num [grid64, clock646])
      hfuel
  rw [ht, hT, step64_120] at hq hn
  refine ⟨s', by simp only [onWorkerMessage64]; exact hs', ?_, by rw [hn, hg1], hc⟩
  rw [hq]
  simp [gridEvents64, List.range_succ, grid64, startedAt646, start, initial]

/-- At 150 bpm, started at 0 and ticked at clock time 1: twelve events are queued, the last
one at 1.0999999999999999, before the horizon 1.1 in doubles. -/
theorem tick_fastStarted (fuel : Nat) (hfuel : 12 < fuel) :
    ∃ s', onWorkerMessage64 fuel 1 fastStarted = .ok s' ∧
      s'.notesInQueue.map (fun e => e.note) = List.range 12 ∧
      s'.notesInQueue.getLast? = some ⟨11, 4953959590107545 / 4503599627370496⟩ ∧
      s'.nextNoteTime = 5404319552844595 / 4503599627370496 ∧
      s'.current16thNote = some 12 := by
  have ht : fastStarted.nextNoteTime = 0 := rfl
  have hT : fastStarted.tempo = 150 := rfl
  obtain ⟨s', hs', hq, hn, hc, -⟩ :=
    scheduler64_grid 12 fuel 1 fastStarted 0 rfl rfl (by norm_num)
      (fun k hk => by
        rw [ht, hT, step64_150, horizon_one]
        interval_cases k <;>
          simp only [grid64, grid_tenth_1, grid_tenth_2, grid_tenth_3, grid_tenth_4,
            grid_tenth_5, grid_tenth_6, grid_tenth_7, grid_tenth_8, grid_tenth_9,
            grid_tenth_10, grid_tenth_11] <;> norm_num)
      (by
        rw [ht, hT, step64_150, horizon_one]
        simp only [grid64, grid_tenth_1, grid_tenth_2, grid_tenth_3, grid_tenth_4,
          grid_tenth_5, grid_tenth_6, grid_tenth_7, grid_tenth_8, grid_tenth_9,
          grid_tenth_10, grid_tenth_11, grid_tenth_12]
        norm_num)
      (fun k _ => by
        rw [ht, hT]
        exact grid64_nonneg le_rfl (step64_nonneg (by norm_num)) k)
      hfuel
  rw [ht, hT, step64_150] at hq hn
  have hq0 : fastStarted.notesInQueue = [] := rfl
  rw [hq0, List.nil_append] at hq
  refine ⟨s', by simp only [onWorkerMessage64]; exact hs', ?_, ?_, ?_, hc⟩
  · rw [hq]
    simp [gridEvents64, List.range_succ]
  · rw [hq]
    simp only [gridEvents64, List.range_succ, List.range_zero, List.nil_append,
      List.cons_append, List.map_cons, List.map_nil, grid64, grid_tenth_1, grid_tenth_2,
      grid_tenth_3, grid_tenth_4, grid_tenth_5, grid_tenth_6, grid_tenth_7, grid_tenth_8,
      grid_tenth_9, grid_tenth_10, grid_tenth_11]
    rfl
  · rw [hn]
    simp only [grid64, grid_tenth_1, grid_tenth_2, grid_tenth_3, grid_tenth_4,
      grid_tenth_5, grid_tenth_6, grid_tenth_7, grid_tenth_8, grid_tenth_9,
      grid_tenth_10, grid_tenth_11, grid_tenth_12]

/-- At 120 bpm with resolution Quarter, started at clock time 1.5005895691609978 and ticked at
2.0027210884353743: beats 0 .. 4 are queued and two tones are started, 880 Hz at the start
time `t` and 440 Hz at 2.000589569160998, which is `t + 1/2 + 2^-52`. -/
theorem tick_quarterAt517 (fuel : Nat) (hfuel : 5 < fuel) :
    ∃ s', onWorkerMessage64 fuel clock690 quarterAt517 = .ok s' ∧
      s'.notesInQueue.map (fun e => e.note) = [0, 1, 2, 3, 4] ∧
      (tonesOf s').map (fun t => (t.frequency, t.startTime))
        = [(880, clock517), (440, clock517 + 1 / 2 + 1 / 2 ^ 52)] := by
  have ht : quarterAt517.nextNoteTime = clock517 := rfl
  have hT : quarterAt517.tempo = 120 := rfl
  have hr : quarterAt517.noteResolution = 2 := rfl
  obtain ⟨s', hs', hq, -, -, -, htones⟩ :=
    scheduler64_grid 5 fuel clock690 quarterAt517 0 rfl rfl (by norm_num)
      (fun k hk => by
        rw [ht, hT, step64_120, horizon_clock690]
        interval_cases k <;>
          simp only [grid64, clock517, grid_clock517_1, grid_clock517_2, grid_clock517_3,
            grid_clock517_4] <;> norm_num)
      (by
        rw [ht, hT, step64_120, horizon_clock690]
        simp only [grid64, clock517, grid_clock517_1, grid_clock517_2, grid_clock517_3,
          grid_clock517_4, grid_clock517_5]
        norm_num)
      (fun k _ => by
        rw [ht, hT]
        exact grid64_nonneg (by norm_num [clock517]) (step64_nonneg (by norm_num)) k)
      hfuel
  rw [ht, hT, step64_120] at hq htones
  rw [hr] at htones
  have hq0 : quarterAt517.notesInQueue = [] := rfl
  have ht0 : tonesOf quarterAt517 = [] := rfl
  rw [hq0, List.nil_append] at hq
  rw [ht0, List.nil_append] at htones
  refine ⟨s', by simp only [onWorkerMessage64]; exact hs', ?_, ?_⟩
  · rw [hq]
    simp [gridEvents64, List.range_succ]
  · rw [htones]
    simp only [gridEvents64, List.range_succ, List.range_zero, List.nil_append,
      List.cons_append, List.map_cons, List.map_nil, grid64, clock517, grid_clock517_1,
      grid_clock517_2, grid_clock517_3, grid_clock517_4, List.flatMap_cons, List.flatMap_nil,
      tonesFor64]
    norm_num

/-- At -120 bpm, started at 0 and ticked at 0: the first iteration starts the tone of beat 0
at time 0 and moves the next-note time to -0.125; the second calls `osc.start(-0.125)`. -/
theorem tick_negativeTempoPlaying (fuel : Nat) (hfuel : 2 ≤ fuel) :
    onWorkerMessage64 fuel 0 negativeTempoPlaying = .error .rangeError := by
  obtain ⟨f, rfl⟩ : ∃ f, fuel = f + 2 := ⟨fuel - 2, by omega⟩
  have hH := horizon_zero
  have hT : negativeTempoPlaying.tempo = -120 := rfl
  have ht : negativeTempoPlaying.nextNoteTime = 0 := rfl
  have hlt0 : negativeTempoPlaying.nextNoteTime < Float64.add 0 scheduleAheadTime64 := by
    rw [ht, hH]; norm_num
  rcases loop_body64 negativeTempoPlaying 0 rfl with ⟨s1, h1, -, hn, hc, hfr, -⟩ | ⟨-, hneg⟩
  · have hn' : (nextNote64 s1).nextNoteTime = -(1 / 8) := by
      rw [hn, ht, hT, step64_neg_120, Float64.add, zero_add, float64_round_neg]
      have h := float64_mul_quarter_half
      simp only [Float64.mul] at h
      rw [show (1 / 8 : ℚ) = 1 / 4 * (1 / 2) by norm_num, h]
      norm_num
    have hctx1 : (nextNote64 s1).audioContext.isSome = true := hfr.audioContext
    have hlt1 : (nextNote64 s1).nextNoteTime < Float64.add 0 scheduleAheadTime64 := by
      rw [hn', hH]; norm_num
    simp only [onWorkerMessage64]
    rw [show negativeTempoPlaying.isPlaying = true from rfl, if_pos rfl,
      scheduler64_succ_of_lt (f + 1) 0 negativeTempoPlaying s1 0 rfl rfl hlt0 h1]
    refine scheduler64_succ_of_error f 0 (nextNote64 s1) 1 _ hctx1 (by rw [hc]; rfl) hlt1 ?_
    exact scheduleNote64_of_negative _ 1 _ hctx1 hfr.noteResolution (by rw [hn']; norm_num)
  · rw [ht] at hneg
    exact absurd hneg (lt_irrefl 0)

/-- At 10^18 bpm, started at 1 and ticked at 1: the advance 1.5e-17 is absorbed by the
next-note time 1 and the loop goes on whatever the fuel. -/
theorem tick_hugeTempoPlaying (fuel : Nat) :
    onWorkerMessage64 fuel 1 hugeTempoPlaying = .error .outOfFuel := by
  have hT : hugeTempoPlaying.tempo = 10 ^ 18 := rfl
  have ht : hugeTempoPlaying.nextNoteTime = 1 := rfl
  simp only [onWorkerMessage64]
  rw [show hugeTempoPlaying.isPlaying = true from rfl, if_pos rfl]
  refine scheduler64_absorbed fuel 1 hugeTempoPlaying rfl rfl (by rw [ht]; norm_num) ?_ ?_
  · rw [ht, horizon_one]; norm_num
  · rw [ht, hT, step64_huge, float64_add_one_huge]

/-! ## The claims -/

/-- C1, the claim as stated, fails in the code's double arithmetic.  At 120 bpm, started at
clock time 1.8750113378684807 and ticked at once, the claim's `n` is 1 and the tick handling
queues the one event, but it ends with next-note time 2.0000113378684805, that is
`t + 1/8 - 2^-52`, not `t + 1 * 15 / 120`.  At 150 bpm, started at 0 and ticked at clock
time 1, the claim's `n` is 11 and the tick handling queues 12 events, the last one at
1.0999999999999999, and ends with cursor 12. -/
theorem tick_in_doubles_leaves_the_grid :
    (startedAt646.isPlaying = true ∧ startedAt646.tempo = 120 ∧
      startedAt646.current16thNote = some 0 ∧ startedAt646.nextNoteTime = clock646) ∧
    IsLeast {m : Nat | clock646 + scheduleAheadTime
      ≤ startedAt646.nextNoteTime + m * (15 / startedAt646.tempo)} 1 ∧
    (∀ fuel, 1 < fuel → ∃ s', onWorkerMessage64 fuel clock646 startedAt646 = .ok s' ∧
      s'.notesInQueue = [⟨0, clock646⟩] ∧ s'.current16thNote = some 1 ∧
      s'.nextNoteTime = clock646 + 1 / 8 - 1 / 2 ^ 52 ∧
      s'.nextNoteTime ≠ startedAt646.nextNoteTime + (1 : Nat) * (15 / startedAt646.tempo)) ∧
    (fastStarted.isPlaying = true ∧ fastStarted.tempo = 150 ∧
      fastStarted.current16thNote = some 0 ∧ fastStarted.nextNoteTime = 0) ∧
    IsLeast {m : Nat | 1 + scheduleAheadTime
      ≤ fastStarted.nextNoteTime + m * (15 / fastStarted.tempo)} 11 ∧
    (∀ fuel, 12 < fuel → ∃ s', onWorkerMessage64 fuel 1 fastStarted = .ok s' ∧
      s'.notesInQueue.map (fun e => e.note) = List.range 12 ∧
      s'.notesInQueue.getLast? = some ⟨11, 4953959590107545 / 4503599627370496⟩ ∧
      s'.current16thNote = some 12) := by
  have ht : startedAt646.nextNoteTime = clock646 := rfl
  have hT : startedAt646.tempo = 120 := rfl
  have ht' : fastStarted.nextNoteTime = 0 := rfl
  have hT' : fastStarted.tempo = 150 := rfl
  refine ⟨⟨rfl, rfl, rfl, rfl⟩, ⟨?_, ?_⟩, ?_, ⟨rfl, rfl, rfl, rfl⟩, ⟨?_, ?_⟩, ?_⟩
  · simp only [Set.mem_setOf_eq, ht, hT]
    norm_num [scheduleAheadTime]
  · intro m hm
    simp only [Set.mem_setOf_eq, ht, hT] at hm
    by_contra hlt
    obtain rfl : m = 0 := by omega
    norm_num [scheduleAheadTime] at hm
  · intro fuel hfuel
    obtain ⟨s', hs', hq, hn, hc⟩ := tick_startedAt646 fuel hfuel
    refine ⟨s', hs', hq, hc, hn, ?_⟩
    rw [hn, ht, hT]
    norm_num
  · simp only [Set.mem_setOf_eq, ht', hT']
    norm_num [scheduleAheadTime]
  · intro m hm
    simp only [Set.mem_setOf_eq, ht', hT'] at hm
    have h11 : (11 : ℚ) ≤ (m : ℚ) := by
      norm_num [scheduleAheadTime] at hm
      linarith
    exact_mod_cast h11
  · intro fuel hfuel
    obtain ⟨s', hs', hq, hl, -, hc⟩ := tick_fastStarted fuel hfuel
    exact ⟨s', hs', hq, hl, hc⟩

/-- C1, amended.  In exact arithmetic: in a Playing state with tempo `T > 0`, cursor `c` (in
`[0, 16)`), next-note time `t`, one tick handling at clock time `now` ends (given more than `n`
units of fuel) and appends to the queue exactly the events `((c + k) % 16, t + k * 15 / T)` for
`k = 0 .. n - 1` in that order, where `n` is the least natural number with
`t + n * 15 / T ≥ now + scheduleAheadTime`; it ends with next-note time `t + n * 15 / T` and
cursor `(c + n) % 16`; the appended events ascend strictly in time and each lies before
`now + scheduleAheadTime`.  In the code's double arithmetic, for a next-note time `t ≥ 0`
that is a double: with `g 0 = t`, `g (k + 1)` the double sum of `g k` and the double
`0.25 * (60.0 / T)`, and `n` the least index with `g n` not below the double sum of `now` and
`0.1`, when there is one, the tick handling ends (given more than `n` units of fuel) and appends
exactly the events `((c + k) % 16, g k)` for `k = 0 .. n - 1` in that order; it ends with
next-note time `g n` and cursor `(c + n) % 16`; the appended events do not descend in time and
each lies before the double sum of `now` and `0.1`. -/
theorem tick_flushes_due_notes (s : State) (now : ℚ) (c : Nat)
    (hplay : s.isPlaying = true) (hctx : s.audioContext.isSome = true)
    (hc : s.current16thNote = some c) (hc16 : c < 16) (hT : 0 < s.tempo) :
    (∃ n : Nat,
      IsLeast {m : Nat | now + scheduleAheadTime ≤ s.nextNoteTime + m * (15 / s.tempo)} n ∧
      (gridEvents c s.nextNoteTime (15 / s.tempo) n).Pairwise (fun a b => a.time < b.time) ∧
      (∀ e ∈ gridEvents c s.nextNoteTime (15 / s.tempo) n, e.time < now + scheduleAheadTime) ∧
      ∀ fuel, n < fuel → ∃ s', onWorkerMessage fuel now s = .ok s' ∧
        s'.notesInQueue
          = s.notesInQueue ++ (List.range n).map (fun k =>
              ({ note := (c + k) % 16, time := s.nextNoteTime + k * (15 / s.tempo) } :
                NoteEvent)) ∧
        s'.nextNoteTime = s.nextNoteTime + n * (15 / s.tempo) ∧
        s'.current16thNote = some ((c + n) % 16)) ∧
    (∀ n : Nat, 0 ≤ s.nextNoteTime → Float64.round s.nextNoteTime = s.nextNoteTime →
      IsLeast {m : Nat | Float64.add now scheduleAheadTime64
        ≤ grid64 s.nextNoteTime (step64 s.tempo) m} n →
      (gridEvents64 c s.nextNoteTime (step64 s.tempo) n).Pairwise
        (fun a b => a.time ≤ b.time) ∧
      (∀ e ∈ gridEvents64 c s.nextNoteTime (step64 s.tempo) n,
        e.time < Float64.add now scheduleAheadTime64) ∧
      ∀ fuel, n < fuel → ∃ s', onWorkerMessage64 fuel now s = .ok s' ∧
        s'.notesInQueue
          = s.notesInQueue ++ (List.range n).map (fun k =>
              ({ note := (c + k) % 16, time := grid64 s.nextNoteTime (step64 s.tempo) k } :
                NoteEvent)) ∧
        s'.nextNoteTime = grid64 s.nextNoteTime (step64 s.tempo) n ∧
        s'.current16thNote = some ((c + n) % 16)) := by
  constructor
  · classical
    have hex := exists_grid_index s.nextNoteTime (now + scheduleAheadTime) s.tempo hT
    have hlt : ∀ k < Nat.find hex,
        s.nextNoteTime + k * (15 / s.tempo) < now + scheduleAheadTime :=
      fun k hk => not_le.mp (Nat.find_min hex hk)
    refine ⟨Nat.find hex, ⟨Nat.find_spec hex, fun m hm => Nat.find_min' hex hm⟩,
      gridEvents_pairwise _ _ _ (by positivity) _, ?_, ?_⟩
    · intro e he
      obtain ⟨k, hk, rfl⟩ := mem_gridEvents he
      exact hlt k hk
    · intro fuel hfuel
      obtain ⟨s', hs', hq, ht, hcur, -⟩ :=
        scheduler_grid (Nat.find hex) fuel now s c hctx hc hc16 hlt
          (not_lt.mpr (Nat.find_spec hex)) hfuel
      exact ⟨s', by simp only [onWorkerMessage, hplay, if_true, hs'], hq, ht, hcur⟩
  · intro n h0 hrep hleast
    have hlt : ∀ k < n,
        grid64 s.nextNoteTime (step64 s.tempo) k < Float64.add now scheduleAheadTime64 := by
      intro k hk
      by_contra hge
      exact absurd (hleast.2 (not_lt.mp hge)) (by omega)
    refine ⟨gridEvents64_sorted c hrep (step64_nonneg hT) n, ?_, ?_⟩
    · intro e he
      obtain ⟨k, hk, rfl⟩ := mem_gridEvents64 he
      exact hlt k hk
    · intro fuel hfuel
      obtain ⟨s', hs', hq, ht, hcur, -⟩ :=
        scheduler64_grid n fuel now s c hctx hc hc16 hlt (not_lt.mpr hleast.1)
          (fun k _ => grid64_nonneg h0 (step64_nonneg hT) k) hfuel
      exact ⟨s', by simp only [onWorkerMessage64, hplay, if_true, hs'], hq, ht, hcur⟩

/-- Witness of C1: 120 bpm, started at clock time 1.8750113378684807 and ticked at once; in
doubles the least index is 1. -/
theorem tick_flushes_due_notes_witness :
    (startedAt646.isPlaying = true ∧ startedAt646.audioContext.isSome = true ∧
      startedAt646.current16thNote = some 0 ∧ (0 : ℚ) < startedAt646.tempo) ∧
    (0 ≤ startedAt646.nextNoteTime ∧
      Float64.round startedAt646.nextNoteTime = startedAt646.nextNoteTime ∧
      IsLeast {m : Nat | Float64.add clock646 scheduleAheadTime64
        ≤ grid64 startedAt646.nextNoteTime (step64 startedAt646.tempo) m} 1) ∧
    (∃ n : Nat,
      IsLeast {m : Nat | clock646 + scheduleAheadTime
        ≤ startedAt646.nextNoteTime + m * (15 / startedAt646.tempo)} n ∧
      ∀ fuel, n < fuel → ∃ s', onWorkerMessage fuel clock646 startedAt646 = .ok s' ∧
        s'.notesInQueue
          = startedAt646.notesInQueue ++ (List.range n).map (fun k =>
              ({ note := (0 + k) % 16,
                 time := startedAt646.nextNoteTime + k * (15 / startedAt646.tempo) } :
                NoteEvent)) ∧
        s'.nextNoteTime = startedAt646.nextNoteTime + n * (15 / startedAt646.tempo) ∧
        s'.current16thNote = some ((0 + n) % 16)) ∧
    (∀ fuel, 1 < fuel → ∃ s', onWorkerMessage64 fuel clock646 startedAt646 = .ok s' ∧
      s'.notesInQueue
        = startedAt646.notesInQueue ++ (List.range 1).map (fun k =>
            ({ note := (0 + k) % 16,
               time := grid64 startedAt646.nextNoteTime (step64 startedAt646.tempo) k } :
              NoteEvent)) ∧
      s'.nextNoteTime = grid64 startedAt646.nextNoteTime (step64 startedAt646.tempo) 1 ∧
      s'.current16thNote = some ((0 + 1) % 16)) := by
  have ht : startedAt646.nextNoteTime = clock646 := rfl
  have hT : startedAt646.tempo = 120 := rfl
  have hpos : (0 : ℚ) < startedAt646.tempo := by rw [hT]; norm_num
  have h0 : 0 ≤ startedAt646.nextNoteTime := by rw [ht]; norm_num [clock646]
  have hrep : Float64.round startedAt646.nextNoteTime = startedAt646.nextNoteTime := by
    rw [ht, round_clock646, clock646]
  have hleast : IsLeast {m : Nat | Float64.add clock646 scheduleAheadTime64
      ≤ grid64 startedAt646.nextNoteTime (step64 startedAt646.tempo) m} 1 := by
    rw [ht, hT, step64_120, horizon_clock646]
    constructor
    · simp only [Set.mem_setOf_eq, grid64, add_clock646_eighth]
      norm_num
    · intro m hm
      simp only [Set.mem_setOf_eq] at hm
      by_contra hlt
      obtain rfl : m = 0 := by omega
      norm_num [grid64, clock646] at hm
  have h := tick_flushes_due_notes startedAt646 clock646 0 rfl rfl rfl (by decide) hpos
  obtain ⟨n, hn, -, -, hrun⟩ := h.1
  exact ⟨⟨rfl, rfl, rfl, hpos⟩, ⟨h0, hrep, hleast⟩, ⟨n, hn, hrun⟩, (h.2 1 h0 hrep hleast).2.2⟩

/-- C2, the claim as stated, fails: stopped and started again within the look-ahead window
(under a non-decreasing clock and the default tempo), the queue holds the event timed 1/8 before
the event timed 3/25. -/
theorem queue_unordered_after_quick_restart :
    ClockMonotone quickRestart ∧ TempoPositive quickRestart ∧
      ∃ s, run 5 quickRestart (initial TimeWorker.initial) = .ok s ∧
        s.notesInQueue = [⟨0, 0⟩, ⟨1, 1 / 8⟩, ⟨0, 3 / 25⟩] ∧ ¬ QueueOrdered s.notesInQueue := by
  refine ⟨?_, ?_, ?_⟩
  · norm_num [ClockMonotone, quickRestart, List.filterMap_cons, Action.clock]
  · intro a ha T hT
    simp only [quickRestart, List.mem_cons, List.mem_singleton, List.not_mem_nil, or_false] at ha
    rcases ha with rfl | rfl | rfl | rfl | rfl | rfl <;> simp at hT
  · have hrun : (run 5 quickRestart (initial TimeWorker.initial)).toOption.map (·.notesInQueue)
        = some [⟨0, 0⟩, ⟨1, 1 / 8⟩, ⟨0, 3 / 25⟩] := by
      norm_num [run, step, quickRestart, onWorkerMessage, scheduler, start, stop, initial,
        scheduleNote, nextNote, scheduleAheadTime, Except.toOption]
    cases h : run 5 quickRestart (initial TimeWorker.initial) with
    | error e => rw [h] at hrun; simp [Except.toOption] at hrun
    | ok s =>
        rw [h] at hrun
        have hq : s.notesInQueue = [⟨0, 0⟩, ⟨1, 1 / 8⟩, ⟨0, 3 / 25⟩] := by
          simpa [Except.toOption] using hrun
        refine ⟨s, rfl, hq, ?_⟩
        rw [hq]
        norm_num [QueueOrdered]

/-- C2, amended: in every state reached from the initial state by calls of `start()`, `stop()`,
tick handlings, draw passes and changes to positive tempos (under a non-decreasing clock) in
which every `start()` comes at a clock time not before the time of any event then queued, each
queued event's time is at most the time of the event queued after it. -/
theorem queue_ordered_of_starts_after_queue (fuel : Nat) (acts : List Action) (s : State)
    (_hclock : ClockMonotone acts) (htempo : TempoPositive acts)
    (hstarts : StartsAfterQueue fuel acts (initial TimeWorker.initial))
    (h : run fuel acts (initial TimeWorker.initial) = .ok s) :
    QueueOrdered s.notesInQueue := by
  have hinv := run_queueInv fuel acts _ s (initial_queueInv _) htempo hstarts h
  exact hinv.sorted.chain'

/-- Witness of C2 amended: one start, two ticks, a frame, a stop and a later frame. -/
theorem queue_ordered_of_starts_after_queue_witness :
    ClockMonotone singleRun ∧ TempoPositive singleRun ∧
      StartsAfterQueue 5 singleRun (initial TimeWorker.initial) ∧
      ∃ s, run 5 singleRun (initial TimeWorker.initial) = .ok s ∧
        QueueOrdered s.notesInQueue := by
  have hclock : ClockMonotone singleRun := by
    norm_num [ClockMonotone, singleRun, List.filterMap_cons, Action.clock]
  have htempo : TempoPositive singleRun := by
    intro a ha T hT
    simp only [singleRun, List.mem_cons, List.mem_singleton, List.not_mem_nil, or_false] at ha
    rcases ha with rfl | rfl | rfl | rfl | rfl | rfl <;> simp at hT
  have hstarts : StartsAfterQueue 5 singleRun (initial TimeWorker.initial) := by
    norm_num [StartsAfterQueue, step, singleRun, onWorkerMessage, scheduler, start, stop,
      initial, scheduleNote, nextNote, scheduleAheadTime, draw, drainQueue, redraw,
      clearWhenStopped, resetStepButtons, stepCount]
  have hrun : ∃ s, run 5 singleRun (initial TimeWorker.initial) = .ok s := by
    norm_num [run, step, singleRun, onWorkerMessage, scheduler, start, stop, initial,
      scheduleNote, nextNote, scheduleAheadTime, draw, drainQueue, redraw, clearWhenStopped,
      resetStepButtons, stepCount]
  obtain ⟨s, hs⟩ := hrun
  exact ⟨hclock, htempo, hstarts, s, hs,
    queue_ordered_of_starts_after_queue 5 singleRun s hclock htempo hstarts hs⟩

/-- C3: with the tempo `T > 0` left alone, any two events queued one after the other since the
same `start()` (in one tick handling or across tick handlings at any clock times, with stops,
frames and resolution changes in between) differ in time by exactly `15 / T = 0.25 * (60 / T)`
seconds. -/
theorem consecutive_queued_times (s0 : State) (now0 : ℚ) (fuel : Nat) (acts : List Action)
    (_hT : 0 < s0.tempo) (hacts : ∀ a ∈ acts, a.isStart = false ∧ a.setsTempo = false)
    (i : Nat) (e₁ e₂ : NoteEvent)
    (h₁ : (queuedDuring fuel acts (start now0 s0))[i]? = some e₁)
    (h₂ : (queuedDuring fuel acts (start now0 s0))[i + 1]? = some e₂) :
    e₂.time - e₁.time = 15 / s0.tempo ∧ (15 / s0.tempo : ℚ) = (1 / 4) * (60 / s0.tempo) := by
  obtain ⟨n, -, hgrid⟩ := queuedDuring_grid fuel acts (start now0 s0) 0 rfl (by norm_num)
    (fun a ha => (hacts a ha).1)
  have hg := hgrid (fun a ha => (hacts a ha).2)
  rw [hg] at h₁ h₂
  have ht : (start now0 s0).tempo = s0.tempo := rfl
  rw [gridEvents_getElem? h₁, gridEvents_getElem? h₂, ht]
  constructor
  · push_cast; ring
  · ring

/-- Witness of C3: the two events queued by ticks at 0 and 0.1 after a start at 0, 120 bpm. -/
theorem consecutive_queued_times_witness :
    (0 : ℚ) < (initial TimeWorker.initial).tempo ∧
      (∀ a ∈ twoTicks, a.isStart = false ∧ a.setsTempo = false) ∧
      queuedDuring 5 twoTicks (start 0 (initial TimeWorker.initial)) = [⟨0, 0⟩, ⟨1, 1 / 8⟩] ∧
      ((1 / 8 : ℚ) - 0 = 15 / (initial TimeWorker.initial).tempo ∧
        (15 / (initial TimeWorker.initial).tempo : ℚ)
          = (1 / 4) * (60 / (initial TimeWorker.initial).tempo)) :=
  have hT : (0 : ℚ) < (initial TimeWorker.initial).tempo := by norm_num [initial]
  have hacts : ∀ a ∈ twoTicks, a.isStart = false ∧ a.setsTempo = false := by
    simp [twoTicks, Action.isStart, Action.setsTempo]
  ⟨hT, hacts, twoTicks_queued,
    consecutive_queued_times (initial TimeWorker.initial) 0 5 twoTicks hT hacts 0
      ⟨0, 0⟩ ⟨1, 1 / 8⟩ (by rw [twoTicks_queued]; rfl) (by rw [twoTicks_queued]; rfl)⟩

/-- C4: whatever the tempo and the resolution, `#nextNote` maps a cursor `c` in `[0, 16)` to
`(c + 1) % 16`; the cursor is in `[0, 16)` in every state reached after a `start()`; and the
`k`-th event queued since a `start()` has beat `k % 16`. -/
theorem cursor_cycles :
    (∀ (s : State) (c : Nat), s.current16thNote = some c → c < 16 →
      (nextNote s).current16thNote = some ((c + 1) % 16)) ∧
    (∀ (s0 : State) (now0 : ℚ) (fuel : Nat) (acts : List Action) (s' : State),
      run fuel acts (start now0 s0) = .ok s' →
      ∃ c, s'.current16thNote = some c ∧ c < 16) ∧
    (∀ (s0 : State) (now0 : ℚ) (fuel : Nat) (acts : List Action),
      (∀ a ∈ acts, a.isStart = false) →
      ∀ (k : Nat) (e : NoteEvent),
        (queuedDuring fuel acts (start now0 s0))[k]? = some e → e.note = k % 16) := by
  refine ⟨?_, ?_, ?_⟩
  · intro s c hc hc16
    simp only [nextNote, hc, Option.map_some', cursor_step c hc16]
  · intro s0 now0 fuel acts s' h
    exact run_cursor fuel acts _ s' ⟨0, rfl, by norm_num⟩ h
  · intro s0 now0 fuel acts hacts k e he
    obtain ⟨n, hnotes, -⟩ :=
      queuedDuring_grid fuel acts (start now0 s0) 0 rfl (by norm_num) hacts
    have h1 : ((queuedDuring fuel acts (start now0 s0)).map (fun e => e.note))[k]?
        = some e.note := by
      rw [List.getElem?_map, he]; rfl
    rw [hnotes, List.getElem?_map] at h1
    obtain ⟨j, hj, hjk⟩ := Option.map_eq_some'.mp h1
    obtain ⟨hlt, hj'⟩ := List.getElem?_eq_some_iff.mp hj
    rw [List.getElem_range] at hj'
    subst hj'
    simpa using hjk.symm

/-- Witness of C4: the cursor on slot 15 wraps to 0; the state after two ticks has its cursor
in range; the second event queued after a start has beat 1. -/
theorem cursor_cycles_witness :
    (sampleAtLastSlot.current16thNote = some 15 ∧
      (nextNote sampleAtLastSlot).current16thNote = some ((15 + 1) % 16)) ∧
    (∀ s', run 5 twoTicks (start 0 (initial TimeWorker.initial)) = .ok s' →
      ∃ c, s'.current16thNote = some c ∧ c < 16) ∧
    ((queuedDuring 5 twoTicks (start 0 (initial TimeWorker.initial)))[1]? = some ⟨1, 1 / 8⟩ ∧
      (⟨1, 1 / 8⟩ : NoteEvent).note = 1 % 16) :=
  have hq : (queuedDuring 5 twoTicks (start 0 (initial TimeWorker.initial)))[1]?
      = some ⟨1, 1 / 8⟩ := by rw [twoTicks_queued]; rfl
  ⟨⟨rfl, cursor_cycles.1 sampleAtLastSlot 15 rfl (by decide)⟩,
    fun s' h => cursor_cycles.2.1 (initial TimeWorker.initial) 0 5 twoTicks s' h,
    hq, cursor_cycles.2.2 (initial TimeWorker.initial) 0 5 twoTicks
      (by simp [twoTicks, Action.isStart]) 1 ⟨1, 1 / 8⟩ hq⟩

/-- C5: with an audio context and a resolution among Sixteenth (0), Eighth (1), Quarter (2),
`#scheduleNote` starts a tone for beat `b` iff the resolution is 0, or it is 1 and `b % 2 = 0`,
or it is 2 and `b % 4 = 0`; over the 16 beats of a cycle the audible ones are all 16, the 8 even
ones, and 0, 4, 8, 12 respectively. -/
theorem audible_iff_resolution_admits (s : State) (time : ℚ)
    (hctx : s.audioContext.isSome = true) (hres : s.noteResolution ≤ 2) :
    (∀ b : Nat, emitted s b time ≠ [] ↔
      (s.noteResolution = 0 ∨ (s.noteResolution = 1 ∧ b % 2 = 0) ∨
        (s.noteResolution = 2 ∧ b % 4 = 0))) ∧
    (s.noteResolution = 0 →
      (List.range 16).filter (fun b => decide (emitted s b time ≠ [])) = List.range 16) ∧
    (s.noteResolution = 1 →
      (List.range 16).filter (fun b => decide (emitted s b time ≠ []))
        = [0, 2, 4, 6, 8, 10, 12, 14]) ∧
    (s.noteResolution = 2 →
      (List.range 16).filter (fun b => decide (emitted s b time ≠ [])) = [0, 4, 8, 12]) := by
  obtain ⟨ctx, hctx'⟩ := Option.isSome_iff_exists.mp hctx
  have hiff : ∀ b : Nat, emitted s b time ≠ [] ↔
      (s.noteResolution = 0 ∨ (s.noteResolution = 1 ∧ b % 2 = 0) ∨
        (s.noteResolution = 2 ∧ b % 4 = 0)) := by
    intro b
    rw [emitted_eq s ctx hctx' b time]
    by_cases h : (s.noteResolution = 1 ∧ b % 2 ≠ 0) ∨ (s.noteResolution = 2 ∧ b % 4 ≠ 0)
    · rw [if_pos h]
      simp only [ne_eq, not_true_eq_false, false_iff]
      omega
    · rw [if_neg h]
      simp only [ne_eq, List.cons_ne_nil, not_false_eq_true, true_iff]
      omega
  refine ⟨hiff, fun h0 => ?_, fun h1 => ?_, fun h2 => ?_⟩
  · simp only [hiff, h0]
    decide
  · simp only [hiff, h1]
    decide
  · simp only [hiff, h2]
    decide

/-- Witness of C5: the sample state (resolution 0). -/
theorem audible_iff_resolution_admits_witness :
    (sampleStarted.audioContext.isSome = true ∧ sampleStarted.noteResolution ≤ 2) ∧
    ((∀ b : Nat, emitted sampleStarted b 0 ≠ [] ↔
      (sampleStarted.noteResolution = 0 ∨ (sampleStarted.noteResolution = 1 ∧ b % 2 = 0) ∨
        (sampleStarted.noteResolution = 2 ∧ b % 4 = 0))) ∧
    (sampleStarted.noteResolution = 0 →
      (List.range 16).filter (fun b => decide (emitted sampleStarted b 0 ≠ []))
        = List.range 16) ∧
    (sampleStarted.noteResolution = 1 →
      (List.range 16).filter (fun b => decide (emitted sampleStarted b 0 ≠ []))
        = [0, 2, 4, 6, 8, 10, 12, 14]) ∧
    (sampleStarted.noteResolution = 2 →
      (List.range 16).filter (fun b => decide (emitted sampleStarted b 0 ≠ []))
        = [0, 4, 8, 12])) :=
  ⟨⟨rfl, by decide⟩, audible_iff_resolution_admits sampleStarted 0 rfl (by decide)⟩

/-- C6: every tone `#scheduleNote` starts for beat `b` has frequency 880 when `b % 16 = 0`, 440
when `b % 4 = 0` and `b % 16 ≠ 0`, and 220 otherwise; it starts at the event's time and stops
`noteLength` = 0.05 s later, whatever the tempo. -/
theorem tone_pitch_and_length (s : State) (b : Nat) (time : ℚ) (tone : Tone)
    (h : tone ∈ emitted s b time) :
    (b % 16 = 0 → tone.frequency = 880) ∧
    (b % 4 = 0 → b % 16 ≠ 0 → tone.frequency = 440) ∧
    (b % 4 ≠ 0 → tone.frequency = 220) ∧
    tone.startTime = time ∧ tone.stopTime = time + 1 / 20 := by
  cases hctx : s.audioContext with
  | none => rw [emitted_of_no_context s hctx] at h; cases h
  | some ctx =>
      rw [emitted_eq s ctx hctx] at h
      split_ifs at h with hf h16 h4
      · cases h
      · obtain rfl := List.mem_singleton.mp h
        exact ⟨fun _ => rfl, fun _ h' => absurd h16 h', fun h' => by omega, rfl, rfl⟩
      · obtain rfl := List.mem_singleton.mp h
        exact ⟨fun h' => absurd h' h16, fun _ _ => rfl, fun h' => absurd h4 h', rfl, rfl⟩
      · obtain rfl := List.mem_singleton.mp h
        exact ⟨fun h' => absurd h' h16, fun h' => absurd h' h4, fun _ => rfl, rfl, rfl⟩

/-- Witness of C6: beat 4 at time 1/2 gets the 440 Hz tone, from 1/2 to 1/2 + 1/20. -/
theorem tone_pitch_and_length_witness :
    (⟨440, 1 / 2, 1 / 2 + 1 / 20⟩ : Tone) ∈ emitted sampleStarted 4 (1 / 2) ∧
    ((4 % 16 = 0 → (⟨440, 1 / 2, 1 / 2 + 1 / 20⟩ : Tone).frequency = 880) ∧
    (4 % 4 = 0 → 4 % 16 ≠ 0 → (⟨440, 1 / 2, 1 / 2 + 1 / 20⟩ : Tone).frequency = 440) ∧
    (4 % 4 ≠ 0 → (⟨440, 1 / 2, 1 / 2 + 1 / 20⟩ : Tone).frequency = 220) ∧
    (⟨440, 1 / 2, 1 / 2 + 1 / 20⟩ : Tone).startTime = 1 / 2 ∧
    (⟨440, 1 / 2, 1 / 2 + 1 / 20⟩ : Tone).stopTime = 1 / 2 + 1 / 20) :=
  have h : (⟨440, 1 / 2, 1 / 2 + 1 / 20⟩ : Tone) ∈ emitted sampleStarted 4 (1 / 2) := by
    rw [emitted_eq sampleStarted ⟨[]⟩ rfl]
    norm_num [sampleStarted, start, initial, noteLength]
  ⟨h, tone_pitch_and_length sampleStarted 4 (1 / 2) ⟨440, 1 / 2, 1 / 2 + 1 / 20⟩ h⟩

/-- C7, the claim as stated, fails: an event due exactly at the clock time of the draw pass
(time 0 ≤ now = 0) is not popped, it stays the oldest queued event, and the displayed beat
stays -1. -/
theorem draw_keeps_event_due_now :
    dueNow.audioContext.isSome = true ∧ QueueOrdered dueNow.notesInQueue ∧
      dueNow.notesInQueue = [⟨0, 0⟩] ∧ dueNow.last16thNoteDrawn = -1 ∧
      ∃ s', draw 0 dueNow = .ok s' ∧ s'.notesInQueue = [⟨0, 0⟩] ∧
        s'.last16thNoteDrawn = -1 := by
  refine ⟨rfl, ?_, rfl, rfl, ?_⟩
  · simp [QueueOrdered, dueNow]
  · have hr : redraw (drainQueue 0 dueNow.notesInQueue dueNow.last16thNoteDrawn).1
        { dueNow with
          notesInQueue := (drainQueue 0 dueNow.notesInQueue dueNow.last16thNoteDrawn).2 }
        = .ok dueNow := by
      norm_num [dueNow, sampleStarted, start, initial, drainQueue, redraw]
    refine ⟨_, draw_of_redraw rfl hr, ?_, ?_⟩
    · rw [(clearWhenStopped_frame dueNow).2.1]; rfl
    · rw [(clearWhenStopped_frame dueNow).2.2]; rfl

/-- C7, amended: on a queue that is non-decreasing by time (of beats that have a step button)
and with the clock initialised, a draw pass at clock time `now` ends and pops exactly the queued
events whose time is `< now`, so that afterwards the oldest remaining event, if any, has time
`≥ now`; the most recently sounded beat, which becomes the displayed beat, is the beat of the
last popped event, or the previously displayed beat when nothing was popped. -/
theorem draw_pops_passed_events (s : State) (now : ℚ)
    (hctx : s.audioContext.isSome = true) (hord : QueueOrdered s.notesInQueue)
    (hnotes : ∀ e ∈ s.notesInQueue, e.note < stepCount) :
    ∃ s', draw now s = .ok s' ∧
      s.notesInQueue
        = s.notesInQueue.filter (fun e => decide (e.time < now)) ++ s'.notesInQueue ∧
      s'.notesInQueue = s.notesInQueue.filter (fun e => decide (now ≤ e.time)) ∧
      (∀ e, s'.notesInQueue.head? = some e → now ≤ e.time) ∧
      (drainQueue now s.notesInQueue s.last16thNoteDrawn).1
        = (((s.notesInQueue.filter (fun e => decide (e.time < now))).getLast?).map
            (fun e => (e.note : Int))).getD s.last16thNoteDrawn ∧
      s'.last16thNoteDrawn = (drainQueue now s.notesInQueue s.last16thNoteDrawn).1 := by
  obtain ⟨htake, hdrop⟩ :=
    sorted_takeWhile_dropWhile now s.notesInQueue ((queueOrdered_iff_pairwise _).mp hord)
  have hdrain := drainQueue_eq now s.notesInQueue s.last16thNoteDrawn
  rw [htake, hdrop] at hdrain
  have hcur : (drainQueue now s.notesInQueue s.last16thNoteDrawn).1
      = s.last16thNoteDrawn ∨
      (0 ≤ (drainQueue now s.notesInQueue s.last16thNoteDrawn).1 ∧
        (drainQueue now s.notesInQueue s.last16thNoteDrawn).1 < stepCount) := by
    rw [hdrain]
    cases hl : (s.notesInQueue.filter (fun e => decide (e.time < now))).getLast? with
    | none => exact Or.inl rfl
    | some e =>
        have he : e ∈ s.notesInQueue :=
          List.mem_of_mem_filter (List.mem_of_getLast?_eq_some hl)
        have := hnotes e he
        exact Or.inr ⟨by simp, by simpa using this⟩
  obtain ⟨s1, hr⟩ := redraw_total _
    { s with notesInQueue := (drainQueue now s.notesInQueue s.last16thNoteDrawn).2 } hcur
  obtain ⟨-, hq1, hl1⟩ := redraw_ok hr
  obtain ⟨-, hq2, hl2⟩ := clearWhenStopped_frame s1
  have hq : (clearWhenStopped s1).notesInQueue
      = s.notesInQueue.filter (fun e => decide (now ≤ e.time)) := by
    rw [hq2, hq1, hdrain]
  refine ⟨clearWhenStopped s1, draw_of_redraw hctx hr, ?_, hq, ?_, ?_, ?_⟩
  · rw [hq, ← htake, ← hdrop, List.takeWhile_append_dropWhile]
  · intro e he
    rw [hq] at he
    have := List.of_mem_filter (List.mem_of_mem_head? he)
    simpa using this
  · rw [hdrain]
  · rw [hl2, hl1]

/-- Witness of C7 amended: of three events timed 0, 1/8, 1/4 a pass at 1/5 pops the first two
and displays beat 1. -/
theorem draw_pops_passed_events_witness :
    (threeQueued.audioContext.isSome = true ∧ QueueOrdered threeQueued.notesInQueue ∧
      ∀ e ∈ threeQueued.notesInQueue, e.note < stepCount) ∧
    ∃ s', draw (1 / 5) threeQueued = .ok s' ∧
      threeQueued.notesInQueue
        = threeQueued.notesInQueue.filter (fun e => decide (e.time < 1 / 5))
            ++ s'.notesInQueue ∧
      s'.notesInQueue = threeQueued.notesInQueue.filter (fun e => decide (1 / 5 ≤ e.time)) ∧
      (∀ e, s'.notesInQueue.head? = some e → 1 / 5 ≤ e.time) ∧
      (drainQueue (1 / 5) threeQueued.notesInQueue threeQueued.last16thNoteDrawn).1
        = (((threeQueued.notesInQueue.filter (fun e => decide (e.time < 1 / 5))).getLast?).map
            (fun e => (e.note : Int))).getD threeQueued.last16thNoteDrawn ∧
      s'.last16thNoteDrawn
        = (drainQueue (1 / 5) threeQueued.notesInQueue threeQueued.last16thNoteDrawn).1 :=
  have hord : QueueOrdered threeQueued.notesInQueue := by
    norm_num [QueueOrdered, threeQueued]
  have hnotes : ∀ e ∈ threeQueued.notesInQueue, e.note < stepCount := by
    simp [threeQueued, stepCount]
  ⟨⟨rfl, hord, hnotes⟩, draw_pops_passed_events threeQueued (1 / 5) rfl hord hnotes⟩

/-- C8, the claim as stated, fails: `setTempo(-5)` and `tempoChange(0)` are stored, and the
object then started plays with tempo -5. -/
theorem nonpositive_tempo_is_stored :
    (initial TimeWorker.initial).tempo = 120 ∧
      (setTempo (-5) (initial TimeWorker.initial)).tempo = -5 ∧
      (tempoInput (-5) (initial TimeWorker.initial)).tempo = -5 ∧
      sampleStarted.tempo = 120 ∧ (tempoChange 0 sampleStarted).tempo = 0 ∧
      (tempoInput 0 sampleStarted).tempo = 0 ∧
      ∃ s, run 5 [.setTempo (-5), .start 0] (initial TimeWorker.initial) = .ok s ∧
        s.isPlaying = true ∧ s.tempo = -5 :=
  ⟨rfl, rfl, rfl, rfl, rfl, rfl, _, rfl, rfl, rfl⟩

/-- C8, amended: `setTempo(bpm)` and `tempoChange(bpm)`, also when called by the tempo control
of the page, store every `bpm`, also `bpm ≤ 0`, and have no failure; in every state reached from the initial state (120 bpm) by calls that set
positive tempos only, the tempo the scheduler reads is strictly positive. -/
theorem tempo_stored_as_given :
    (∀ (bpm : ℚ) (s : State), (setTempo bpm s).tempo = bpm ∧ (tempoChange bpm s).tempo = bpm ∧
      (tempoInput bpm s).tempo = bpm) ∧
    (∀ (fuel : Nat) (acts : List Action) (s' : State), TempoPositive acts →
      run fuel acts (initial TimeWorker.initial) = .ok s' → 0 < s'.tempo) :=
  ⟨fun _ s => ⟨rfl, rfl, by unfold tempoInput; split <;> rfl⟩, fun fuel acts s' htempo h =>
    run_tempo_pos fuel acts _ s' (by norm_num [initial]) htempo h⟩

/-- Witness of C8 amended: tempo 90 set while stopped, 60 while playing. -/
theorem tempo_stored_as_given_witness :
    ((setTempo 90 (initial TimeWorker.initial)).tempo = 90 ∧
      (tempoChange 60 sampleStarted).tempo = 60) ∧
    TempoPositive tempoRun ∧
    ∃ s', run 5 tempoRun (initial TimeWorker.initial) = .ok s' ∧ 0 < s'.tempo := by
  have htempo : TempoPositive tempoRun := by
    intro a ha T hT
    simp only [tempoRun, List.mem_cons, List.mem_singleton, List.not_mem_nil, or_false] at ha
    rcases ha with rfl | rfl | rfl | rfl | rfl <;> simp at hT <;> subst hT <;> norm_num
  have hrun : ∃ s', run 5 tempoRun (initial TimeWorker.initial) = .ok s' := by
    norm_num [run, step, tempoRun, onWorkerMessage, scheduler, start, setTempo, tempoChange,
      initial, scheduleNote, nextNote, scheduleAheadTime]
  obtain ⟨s', hs'⟩ := hrun
  exact ⟨⟨(tempo_stored_as_given.1 90 (initial TimeWorker.initial)).1,
      (tempo_stored_as_given.1 60 sampleStarted).2.1⟩,
    htempo, s', hs', tempo_stored_as_given.2 5 tempoRun s' htempo hs'⟩

/-- C9, the code at the failing input: without `window.Worker` the constructor logs the warning
and then throws a `TypeError` (no object is built); with it, it builds the initial object and
logs nothing. -/
theorem construct_without_worker_throws :
    construct false = (["Web Worker not available."], .error .typeError) ∧
      construct true = ([], .ok (initial TimeWorker.initial)) :=
  ⟨rfl, rfl⟩

/-- C10, the code at the failing input: a second `'start'` arms a second timer and leaves the
first one live, out of reach of `timerId`; a `'stop'` after that clears the second only. -/
theorem second_start_leaves_two_timers :
    (TimeWorker.receive [.start, .start] TimeWorker.initial).liveTimers
        = [(1, 100), (2, 100)] ∧
      (TimeWorker.receive [.start, .start] TimeWorker.initial).timerId = some 2 ∧
      (TimeWorker.receive [.start, .start, .stop] TimeWorker.initial).liveTimers
        = [(1, 100)] ∧
      (TimeWorker.receive [.start, .start, .stop] TimeWorker.initial).timerId = none := by
  simp [TimeWorker.receive, TimeWorker.onmessage, TimeWorker.setInterval,
    TimeWorker.clearInterval, TimeWorker.initial]

/-- C11: whatever the state (residual queue, cursor, next-note time, tempo), `start()` at clock
time `now` gives a state that is playing, with cursor 0 and next-note time `now`, and with the
queue and the tempo it had. -/
theorem start_resets_cursor_and_time (s : State) (now : ℚ) :
    (start now s).isPlaying = true ∧ (start now s).current16thNote = some 0 ∧
      (start now s).nextNoteTime = now ∧ (start now s).notesInQueue = s.notesInQueue ∧
      (start now s).tempo = s.tempo :=
  ⟨rfl, rfl, rfl, rfl, rfl⟩

/-- C12, the claim as stated, fails in the code's double arithmetic: changed from 60 to 120 bpm
while playing with next-note time 1.8750113378684807, the next advance takes the next-note
time to 2.0000113378684805: the increase is `15 / 120 - 2^-52` (0.12499999999999978), not
`15 / 120`. -/
theorem advance_after_tempo_change_is_rounded :
    (slowAt646.isPlaying = true ∧ slowAt646.tempo = 60 ∧
      slowAt646.nextNoteTime = clock646) ∧
    (tempoChange 120 slowAt646).nextNoteTime = clock646 ∧
    (nextNote64 (tempoChange 120 slowAt646)).nextNoteTime
      - (tempoChange 120 slowAt646).nextNoteTime = 15 / 120 - 1 / 2 ^ 52 ∧
    (nextNote64 (tempoChange 120 slowAt646)).nextNoteTime
      - (tempoChange 120 slowAt646).nextNoteTime ≠ 15 / 120 := by
  have hn : (nextNote64 (tempoChange 120 slowAt646)).nextNoteTime
      = Float64.add clock646 (step64 120) := rfl
  have ht : (tempoChange 120 slowAt646).nextNoteTime = clock646 := rfl
  rw [hn, ht, step64_120, add_clock646_eighth]
  refine ⟨⟨rfl, rfl, rfl⟩, rfl, ?_, ?_⟩ <;> norm_num [clock646]

/-- C12, amended: a tempo change to `T2 > 0` (`tempoChange`, `setTempo`, or the tempo control
of the page) leaves the queue, the cursor and the next-note time as they were; in exact
arithmetic every advance made with that tempo adds exactly `15 / T2` to the next-note time,
whatever the tempo was before, and the events queued after the change, until the next
`start()` or tempo change, are `15 / T2` apart, the first one at the next-note time of the
change. -/
theorem tempo_change_takes_effect_on_next_advance (s : State) (T2 : ℚ) (c : Nat)
    (hplay : s.isPlaying = true) (hc : s.current16thNote = some c) (hc16 : c < 16)
    (_hT2 : 0 < T2) :
    ((tempoChange T2 s).notesInQueue = s.notesInQueue ∧
      (tempoChange T2 s).current16thNote = s.current16thNote ∧
      (tempoChange T2 s).nextNoteTime = s.nextNoteTime ∧
      (setTempo T2 s).notesInQueue = s.notesInQueue ∧
      (setTempo T2 s).current16thNote = s.current16thNote ∧
      (setTempo T2 s).nextNoteTime = s.nextNoteTime ∧
      tempoInput T2 s = tempoChange T2 s) ∧
    (∀ t : State, t.tempo = T2 → (nextNote t).nextNoteTime = t.nextNoteTime + 15 / T2) ∧
    (∀ (fuel : Nat) (acts : List Action),
      (∀ a ∈ acts, a.isStart = false ∧ a.setsTempo = false) →
      ∀ (i : Nat) (e : NoteEvent),
        (queuedDuring fuel acts (tempoChange T2 s))[i]? = some e →
        e.time = s.nextNoteTime + i * (15 / T2)) := by
  refine ⟨⟨rfl, rfl, rfl, rfl, rfl, rfl, by simp [tempoInput, hplay]⟩, ?_, ?_⟩
  · intro t ht
    simp only [nextNote, ht]
    ring
  · intro fuel acts hacts i e he
    obtain ⟨n, -, hgrid⟩ := queuedDuring_grid fuel acts (tempoChange T2 s) c hc hc16
      (fun a ha => (hacts a ha).1)
    rw [hgrid (fun a ha => (hacts a ha).2)] at he
    rw [gridEvents_getElem? he]
    rfl

/-- Witness of C12: 60 bpm changed to 120 bpm while playing; the advance adds 1/8 s. -/
theorem tempo_change_takes_effect_on_next_advance_witness :
    (slowPlaying.isPlaying = true ∧ slowPlaying.current16thNote = some 0 ∧
      slowPlaying.tempo = 60 ∧ (0 : ℚ) < 120) ∧
    (nextNote (tempoChange 120 slowPlaying)).nextNoteTime
      = (tempoChange 120 slowPlaying).nextNoteTime + 1 / 8 ∧
    (queuedDuring 5 twoTicks (tempoChange 120 slowPlaying))[1]? = some ⟨1, 1 / 8⟩ ∧
    (1 / 8 : ℚ) = slowPlaying.nextNoteTime + (1 : Nat) * (15 / 120) := by
  have hq : (queuedDuring 5 twoTicks (tempoChange 120 slowPlaying))[1]? = some ⟨1, 1 / 8⟩ := by
    have : queuedDuring 5 twoTicks (tempoChange 120 slowPlaying) = [⟨0, 0⟩, ⟨1, 1 / 8⟩] := by
      norm_num [queuedDuring, queuedBy, twoTicks, step, onWorkerMessage, scheduler, start,
        initial, setTempo, tempoChange, slowPlaying, scheduleNote, nextNote, scheduleAheadTime]
    rw [this]; rfl
  have h := tempo_change_takes_effect_on_next_advance slowPlaying 120 0 rfl rfl (by decide)
    (by norm_num)
  refine ⟨⟨rfl, rfl, rfl, by norm_num⟩, ?_, hq, ?_⟩
  · rw [h.2.1 (tempoChange 120 slowPlaying) rfl]; norm_num
  · exact h.2.2 5 twoTicks (by simp [twoTicks, Action.isStart, Action.setsTempo]) 1 _ hq

/-- C14: `stop()` twice gives the state `stop()` once gives, for every state of the object and
of its worker: not playing, the worker's timer id cleared; and `stop()` leaves the queue, the
cursor, the next-note time and the tempo as they were. -/
theorem stop_idempotent (s : State) :
    stop (stop s) = stop s ∧ (stop s).isPlaying = false ∧
      (stop s).timeWorker.timerId = none ∧
      TimeWorker.onmessage .stop (TimeWorker.onmessage .stop s.timeWorker)
        = TimeWorker.onmessage .stop s.timeWorker ∧
      (stop s).notesInQueue = s.notesInQueue ∧
      (stop s).current16thNote = s.current16thNote ∧
      (stop s).nextNoteTime = s.nextNoteTime ∧ (stop s).tempo = s.tempo := by
  have hw : TimeWorker.onmessage .stop (TimeWorker.onmessage .stop s.timeWorker)
      = TimeWorker.onmessage .stop s.timeWorker := by
    simp [TimeWorker.onmessage, TimeWorker.clearInterval]
  refine ⟨?_, rfl, rfl, hw, rfl, rfl, rfl, rfl⟩
  simp only [stop, hw]

/-- C13: in a stopped state (whose queued beats have step buttons) one draw pass ends with no
step highlighted, also when that very pass has popped residual events and displayed a new beat
(the displayed beat and the queue are those the loop of the pass leaves). -/
theorem stopped_draw_clears_highlight (s : State) (now : ℚ) (hstop : s.isPlaying = false)
    (hnotes : ∀ e ∈ s.notesInQueue, e.note < stepCount) :
    ∃ s', draw now s = .ok s' ∧ s'.stepButtons = [] ∧ s'.isPlaying = false ∧
      (s.audioContext.isSome = true →
        s'.notesInQueue = (drainQueue now s.notesInQueue s.last16thNoteDrawn).2 ∧
        s'.last16thNoteDrawn = (drainQueue now s.notesInQueue s.last16thNoteDrawn).1) := by
  cases hctx : s.audioContext with
  | none =>
      exact ⟨clearWhenStopped s, by simp [draw, hctx], clearWhenStopped_of_stopped s hstop,
        (clearWhenStopped_frame s).1.isPlaying.trans hstop, fun h => by simp at h⟩
  | some ctx =>
      have hsome : s.audioContext.isSome = true := by simp [hctx]
      obtain ⟨s1, hr⟩ := redraw_total _
        { s with notesInQueue := (drainQueue now s.notesInQueue s.last16thNoteDrawn).2 }
        (drainQueue_fst_cases now s.notesInQueue s.last16thNoteDrawn hnotes)
      obtain ⟨hf1, hq1, hl1⟩ := redraw_ok hr
      obtain ⟨hf2, hq2, hl2⟩ := clearWhenStopped_frame s1
      have hp1 : s1.isPlaying = false := hf1.isPlaying.trans hstop
      exact ⟨clearWhenStopped s1, draw_of_redraw hsome hr, clearWhenStopped_of_stopped s1 hp1,
        hf2.isPlaying.trans hp1, fun _ => ⟨hq2.trans hq1, hl2.trans hl1⟩⟩

/-- Witness of C13: stopped with beat 1 queued at 1/8 s and step 0 lit; the pass at 1/5 s pops
the event, displays beat 1 and leaves no step lit. -/
theorem stopped_draw_clears_highlight_witness :
    (stoppedWithResidue.isPlaying = false ∧
      (∀ e ∈ stoppedWithResidue.notesInQueue, e.note < stepCount) ∧
      stoppedWithResidue.stepButtons = [(0, .blink4th)] ∧
      drainQueue (1 / 5) stoppedWithResidue.notesInQueue stoppedWithResidue.last16thNoteDrawn
        = (1, [])) ∧
    ∃ s', draw (1 / 5) stoppedWithResidue = .ok s' ∧ s'.stepButtons = [] ∧
      s'.isPlaying = false ∧
      (stoppedWithResidue.audioContext.isSome = true →
        s'.notesInQueue = (drainQueue (1 / 5) stoppedWithResidue.notesInQueue
          stoppedWithResidue.last16thNoteDrawn).2 ∧
        s'.last16thNoteDrawn = (drainQueue (1 / 5) stoppedWithResidue.notesInQueue
          stoppedWithResidue.last16thNoteDrawn).1) :=
  have hnotes : ∀ e ∈ stoppedWithResidue.notesInQueue, e.note < stepCount := by
    simp [stoppedWithResidue, stepCount]
  ⟨⟨rfl, hnotes, rfl, by norm_num [stoppedWithResidue, drainQueue]⟩,
    stopped_draw_clears_highlight stoppedWithResidue (1 / 5) rfl hnotes⟩

/-- C17: the highlight update of a draw pass, for a most recently sounded beat `b` (with a
step button) that is not the displayed beat, removes every highlight, highlights step `b` alone,
with `blink-4th` iff `b % 4 = 0` and `blink-16th` otherwise, and records `b` as the displayed
beat; for `b` the displayed beat it changes nothing.  A draw pass of a playing object ends with
the highlights this update leaves. -/
theorem highlight_follows_sounded_beat (s : State) (b : Nat) (hb : b < stepCount) :
    ((b : Int) ≠ s.last16thNoteDrawn →
      ∃ s', redraw b s = .ok s' ∧
        s'.stepButtons = [(b, if b % 4 = 0 then .blink4th else .blink16th)] ∧
        s'.last16thNoteDrawn = b) ∧
    ((b : Int) = s.last16thNoteDrawn → redraw b s = .ok s) ∧
    (∀ now : ℚ, s.isPlaying = true → s.audioContext.isSome = true →
      (drainQueue now s.notesInQueue s.last16thNoteDrawn).1 = b →
      ∃ s1 s', redraw b
          { s with notesInQueue := (drainQueue now s.notesInQueue s.last16thNoteDrawn).2 }
            = .ok s1 ∧
        draw now s = .ok s' ∧ s'.stepButtons = s1.stepButtons ∧
        s'.last16thNoteDrawn = s1.last16thNoteDrawn) := by
  have hb' : (0 : Int) ≤ b ∧ (b : Int) < stepCount := ⟨by simp, by exact_mod_cast hb⟩
  refine ⟨fun hne => ?_, fun heq => redraw_of_eq b s heq.symm, fun now hplay hctx hcur => ?_⟩
  · refine ⟨_, redraw_of_ne b s (Ne.symm hne) hb', ?_, rfl⟩
    have h4 : ((b : Int) % 4 ≠ 0) ↔ ¬ b % 4 = 0 := by omega
    by_cases hm : b % 4 = 0
    · simp [hm, h4]
    · simp [hm, h4]
  · obtain ⟨s1, hr⟩ := redraw_total (b : Int)
      { s with notesInQueue := (drainQueue now s.notesInQueue s.last16thNoteDrawn).2 }
      (Or.inr hb')
    have hp1 : s1.isPlaying = true := (redraw_ok hr).1.isPlaying.trans hplay
    have hd : draw now s = .ok (clearWhenStopped s1) := by
      apply draw_of_redraw hctx
      rw [hcur]
      exact hr
    rw [clearWhenStopped_of_playing s1 hp1] at hd
    exact ⟨s1, s1, hr, hd, rfl, rfl⟩

/-- Witness of C17: beat 3 displayed; the pass at 3/5 s pops beat 4 and lights step 4 alone,
with `blink-4th`. -/
theorem highlight_follows_sounded_beat_witness :
    (4 < stepCount ∧ showingBeatThree.stepButtons = [(3, .blink16th)] ∧
      ((4 : Nat) : Int) ≠ showingBeatThree.last16thNoteDrawn) ∧
    (∃ s', redraw (4 : Nat) showingBeatThree = .ok s' ∧
        s'.stepButtons = [(4, if 4 % 4 = 0 then .blink4th else .blink16th)] ∧
        s'.last16thNoteDrawn = (4 : Nat)) ∧
    (∃ s1 s', redraw (4 : Nat)
          { showingBeatThree with notesInQueue :=
              (drainQueue (3 / 5) showingBeatThree.notesInQueue
                showingBeatThree.last16thNoteDrawn).2 } = .ok s1 ∧
        draw (3 / 5) showingBeatThree = .ok s' ∧ s'.stepButtons = s1.stepButtons ∧
        s'.last16thNoteDrawn = s1.last16thNoteDrawn) :=
  have hne : ((4 : Nat) : Int) ≠ showingBeatThree.last16thNoteDrawn := by
    simp [showingBeatThree]
  have hcur : (drainQueue (3 / 5) showingBeatThree.notesInQueue
      showingBeatThree.last16thNoteDrawn).1 = (4 : Nat) := by
    norm_num [showingBeatThree, drainQueue]
  ⟨⟨by decide, rfl, hne⟩,
    (highlight_follows_sounded_beat showingBeatThree 4 (by decide)).1 hne,
    (highlight_follows_sounded_beat showingBeatThree 4 (by decide)).2.2 (3 / 5) rfl rfl hcur⟩

/-- C18, the code at the failing input: after a first beat was drawn, a stop, a frame (which
clears step 0 but keeps 0 as the displayed beat) and a restart, the draw pass that pops the new
first beat 0 while playing leaves no step highlighted. -/
theorem first_beat_after_restart_not_highlighted :
    ∃ s, run 5 restartOnBeatZero (initial TimeWorker.initial) = .ok s ∧
      s.isPlaying = true ∧ s.notesInQueue = [⟨0, 1⟩] ∧ s.last16thNoteDrawn = 0 ∧
      ∃ s', draw (101 / 100) s = .ok s' ∧ s'.notesInQueue = [] ∧ s'.isPlaying = true ∧
        s'.stepButtons = [] := by
  norm_num [run, step, restartOnBeatZero, onWorkerMessage, scheduler, start, stop, initial,
    scheduleNote, nextNote, scheduleAheadTime, draw, drainQueue, redraw, clearWhenStopped,
    resetStepButtons, stepCount]

/-- C15: the queue does not depend on the resolution.  For a state and the state that differs
from it in the resolution only, a tick handling at the same clock time either ends in both,
with the same queue, cursor and next-note time, or ends in neither, with the same fault. -/
theorem queue_independent_of_resolution (s : State) (r : Nat) (fuel : Nat) (now : ℚ) :
    (∀ s', onWorkerMessage fuel now s = .ok s' →
      ∃ t', onWorkerMessage fuel now (setResolution r s) = .ok t' ∧
        t'.notesInQueue = s'.notesInQueue ∧ t'.current16thNote = s'.current16thNote ∧
        t'.nextNoteTime = s'.nextNoteTime) ∧
    (∀ e, onWorkerMessage fuel now s = .error e →
      onWorkerMessage fuel now (setResolution r s) = .error e) := by
  have hag : SchedAgree s (setResolution r s) := ⟨rfl, rfl, rfl, rfl, rfl, rfl⟩
  have h := onWorkerMessage_agree fuel now s (setResolution r s) hag
  constructor
  · intro s' hs'
    rw [hs'] at h
    cases ht : onWorkerMessage fuel now (setResolution r s) with
    | error e => rw [ht] at h; exact absurd h (by simp [OutcomeAgree])
    | ok t' =>
        rw [ht] at h
        have h' : SchedAgree s' t' := h
        exact ⟨t', rfl, h'.notesInQueue.symm, h'.current16thNote.symm, h'.nextNoteTime.symm⟩
  · intro e he
    rw [he] at h
    cases ht : onWorkerMessage fuel now (setResolution r s) with
    | error e' =>
        rw [ht] at h
        have h' : e = e' := h
        rw [h']
    | ok t' => rw [ht] at h; exact absurd h (by simp [OutcomeAgree])

/-- Witness of C15: the sample state ticked at 1/4 s with resolution Sixteenth and Quarter. -/
theorem queue_independent_of_resolution_witness :
    ∃ s', onWorkerMessage 5 (1 / 4) sampleStarted = .ok s' ∧
      s'.notesInQueue = [⟨0, 0⟩, ⟨1, 1 / 8⟩, ⟨2, 1 / 4⟩] ∧
      ∃ t', onWorkerMessage 5 (1 / 4) (setResolution 2 sampleStarted) = .ok t' ∧
        t'.notesInQueue = s'.notesInQueue ∧ t'.current16thNote = s'.current16thNote ∧
        t'.nextNoteTime = s'.nextNoteTime := by
  have hrun : ∃ s', onWorkerMessage 5 (1 / 4) sampleStarted = .ok s' ∧
      s'.notesInQueue = [⟨0, 0⟩, ⟨1, 1 / 8⟩, ⟨2, 1 / 4⟩] := by
    norm_num [onWorkerMessage, sampleStarted, scheduler, start, initial, scheduleNote, nextNote,
      scheduleAheadTime]
  obtain ⟨s', hs', hq⟩ := hrun
  exact ⟨s', hs', hq, (queue_independent_of_resolution sampleStarted 2 5 (1 / 4)).1 s' hs'⟩

/-- C19, the claim as stated, fails on the code.  At -120 bpm, started at 0 and ticked at 0,
the first iteration queues beat 0 and moves the next-note time to -0.125; the second calls
`osc.start(-0.125)`, which throws a `RangeError`: the loop is left after one iteration, with
its condition still true.  At 10^18 bpm, a positive tempo, started at 1 and ticked at 1, the
advance 1.5e-17 is absorbed by the next-note time and the loop never exits. -/
theorem tick_left_by_range_error_or_never :
    (negativeTempoPlaying.isPlaying = true ∧ negativeTempoPlaying.tempo < 0 ∧
      negativeTempoPlaying.nextNoteTime < Float64.add 0 scheduleAheadTime64) ∧
    (∀ fuel, 2 ≤ fuel → onWorkerMessage64 fuel 0 negativeTempoPlaying = .error .rangeError) ∧
    (hugeTempoPlaying.isPlaying = true ∧ 0 < hugeTempoPlaying.tempo ∧
      hugeTempoPlaying.nextNoteTime < Float64.add 1 scheduleAheadTime64) ∧
    (∀ fuel, onWorkerMessage64 fuel 1 hugeTempoPlaying = .error .outOfFuel) := by
  refine ⟨⟨rfl, ?_, ?_⟩, fun fuel hfuel => tick_negativeTempoPlaying fuel hfuel,
    ⟨rfl, ?_, ?_⟩, fun fuel => tick_hugeTempoPlaying fuel⟩
  · rw [show negativeTempoPlaying.tempo = -120 from rfl]; norm_num
  · rw [show negativeTempoPlaying.nextNoteTime = 0 from rfl, horizon_zero]; norm_num
  · rw [show hugeTempoPlaying.tempo = 10 ^ 18 from rfl]; norm_num
  · rw [show hugeTempoPlaying.nextNoteTime = 1 from rfl, horizon_one]; norm_num

/-- C19, amended.  In the code's double arithmetic and with the tone emitter of Web Audio: in a
playing state with a negative tempo and a next-note time that is a double below the double sum
of `now` and `0.1`, the tick handling returns no state, whatever the fuel: it goes on for ever
or is left by the `RangeError` of `osc.start` at a negative time.  In exact arithmetic: with a
negative tempo `T` and a next-note time `t` before `now + scheduleAheadTime`, after any number
`n` of advances (`#nextNote`) the next-note time is `t - n * 15 / |T|`, still before
`now + scheduleAheadTime`; with a positive tempo the loop ends after finitely many
iterations. -/
theorem negative_tempo_tick_never_returns (s : State) (now : ℚ) (c : Nat)
    (hplay : s.isPlaying = true) (hctx : s.audioContext.isSome = true)
    (hc : s.current16thNote = some c) (hc16 : c < 16) :
    (s.tempo < 0 → Float64.round s.nextNoteTime = s.nextNoteTime →
      s.nextNoteTime < Float64.add now scheduleAheadTime64 →
      ∀ fuel, onWorkerMessage64 fuel now s = .error .outOfFuel ∨
        onWorkerMessage64 fuel now s = .error .rangeError) ∧
    (s.tempo < 0 → s.nextNoteTime < now + scheduleAheadTime →
      ∀ n : Nat, (nextNote^[n] s).nextNoteTime = s.nextNoteTime - n * (15 / |s.tempo|) ∧
        (nextNote^[n] s).nextNoteTime < now + scheduleAheadTime) ∧
    (0 < s.tempo → ∃ n, ∀ fuel, n < fuel → ∃ s', onWorkerMessage fuel now s = .ok s') := by
  refine ⟨fun hT hrep hlt fuel => ?_, fun hT hlt n => ?_, fun hT => ?_⟩
  · simp only [onWorkerMessage64, hplay, if_true]
    exact scheduler64_negative_tempo fuel now s hctx (by rw [hc]; rfl) hT hrep hlt
  · have hd : 15 / s.tempo < 0 := div_neg_of_pos_of_neg (by norm_num) hT
    have hk : (n : ℚ) * (15 / s.tempo) ≤ 0 :=
      mul_nonpos_of_nonneg_of_nonpos (Nat.cast_nonneg n) hd.le
    rw [(nextNote_iterate_time n s).1]
    refine ⟨?_, by linarith⟩
    rw [abs_of_neg hT, div_neg]
    ring
  · classical
    have hex := exists_grid_index s.nextNoteTime (now + scheduleAheadTime) s.tempo hT
    refine ⟨Nat.find hex, fun fuel hfuel => ?_⟩
    obtain ⟨s', hs', -⟩ :=
      scheduler_grid (Nat.find hex) fuel now s c hctx hc hc16
        (fun k hk => not_le.mp (Nat.find_min hex hk)) (not_lt.mpr (Nat.find_spec hex)) hfuel
    exact ⟨s', by simp only [onWorkerMessage, hplay, if_true, hs']⟩

/-- Witness of C19: -120 bpm, started at 0 and ticked at clock time 0; and the sample state
(120 bpm). -/
theorem negative_tempo_tick_never_returns_witness :
    (negativeTempoPlaying.isPlaying = true ∧ negativeTempoPlaying.tempo < 0 ∧
      Float64.round negativeTempoPlaying.nextNoteTime = negativeTempoPlaying.nextNoteTime ∧
      negativeTempoPlaying.nextNoteTime < Float64.add 0 scheduleAheadTime64 ∧
      negativeTempoPlaying.nextNoteTime < 0 + scheduleAheadTime) ∧
    (∀ fuel, onWorkerMessage64 fuel 0 negativeTempoPlaying = .error .outOfFuel ∨
      onWorkerMessage64 fuel 0 negativeTempoPlaying = .error .rangeError) ∧
    (∀ n : Nat, (nextNote^[n] negativeTempoPlaying).nextNoteTime
        = negativeTempoPlaying.nextNoteTime - n * (15 / |negativeTempoPlaying.tempo|) ∧
      (nextNote^[n] negativeTempoPlaying).nextNoteTime < 0 + scheduleAheadTime) ∧
    (∃ n, ∀ fuel, n < fuel → ∃ s', onWorkerMessage fuel 0 sampleStarted = .ok s') :=
  have hT : negativeTempoPlaying.tempo < 0 := by
    norm_num [negativeTempoPlaying, start, setTempo]
  have hrep : Float64.round negativeTempoPlaying.nextNoteTime
      = negativeTempoPlaying.nextNoteTime := float64_round_zero
  have hlt64 : negativeTempoPlaying.nextNoteTime < Float64.add 0 scheduleAheadTime64 := by
    rw [show negativeTempoPlaying.nextNoteTime = 0 from rfl, horizon_zero]; norm_num
  have hlt : negativeTempoPlaying.nextNoteTime < 0 + scheduleAheadTime := by
    norm_num [negativeTempoPlaying, start, scheduleAheadTime]
  ⟨⟨rfl, hT, hrep, hlt64, hlt⟩,
    (negative_tempo_tick_never_returns negativeTempoPlaying 0 0 rfl rfl rfl (by decide)).1
      hT hrep hlt64,
    (negative_tempo_tick_never_returns negativeTempoPlaying 0 0 rfl rfl rfl (by decide)).2.1
      hT hlt,
    (negative_tempo_tick_never_returns sampleStarted 0 0 rfl rfl rfl (by decide)).2.2
      (by norm_num [sampleStarted, start, initial])⟩

/-- C16, the claim as stated, fails in the code's double arithmetic: at 120 bpm with resolution
Quarter, started at clock time 1.5005895691609978 and ticked at 2.0027210884353743, the tones
of beats 0 and 4 start at 1.5005895691609978 and at 2.000589569160998, which are
`1/2 + 2^-52` apart (0.5000000000000002), not `60 / 120`. -/
theorem quarter_tones_not_half_a_second_apart :
    (quarterAt517.isPlaying = true ∧ quarterAt517.tempo = 120 ∧
      quarterAt517.noteResolution = 2 ∧ quarterAt517.nextNoteTime = clock517) ∧
    (∀ fuel, 5 < fuel → ∃ s', onWorkerMessage64 fuel clock690 quarterAt517 = .ok s' ∧
      s'.notesInQueue.map (fun e => e.note) = [0, 1, 2, 3, 4] ∧
      (tonesOf s').map (fun t => (t.frequency, t.startTime))
        = [(880, clock517), (440, clock517 + 1 / 2 + 1 / 2 ^ 52)]) ∧
    (clock517 + 1 / 2 + 1 / 2 ^ 52) - clock517 ≠ 60 / quarterAt517.tempo := by
  refine ⟨⟨rfl, rfl, rfl, rfl⟩, fun fuel hfuel => tick_quarterAt517 fuel hfuel, ?_⟩
  rw [show quarterAt517.tempo = 120 from rfl]
  norm_num [clock517]

/-- C16, amended: in exact arithmetic, with the tempo `T > 0` and the resolution Quarter left
alone after a `start()` at `now0`, the tones started are those of the queued events whose beat
is a multiple of 4 (that is 0, 4, 8 or 12), accent pitch 880 for beat 0 and strong pitch 440 for
4, 8, 12; the `j`-th tone starts at `now0 + j * 60 / T`, so consecutive tones are exactly
`60 / T` apart; the weak pitch 220 is never emitted. -/
theorem quarter_resolution_tones (s0 : State) (now0 : ℚ) (fuel : Nat) (acts : List Action)
    (_hT : 0 < s0.tempo) (hres : s0.noteResolution = 2)
    (hacts : ∀ a ∈ acts,
      a.isStart = false ∧ a.setsTempo = false ∧ a.setsResolution = false) :
    (emittedDuring fuel acts (start now0 s0)
      = ((queuedDuring fuel acts (start now0 s0)).filter
            (fun e => decide (e.note % 4 = 0))).map (fun e =>
          ({ frequency := if e.note % 16 = 0 then 880 else 440, startTime := e.time,
             stopTime := e.time + 1 / 20 } : Tone))) ∧
    (∀ e ∈ queuedDuring fuel acts (start now0 s0),
      (e.note % 4 = 0 ↔ e.note ∈ [0, 4, 8, 12]) ∧ (e.note % 16 = 0 ↔ e.note = 0)) ∧
    (∃ m, emittedDuring fuel acts (start now0 s0)
      = (List.range m).map (fun (j : Nat) =>
          ({ frequency := if j % 4 = 0 then 880 else 440,
             startTime := now0 + (j : ℚ) * (60 / s0.tempo),
             stopTime := now0 + (j : ℚ) * (60 / s0.tempo) + 1 / 20 } : Tone))) ∧
    (∀ (i : Nat) (t₁ t₂ : Tone),
      (emittedDuring fuel acts (start now0 s0))[i]? = some t₁ →
      (emittedDuring fuel acts (start now0 s0))[i + 1]? = some t₂ →
      t₂.startTime - t₁.startTime = 60 / s0.tempo) ∧
    (∀ t ∈ emittedDuring fuel acts (start now0 s0),
      (t.frequency = 880 ∨ t.frequency = 440) ∧ t.frequency ≠ 220) := by
  obtain ⟨n, -, hgrid⟩ := queuedDuring_grid fuel acts (start now0 s0) 0 rfl (by norm_num)
    (fun a ha => (hacts a ha).1)
  have hq : queuedDuring fuel acts (start now0 s0) = gridEvents 0 now0 (15 / s0.tempo) n :=
    hgrid (fun a ha => (hacts a ha).2.1)
  have hres' : (start now0 s0).noteResolution = 2 := hres
  have hem : emittedDuring fuel acts (start now0 s0)
      = ((queuedDuring fuel acts (start now0 s0)).filter
            (fun e => decide (e.note % 4 = 0))).map (fun e =>
          ({ frequency := if e.note % 16 = 0 then 880 else 440, startTime := e.time,
             stopTime := e.time + 1 / 20 } : Tone)) := by
    rw [emittedDuring_eq fuel acts _ (fun a ha => (hacts a ha).2.2), hres',
      flatMap_tonesFor_quarter]
    rfl
  have hrange : emittedDuring fuel acts (start now0 s0)
      = (List.range ((n + 3) / 4)).map (fun (j : Nat) =>
          ({ frequency := if j % 4 = 0 then 880 else 440,
             startTime := now0 + (j : ℚ) * (60 / s0.tempo),
             stopTime := now0 + (j : ℚ) * (60 / s0.tempo) + 1 / 20 } : Tone)) := by
    rw [hem, hq, gridEvents_filter_quarter, List.map_map]
    refine List.map_congr_left fun j _ => ?_
    have hj : (4 * j % 16 % 16 = 0) ↔ j % 4 = 0 := by omega
    have ht : now0 + (j : ℚ) * (4 * (15 / s0.tempo)) = now0 + j * (60 / s0.tempo) := by ring
    simp only [Function.comp, hj, ht]
  refine ⟨hem, ?_, ⟨_, hrange⟩, ?_, ?_⟩
  · intro e he
    rw [hq] at he
    obtain ⟨k, -, rfl⟩ := mem_gridEvents he
    have hlt : (0 + k) % 16 < 16 := Nat.mod_lt _ (by norm_num)
    simp only [List.mem_cons, List.mem_singleton, List.not_mem_nil, or_false]
    constructor <;> omega
  · intro i t₁ t₂ h₁ h₂
    rw [hrange, List.getElem?_map] at h₁ h₂
    obtain ⟨j₁, hj₁, rfl⟩ := Option.map_eq_some'.mp h₁
    obtain ⟨j₂, hj₂, rfl⟩ := Option.map_eq_some'.mp h₂
    obtain ⟨hlt₁, e₁⟩ := List.getElem?_eq_some_iff.mp hj₁
    obtain ⟨hlt₂, e₂⟩ := List.getElem?_eq_some_iff.mp hj₂
    rw [List.getElem_range] at e₁ e₂
    subst e₁ e₂
    simp only
    push_cast
    ring
  · intro t ht
    rw [hrange, List.mem_map] at ht
    obtain ⟨j, -, rfl⟩ := ht
    by_cases hj : j % 4 = 0
    · simp only [hj, if_true]; norm_num
    · simp only [hj, if_false]; norm_num

/-- Witness of C16: 120 bpm, Quarter, ticks at 0, 0.5 and 1 s: beats 0 .. 8 are queued and
three tones are started, 880 Hz at 0 s, 440 Hz at 0.5 s and at 1 s. -/
theorem quarter_resolution_tones_witness :
    ((0 : ℚ) < quarterIdle.tempo ∧ quarterIdle.noteResolution = 2 ∧
      ∀ a ∈ threeTicks,
        a.isStart = false ∧ a.setsTempo = false ∧ a.setsResolution = false) ∧
    emittedDuring 6 threeTicks (start 0 quarterIdle)
      = [⟨880, 0, 1 / 20⟩, ⟨440, 1 / 2, 11 / 20⟩, ⟨440, 1, 21 / 20⟩] ∧
    ((1 / 2 : ℚ) - 0 = 60 / quarterIdle.tempo) := by
  have hT : (0 : ℚ) < quarterIdle.tempo := by norm_num [quarterIdle, setResolution, initial]
  have hacts : ∀ a ∈ threeTicks,
      a.isStart = false ∧ a.setsTempo = false ∧ a.setsResolution = false := by
    simp [threeTicks, Action.isStart, Action.setsTempo, Action.setsResolution]
  have hem : emittedDuring 6 threeTicks (start 0 quarterIdle)
      = [⟨880, 0, 1 / 20⟩, ⟨440, 1 / 2, 11 / 20⟩, ⟨440, 1, 21 / 20⟩] := by
    norm_num [emittedDuring, emittedBy, tonesOf, threeTicks, step, onWorkerMessage, scheduler,
      start, quarterIdle, setResolution, initial, scheduleNote, nextNote, scheduleAheadTime,
      noteLength]
  have h := quarter_resolution_tones quarterIdle 0 6 threeTicks hT rfl hacts
  refine ⟨⟨hT, rfl, hacts⟩, hem, ?_⟩
  exact h.2.2.2.1 0 ⟨880, 0, 1 / 20⟩ ⟨440, 1 / 2, 11 / 20⟩ (by rw [hem]; rfl) (by rw [hem]; rfl)

end Metronome
